import Mathlib

/-!
# Lelantus coin model and wallet mint / coin-selection routines

A shallow embedding of `src/liblelantus/coin.cpp` and of the mint and
coin-selection routines of `src/wallet/wallet.cpp`, followed by the
properties proved about them.

Conventions of the embedding

* `uint64_t` and `unsigned int` values are naturals; `int` and `CAmount`
  (`int64_t`) values are integers.  Conversions between the signed and the
  unsigned types are the explicit functions `toUnsignedInt` and `toCAmount`.
  The `CAmount` sums and differences of the Lelantus coin selection
  (`CalculateLelantusCoinsBalance`, `GetCoinsToJoinSplit`), whose operands are
  not range-checked, are reduced to 64 bits with `wrapInt64`, as the compiled
  code does; the other routines add and compare amounts as integers.
* Group elements, scalars, hashes and the random number generator belong to
  libraries outside the translated sources; every operation on them is a
  field of a record of primitives (`Primitives`, `MintEnv`, `SigmaMintEnv`,
  `CoinEnv`, `DenomEnv`, `FeeEnv`, `SerialEnv`, `SpentEnv`, `AmountEnv`).
* An exception is a value of `Exception`; a routine that can throw returns
  `Except Exception _`, and a routine with an unbounded loop takes fuel and
  returns `Outcome` (or `none`) when the fuel runs out.
* An access outside a `std::vector` has no defined behaviour in the source;
  `GetCoinsToSpend` reports it as `SpendStop.outOfBounds`.
-/

/-! ## Shared vocabulary -/

/-- The exception classes thrown by the translated routines. -/
inductive Exception where
  | logic_error (what : String)
  | runtime_error (what : String)
  | invalid_argument (what : String)
  | WalletError (what : String)
  | InsufficientFunds
  deriving DecidableEq, Repr

/-- Result of running a routine whose loop is bounded by fuel in the model:
it returned a value, it threw, or it was still looping when the fuel ran out. -/
inductive Outcome (α : Type) where
  | returned (a : α)
  | threw (e : Exception)
  | looping
  deriving DecidableEq, Repr

/-- Conversion `int → unsigned int` (reduction modulo `2^32`). -/
def toUnsignedInt (i : Int) : Nat := (i % 2 ^ 32).toNat

/-- The result of an `int64_t` addition or subtraction whose exact value is `x`:
the value reduced into `[-2^63, 2^63)` (two's complement), as the compiled code
computes it. -/
def wrapInt64 (x : Int) : Int :=
  (x + 9223372036854775808) % 18446744073709551616 - 9223372036854775808

/-- Conversion `uint64_t → CAmount` (`int64_t`): two's complement reading. -/
def toCAmount (n : Nat) : Int :=
  if n % 2 ^ 64 < 2 ^ 63 then ((n % 2 ^ 64 : Nat) : Int) else ((n % 2 ^ 64 : Nat) : Int) - 2 ^ 64

namespace lelantus

/-! ## `liblelantus/coin.cpp` -/

/-- The generator set `(g, h0, h1)` read through `Params::get_g`, `get_h0`, `get_h1`. -/
structure Params (G : Type) where
  get_g : G
  get_h0 : G
  get_h1 : G
  deriving DecidableEq, Repr

/-- Operations of the group/scalar library used by `coin.cpp`.
`double_commit` is `LelantusPrimitives::double_commit`, `scalarOfUInt64` is the
constructor `Scalar(uint64_t)`, `randomize` is `Scalar::randomize` drawing from
a generator state of type `R`. -/
structure Primitives (S G R : Type) where
  double_commit : G → S → G → S → G → S → G
  scalarOfUInt64 : Nat → S
  isMember : G → Bool
  isInfinity : G → Bool
  randomize : R → S × R

/-- Class `PublicCoin`: one group element. -/
structure PublicCoin (G : Type) where
  value : G
  deriving DecidableEq, Repr

/-- `PublicCoin::getValue`. -/
def PublicCoin.getValue {G : Type} (c : PublicCoin G) : G := c.value

/-- `PublicCoin::validate`: `value.isMember() && !value.isInfinity()`. -/
def PublicCoin.validate {S G R : Type} (prim : Primitives S G R) (c : PublicCoin G) : Bool :=
  prim.isMember c.value && !prim.isInfinity c.value

/-- Modelled from the spec: the members of class `PrivateCoin`, which is declared
in `coin.h`, outside the translated sources.  `value` is a `uint64_t`, `version`
an `unsigned int` (the type `getVersion` returns), `ecdsaSeckey` the 32-byte
auxiliary secret key. -/
structure PrivateCoin (S G : Type) where
  params : Params G
  publicCoin : PublicCoin G
  serialNumber : S
  value : Nat
  randomness : S
  version : Nat
  ecdsaSeckey : List Nat
  deriving DecidableEq, Repr

namespace PrivateCoin

variable {S G R : Type}

/-- `PrivateCoin::getParams`. -/
def getParams (c : PrivateCoin S G) : Params G := c.params

/-- `PrivateCoin::getPublicCoin`. -/
def getPublicCoin (c : PrivateCoin S G) : PublicCoin G := c.publicCoin

/-- `PrivateCoin::getV`. -/
def getV (c : PrivateCoin S G) : Nat := c.value

/-- `PrivateCoin::getVScalar`: `Scalar(this->value)`. -/
def getVScalar (prim : Primitives S G R) (c : PrivateCoin S G) : S :=
  prim.scalarOfUInt64 c.value

/-- `PrivateCoin::getEcdsaSeckey`. -/
def getEcdsaSeckey (c : PrivateCoin S G) : List Nat := c.ecdsaSeckey

/-- `PrivateCoin::setPublicCoin`. -/
def setPublicCoin (c : PrivateCoin S G) (p : PublicCoin G) : PrivateCoin S G :=
  { c with publicCoin := p }

/-- `PrivateCoin::setRandomness`. -/
def setRandomness (c : PrivateCoin S G) (n : S) : PrivateCoin S G :=
  { c with randomness := n }

/-- `PrivateCoin::setSerialNumber`. -/
def setSerialNumber (c : PrivateCoin S G) (n : S) : PrivateCoin S G :=
  { c with serialNumber := n }

/-- `PrivateCoin::setV`. -/
def setV (c : PrivateCoin S G) (n : Nat) : PrivateCoin S G :=
  { c with value := n }

/-- `PrivateCoin::setVersion`. -/
def setVersion (c : PrivateCoin S G) (nVersion : Nat) : PrivateCoin S G :=
  { c with version := nVersion }

/-- `PrivateCoin::setEcdsaSeckey(const std::vector<unsigned char>&)`:
copies the vector when its size is `sizeof(ecdsaSeckey)` (32), throws otherwise. -/
def setEcdsaSeckey (c : PrivateCoin S G) (seckey : List Nat) :
    Except Exception (PrivateCoin S G) :=
  if seckey.length = 32 then .ok { c with ecdsaSeckey := seckey }
  else .error (.invalid_argument "EcdsaSeckey size does not match.")

/-- `PrivateCoin::mintCoin`: randomizes the serial number, then the randomness,
stores `v` and recomputes the public coin. -/
def mintCoin (prim : Primitives S G R) (c : PrivateCoin S G) (v : Nat) (rng : R) :
    PrivateCoin S G × R :=
  let s := prim.randomize rng
  let r := prim.randomize s.2
  let c1 : PrivateCoin S G := { c with serialNumber := s.1, randomness := r.1, value := v }
  let commit := prim.double_commit c1.params.get_g c1.serialNumber c1.params.get_h1
    (getVScalar prim c1) c1.params.get_h0 c1.randomness
  ({ c1 with publicCoin := PublicCoin.mk commit }, r.2)

/-- Constructor `PrivateCoin(const Params* p, const uint64_t& v)`.  `raw` is the
object before the constructor runs (the members the constructor does not
mention keep their contents). -/
def create (prim : Primitives S G R) (raw : PrivateCoin S G) (p : Params G) (v : Nat)
    (rng : R) : PrivateCoin S G × R :=
  mintCoin prim { raw with params := p } v rng

/-- Constructor `PrivateCoin(p, serial, v, random, version_)`; `version_` is an
`int` stored into the `unsigned int` member. -/
def createFrom (prim : Primitives S G R) (raw : PrivateCoin S G) (p : Params G) (serial : S)
    (v : Nat) (random : S) (version_ : Int) : PrivateCoin S G :=
  let c1 : PrivateCoin S G :=
    { raw with params := p, serialNumber := serial, value := v, randomness := random,
               version := toUnsignedInt version_ }
  { c1 with publicCoin := PublicCoin.mk (prim.double_commit c1.params.get_g c1.serialNumber
      c1.params.get_h1 (getVScalar prim c1) c1.params.get_h0 c1.randomness) }

/-- The `PrivateCoin` invariant of the data model:
`publicCoin == DoubleCommit(serialNumber, value, randomness)` under the
generators of the coin's parameters. -/
def Invariant (prim : Primitives S G R) (c : PrivateCoin S G) : Prop :=
  c.publicCoin = PublicCoin.mk (prim.double_commit c.params.get_g c.serialNumber
    c.params.get_h1 (prim.scalarOfUInt64 c.value) c.params.get_h0 c.randomness)

instance (prim : Primitives S G R) (c : PrivateCoin S G) [DecidableEq G] :
    Decidable (Invariant prim c) := by
  unfold Invariant; infer_instance

end PrivateCoin

/-- A small instance of the primitives used to evaluate the model: scalars and
group elements are integers, the group is `(ℤ, +)`, the generator state is a
counter. -/
def toyPrimitives : Primitives Int Int Nat where
  double_commit := fun g s h1 v h0 r => g * s + h1 * v + h0 * r
  scalarOfUInt64 := fun n => (n : Int)
  isMember := fun _ => true
  isInfinity := fun x => x == 0
  randomize := fun n => ((n : Int) + 1, n + 1)

/-- Generators for `toyPrimitives`. -/
def toyParams : Params Int := { get_g := 1, get_h0 := 3, get_h1 := 5 }

/-- An object before construction, for `toyPrimitives`. -/
def toyRaw : PrivateCoin Int Int :=
  { params := toyParams, publicCoin := PublicCoin.mk 0, serialNumber := 0, value := 0,
    randomness := 0, version := 0, ecdsaSeckey := List.replicate 32 0 }

/-- The coin `PrivateCoin(toyParams, 1, 10, 7, 0)` over `toyPrimitives`. -/
def toyCoin : PrivateCoin Int Int :=
  PrivateCoin.createFrom toyPrimitives toyRaw toyParams 1 10 7 0

/-- The coin `PrivateCoin(toyParams, 1, 2^63, 7, 0)` over `toyPrimitives`: its
value is the smallest `uint64_t` above the largest `int64_t`. -/
def toyHugeCoin : PrivateCoin Int Int :=
  PrivateCoin.createFrom toyPrimitives toyRaw toyParams 1 9223372036854775808 7 0

end lelantus

/-! ## `wallet/wallet.cpp`: mint recipients -/

/-- `CRecipient`: the triple `(scriptPubKey, nAmount, fSubtractFeeFromAmount)`;
the script is its byte sequence. -/
structure CRecipient where
  scriptPubKey : List Nat
  nAmount : Int
  fSubtractFeeFromAmount : Bool
  deriving DecidableEq, Repr

/-- `EnsureMintWalletAvailable`: throws `std::logic_error` when `pwalletMain` or
its `zwallet` is null.  The wallet is `none` in that case. -/
def EnsureMintWalletAvailable {W : Type} (pwalletMain : Option W) : Except Exception W :=
  match pwalletMain with
  | none => .error (.logic_error "Sigma feature requires HD wallet")
  | some w => .ok w

/-- Everything `CreateLelantusMintRecipient` calls outside the translated sources.
`W` is the state of the mint wallet and its database, `M` is `CHDMint`, `H256` and
`H160` are `uint256` and `uint160`.

* `GenerateLelantusMint w coin vDMint seedID` is
  `zwallet->GenerateLelantusMint(walletdb, coin, vDMint, seedID)`, which updates
  all four;
* `GenerateMintSchnorrProof w coin` gives the bytes written to the stream;
* `getvch` is `GroupElement::getvch`, `add`, `mul`, `negate` the group and scalar
  operations, `scalarOfAmount m` is `Scalar(m.GetAmount())`;
* `defaultParams` is `Params::get_default()`, `zero160` the default `uint160`;
* `serialize256` and `serialize160` are the stream encodings, `Hash` the
  double-SHA256 of a byte range;
* `HasCoinTag h` is `CLelantusState::GetState()->HasCoinTag(dummyValue, h)`;
* `OP_LELANTUSMINT` is the opcode byte. -/
structure MintEnv (S G R W M H256 H160 : Type) where
  prim : lelantus.Primitives S G R
  GenerateLelantusMint : W → lelantus.PrivateCoin S G → M → H160 →
    W × lelantus.PrivateCoin S G × M × H160
  GenerateMintSchnorrProof : W → lelantus.PrivateCoin S G → W × List Nat
  getvch : G → List Nat
  add : G → G → G
  mul : G → S → G
  negate : S → S
  GetPubcoinValue : M → G
  scalarOfAmount : M → S
  defaultParams : lelantus.Params G
  GetPubCoinValueHash : G → H256
  zero160 : H160
  serialize256 : H256 → List Nat
  serialize160 : H160 → List Nat
  Hash : List Nat → H256
  HasCoinTag : H256 → Bool
  OP_LELANTUSMINT : Nat

/-- The variables `CreateLelantusMintRecipient` updates through its references. -/
structure MintState (S G W M : Type) where
  wallet : W
  coin : lelantus.PrivateCoin S G
  vDMint : M
  deriving DecidableEq, Repr

namespace CWallet

variable {S G R W M H256 H160 : Type}

/-- Lines 2715-2719: `uint160 seedID; if (generate) GenerateLelantusMint(...)`. -/
def generateStep (env : MintEnv S G R W M H256 H160) (generate : Bool)
    (st : MintState S G W M) : MintState S G W M × H160 :=
  if generate then
    let r := env.GenerateLelantusMint st.wallet st.coin st.vDMint env.zero160
    ({ wallet := r.1, coin := r.2.1, vDMint := r.2.2.1 }, r.2.2.2)
  else (st, env.zero160)

/-- Lines 2743-2749: the uniqueness tag `hashForRecover`. -/
def hashForRecover (env : MintEnv S G R W M H256 H160) (vDMint : M) (seedID : H160) : H256 :=
  let pubcoin := env.add (env.GetPubcoinValue vDMint)
    (env.mul env.defaultParams.get_h1 (env.negate (env.scalarOfAmount vDMint)))
  let hashPub := env.GetPubCoinValueHash pubcoin
  let ss := env.serialize256 hashPub ++ env.serialize160 seedID
  env.Hash ss

/-- The `while (true)` loop of `CreateLelantusMintRecipient`, one iteration per
unit of fuel. -/
def mintRecipientLoop (env : MintEnv S G R W M H256 H160) (generate : Bool) :
    Nat → MintState S G W M → Outcome (CRecipient × MintState S G W M)
  | 0, _ => .looping
  | fuel + 1, st =>
    let gen := generateStep env generate st
    let st1 := gen.1
    let seedID := gen.2
    let pubCoin := st1.coin.getPublicCoin
    if !pubCoin.validate env.prim then
      .threw (.runtime_error "Unable to mint a lelantus coin.")
    else
      let script0 : List Nat := [env.OP_LELANTUSMINT]
      let vch := env.getvch pubCoin.getValue
      let script1 := script0 ++ vch
      let proof := env.GenerateMintSchnorrProof st1.wallet st1.coin
      let script2 := script1 ++ proof.2
      let tag := hashForRecover env st1.vDMint seedID
      let st2 : MintState S G W M := { st1 with wallet := proof.1 }
      if env.HasCoinTag tag then
        mintRecipientLoop env generate fuel st2
      else
        let script3 := script2 ++ env.serialize256 tag
        .returned ({ scriptPubKey := script3, nAmount := toCAmount st1.coin.getV,
                     fSubtractFeeFromAmount := false }, st2)

/-- `CWallet::CreateLelantusMintRecipient(coin, vDMint, generate)`. -/
def CreateLelantusMintRecipient (env : MintEnv S G R W M H256 H160) (pwalletMain : Option W)
    (coin : lelantus.PrivateCoin S G) (vDMint : M) (generate : Bool) (fuel : Nat) :
    Outcome (CRecipient × MintState S G W M) :=
  match EnsureMintWalletAvailable pwalletMain with
  | .error e => .threw e
  | .ok w => mintRecipientLoop env generate fuel { wallet := w, coin := coin, vDMint := vDMint }

end CWallet

namespace sigma

/-- `sigma::PublicCoin`: a group element with its denomination. -/
structure PublicCoin (G D : Type) where
  value : G
  denomination : D

end sigma

/-- What `CreateSigmaMintRecipients` calls outside the translated sources.  `C`
is `sigma::PrivateCoin`, `D` is `sigma::CoinDenomination`.
`GenerateMint w d coin dMint` is `zwallet->GenerateMint(walletdb, d, coin, dMint)`,
`validate` is `sigma::PublicCoin::validate`, `DenominationToInteger d` the value
written to `v`, `freshMint` a default-constructed `CHDMint`. -/
structure SigmaMintEnv (G D C W M : Type) where
  GenerateMint : W → D → C → M → W × C × M
  getPublicCoin : C → sigma.PublicCoin G D
  validate : sigma.PublicCoin G D → Bool
  getvch : G → List Nat
  DenominationToInteger : D → Int
  freshMint : M
  OP_SIGMAMINT : Nat

/-- State threaded through `CreateSigmaMintRecipients`: the wallet and the vector
`vDMints`. -/
structure SigmaMintState (W M : Type) where
  wallet : W
  vDMints : List M

namespace CWallet

variable {G D C W M : Type}

/-- The lambda passed to `std::transform` in `CreateSigmaMintRecipients`. -/
def sigmaMintRecipient (env : SigmaMintEnv G D C W M) (st : SigmaMintState W M) (coin : C) :
    Except Exception (CRecipient × C × SigmaMintState W M) :=
  let r := env.GenerateMint st.wallet (env.getPublicCoin coin).denomination coin env.freshMint
  let coin1 := r.2.1
  let dMint := r.2.2
  let pubCoin := env.getPublicCoin coin1
  if !env.validate pubCoin then
    .error (.runtime_error "Unable to mint a sigma coin.")
  else
    let scriptSerializedCoin := [env.OP_SIGMAMINT] ++ env.getvch pubCoin.value
    let v := env.DenominationToInteger pubCoin.denomination
    .ok ({ scriptPubKey := scriptSerializedCoin, nAmount := v, fSubtractFeeFromAmount := false },
         coin1, { wallet := r.1, vDMints := st.vDMints ++ [dMint] })

/-- The `std::transform` over `coins`, appending to `vecSend`; returns the
recipients, the updated coins and the final state, or the first exception. -/
def sigmaMintTransform (env : SigmaMintEnv G D C W M) :
    SigmaMintState W M → List C → Except Exception (List CRecipient × List C × SigmaMintState W M)
  | st, [] => .ok ([], [], st)
  | st, coin :: rest =>
    match sigmaMintRecipient env st coin with
    | .error e => .error e
    | .ok (rcp, coin1, st1) =>
      match sigmaMintTransform env st1 rest with
      | .error e => .error e
      | .ok (rcps, coins1, st2) => .ok (rcp :: rcps, coin1 :: coins1, st2)

/-- `CWallet::CreateSigmaMintRecipients(coins, vDMints)`. -/
def CreateSigmaMintRecipients (env : SigmaMintEnv G D C W M) (pwalletMain : Option W)
    (coins : List C) (vDMints : List M) :
    Except Exception (List CRecipient × List C × SigmaMintState W M) :=
  match EnsureMintWalletAvailable pwalletMain with
  | .error e => .error e
  | .ok w => sigmaMintTransform env { wallet := w, vDMints := vDMints } coins

end CWallet

/-! ## `wallet/wallet.cpp`: available coins and coin selection -/

/-- `CLelantusEntry` (declared outside the translated sources), with the members
the wallet routines read: the public group element, the used flag, the mint
height, the group id and the amount, a `CAmount`. -/
structure CLelantusEntry (G : Type) where
  value : G
  IsUsed : Bool
  nHeight : Int
  id : Int
  amount : Int
  deriving DecidableEq, Repr

/-- `CSigmaEntry` (declared outside the translated sources), with the members
the selection routines read; `get_denomination_value` is the amount of the
entry's denomination, a `CAmount`. -/
structure CSigmaEntry where
  IsUsed : Bool
  nHeight : Int
  get_denomination_value : Int
  deriving DecidableEq, Repr

/-- `CCoinControl` as seen through `HasSelected` and `IsSelected`; a null
pointer is `none : Option (CCoinControl O)`. -/
structure CCoinControl (O : Type) where
  HasSelected : Bool
  IsSelected : O → Bool

/-- The wallet and chain state read by `GetAvailableLelantusCoins`.  `K` is the
serial hash of a mint meta, `O` is `COutPoint`.

* `ListLelantusMints` is the result of `GetTracker().ListLelantusMints(true, true, false)`
  (the serial hash of each meta);
* `GetMint k forEstimation` is the entry after `GetMint(k, entry, forEstimation)`;
* `GetMintedCoinHeightAndId`, `GetOutPoint` are the state queries on a public coin;
* `coinSetSize maxHeight coinId` is the size of `coinOuts` filled by `GetCoinSetForSpend`;
* `chainHeight` is `chainActive.Height()`. -/
structure CoinEnv (G K O : Type) where
  ListLelantusMints : List K
  GetMint : K → Bool → CLelantusEntry G
  GetMintedCoinHeightAndId : lelantus.PublicCoin G → Int × Int
  coinSetSize : Int → Int → Nat
  GetOutPoint : lelantus.PublicCoin G → O
  chainHeight : Int
  ZC_MINT_CONFIRMATIONS : Int
  setLockedCoins : List O

/-- Modelled from the spec: `MoneyRange` and the bound `MAX_MONEY` are declared in
`amount.h`, outside the translated sources; an amount is in range when it is
non-negative and not above the fixed maximum supply bound. -/
def MoneyRange (MAX_MONEY : Int) (nValue : Int) : Bool :=
  decide (0 ≤ nValue) && decide (nValue ≤ MAX_MONEY)

/-- Insertion of `a` in front of the first element that is not before it. -/
def insertSorted {α : Type} (comp : α → α → Bool) (a : α) : List α → List α
  | [] => [a]
  | b :: l => if comp b a then b :: insertSorted comp a l else a :: b :: l

/-- `std::list::sort(comp)`: the stable sort by the strict ordering `comp`. -/
def listSort {α : Type} (comp : α → α → Bool) : List α → List α
  | [] => []
  | a :: l => insertSorted comp a (listSort comp l)

namespace CWallet

variable {G K O : Type}

/-- The predicate given to `remove_if` in `GetAvailableLelantusCoins`: `true`
when the coin is removed. -/
def lelantusCoinRemoved [DecidableEq O] (env : CoinEnv G K O)
    (coinControl : Option (CCoinControl O)) (includeUnsafe : Bool) (coin : CLelantusEntry G) :
    Bool :=
  if coin.IsUsed then true
  else
    let hi := env.GetMintedCoinHeightAndId (lelantus.PublicCoin.mk coin.value)
    let coinHeight := hi.1
    let coinId := hi.2
    let coinOutsSize := env.coinSetSize (env.chainHeight - (env.ZC_MINT_CONFIRMATIONS - 1)) coinId
    if !includeUnsafe && decide (coinOutsSize < 2) then true
    else if coinHeight == -1 then true
    else if decide (coinHeight + (env.ZC_MINT_CONFIRMATIONS - 1) > env.chainHeight) then true
    else
      let outPoint := env.GetOutPoint (lelantus.PublicCoin.mk coin.value)
      if decide (outPoint ∈ env.setLockedCoins) then true
      else
        match coinControl with
        | none => false
        | some cc => if cc.HasSelected then (if !cc.IsSelected outPoint then true else false)
                     else false

/-- `CWallet::GetAvailableLelantusCoins(coinControl, includeUnsafe, forEstimation)`,
after `EnsureMintWalletAvailable` has passed. -/
def GetAvailableLelantusCoins [DecidableEq O] (env : CoinEnv G K O)
    (coinControl : Option (CCoinControl O)) (includeUnsafe forEstimation : Bool) :
    List (CLelantusEntry G) :=
  let entries := env.ListLelantusMints.map (fun k => env.GetMint k forEstimation)
  let coins := entries.filter (fun entry => entry.amount != 0)
  coins.filter (fun coin => !lelantusCoinRemoved env coinControl includeUnsafe coin)

/-- `CalculateLelantusCoinsBalance`: `balance += start->amount` on a `CAmount`. -/
def CalculateLelantusCoinsBalance (coins : List (CLelantusEntry G)) : Int :=
  coins.foldl (fun balance c => wrapInt64 (balance + c.amount)) 0

/-- The ordering used to sort the coins of `GetCoinsToJoinSplit`: bigger amount
first, lower height first among equal amounts. -/
def amountComparer (a b : CLelantusEntry G) : Bool :=
  if a.amount != b.amount then decide (a.amount > b.amount) else decide (a.nHeight < b.nHeight)

/-- The ordering `idComparer` of `GetCoinsToJoinSplit`: `a.id < b.id`. -/
def idComparer (a b : CLelantusEntry G) : Bool := decide (a.id < b.id)

/-- The reverse scan of lines 3286-3295 over the coins in reverse order
(`rbegin` first): the first coin with `amount >= need` whose successor in this
order is absent or has a different amount; it returns the coin and the other
coins, still in reverse order. -/
def scanFromBack (need : Int) : List (CLelantusEntry G) →
    Option (CLelantusEntry G × List (CLelantusEntry G))
  | [] => none
  | c :: rest =>
    let nextDiffers : Bool :=
      match rest with
      | [] => true
      | n :: _ => n.amount != c.amount
    if decide (c.amount ≥ need) && nextDiffers then some (c, rest)
    else
      match scanFromBack need rest with
      | none => none
      | some (ch, rest1) => some (ch, c :: rest1)

/-- The selection loop of lines 3274-3300, one iteration per unit of fuel.
`nullEntry` is the default-constructed `choosen`.  The result is
`(spend_val, coinsToSpend)`, or `none` when the fuel ran out. -/
def joinSplitLoop (nullEntry : CLelantusEntry G) (required : Int) :
    Nat → Int → List (CLelantusEntry G) → List (CLelantusEntry G) →
    Option (Int × List (CLelantusEntry G))
  | 0, _, _, _ => none
  | fuel + 1, spend_val, coins, coinsToSpend =>
    if spend_val < required then
      match coins with
      | [] => some (spend_val, coinsToSpend)
      | first :: others =>
        let need := wrapInt64 (required - spend_val)
        if need ≥ first.amount then
          joinSplitLoop nullEntry required fuel (wrapInt64 (spend_val + first.amount)) others
            (coinsToSpend ++ [first])
        else
          match scanFromBack need (first :: others).reverse with
          | some (choosen, rest) =>
            joinSplitLoop nullEntry required fuel (wrapInt64 (spend_val + choosen.amount))
              rest.reverse (coinsToSpend ++ [choosen])
          | none =>
            joinSplitLoop nullEntry required fuel (wrapInt64 (spend_val + nullEntry.amount))
              (first :: others) (coinsToSpend ++ [nullEntry])
    else some (spend_val, coinsToSpend)

/-- Lines 3256-3301 of `GetCoinsToJoinSplit`, on the sorted coins: with a
coin-control selection every coin is taken (`spend_val` is summed from the back),
otherwise the selection loop runs.  The result is `(spend_val, coinsToSpend)`, or
`none` when the fuel ran out. -/
def joinSplitSelection {O : Type} (nullEntry : CLelantusEntry G) (fuel : Nat) (required : Int)
    (coins : List (CLelantusEntry G)) (coinControl : Option (CCoinControl O)) :
    Option (Int × List (CLelantusEntry G)) :=
  let coinControlUsed : Bool :=
    match coinControl with
    | none => false
    | some cc => cc.HasSelected
  if coinControlUsed then
    some (coins.reverse.foldl (fun spend_val c => wrapInt64 (spend_val + c.amount)) 0, coins)
  else joinSplitLoop nullEntry required fuel 0 coins []

/-- What `GetCoinsToJoinSplit` leaves behind: how it ended and the contents of
its two output references. -/
structure JoinSplitResult (G : Type) where
  result : Outcome Bool
  coinsToSpend_out : List (CLelantusEntry G)
  changeToMint : Int

/-- `CWallet::GetCoinsToJoinSplit(required, coinsToSpend_out, changeToMint, coins,
coinsToSpendLimit, amountToSpendLimit, coinControl)`. -/
def GetCoinsToJoinSplit (MAX_MONEY : Int) (nullEntry : CLelantusEntry G) (fuel : Nat)
    (required : Int) (coinsToSpend_out : List (CLelantusEntry G)) (changeToMint : Int)
    (coins : List (CLelantusEntry G)) (coinsToSpendLimit : Nat) (amountToSpendLimit : Int)
    (coinControl : Option (CCoinControl O)) : JoinSplitResult G :=
  let unchanged (o : Outcome Bool) : JoinSplitResult G :=
    { result := o, coinsToSpend_out := coinsToSpend_out, changeToMint := changeToMint }
  if !MoneyRange MAX_MONEY required then
    unchanged (.threw (.WalletError "The required amount exceeds 21 MLN FIRO"))
  else if !MoneyRange MAX_MONEY amountToSpendLimit then
    unchanged (.threw (.WalletError "The amount limit exceeds max money"))
  else if required > amountToSpendLimit then
    unchanged (.threw (.WalletError "The required amount exceeds spend limit"))
  else
    let availableBalance := CalculateLelantusCoinsBalance coins
    if required > availableBalance then unchanged (.threw .InsufficientFunds)
    else
      let sorted := listSort amountComparer coins
      match joinSplitSelection nullEntry fuel required sorted coinControl with
      | none => unchanged .looping
      | some (spend_val, coinsToSpend) =>
        let coinsToSpend1 := listSort idComparer coinsToSpend
        { result := .returned true
          coinsToSpend_out := coinsToSpend1 ++ coinsToSpend_out
          changeToMint := wrapInt64 (spend_val - required) }

/-- The loop of `SelectSpendCoinsForAmount` over `coinsIn`, carrying `val` and
`coinsOut`. -/
def selectSpendLoop : Int → List CSigmaEntry → List CSigmaEntry → Int × List CSigmaEntry
  | val, [], coinsOut => (val, coinsOut)
  | val, coin :: rest, coinsOut =>
    if coin.IsUsed then selectSpendLoop val rest coinsOut
    else
      let denom := coin.get_denomination_value
      if val ≥ denom then selectSpendLoop (val - denom) rest (coinsOut ++ [coin])
      else selectSpendLoop val rest coinsOut

/-- `CWallet::SelectSpendCoinsForAmount(required, coinsIn, coinsOut)`: the
returned amount and the final `coinsOut`. -/
def SelectSpendCoinsForAmount (required : Int) (coinsIn : List CSigmaEntry)
    (coinsOut : List CSigmaEntry) : Int × List CSigmaEntry :=
  let r := selectSpendLoop required coinsIn coinsOut
  (required - r.1, r.2)

end CWallet

/-! ## Small instances used to evaluate the wallet routines -/

/-- A small instance of `MintEnv` over `lelantus.toyPrimitives`: the wallet
state is the derivation counter, a `CHDMint` is the pair of its public coin
value and amount, hashes are numbers, and `used` lists the tags present in the
Lelantus state. -/
def toyMintEnv (used : List Nat) : MintEnv Int Int Nat Nat (Int × Int) Nat Nat where
  prim := lelantus.toyPrimitives
  GenerateLelantusMint := fun w coin _ _ =>
    let c := lelantus.PrivateCoin.createFrom lelantus.toyPrimitives coin coin.params
      ((w : Int) + 1) coin.value ((w : Int) + 2) 0
    (w + 1, c, (c.publicCoin.value, (coin.value : Int)), w + 1)
  GenerateMintSchnorrProof := fun w _ => (w, List.replicate 98 0)
  getvch := fun g => List.replicate 33 0 ++ [g.toNat % 256]
  add := fun a b => a + b
  mul := fun a s => a * s
  negate := fun s => -s
  GetPubcoinValue := fun m => m.1
  scalarOfAmount := fun m => m.2
  defaultParams := lelantus.toyParams
  GetPubCoinValueHash := fun g => g.toNat
  zero160 := 0
  serialize256 := fun h => List.replicate 31 0 ++ [h % 256]
  serialize160 := fun h => List.replicate 19 0 ++ [h % 256]
  Hash := fun l => l.sum
  HasCoinTag := fun h => decide (h ∈ used)
  OP_LELANTUSMINT := 197

/-- A coin over `lelantus.toyPrimitives` whose public coin is the infinity
element, so that `validate` fails. -/
def toyInvalidCoin : lelantus.PrivateCoin Int Int :=
  lelantus.toyCoin.setPublicCoin (lelantus.PublicCoin.mk 0)

/-- A small instance of `SigmaMintEnv`: a sigma coin is its public coin, a
denomination is its amount, `GenerateMint` keeps the coin. -/
def toySigmaEnv : SigmaMintEnv Int Int (sigma.PublicCoin Int Int) Nat Int where
  GenerateMint := fun w _ coin _ => (w + 1, coin, coin.value)
  getPublicCoin := fun c => c
  validate := fun c => c.value != 0
  getvch := fun g => List.replicate 33 0 ++ [g.toNat % 256]
  DenominationToInteger := fun d => d
  freshMint := 0
  OP_SIGMAMINT := 195

/-- A small instance of `CoinEnv`: five mints with group elements 10 to 14;
mint 1 is used, mint 2 has amount 0, the outpoint of mint 3 is locked and mint 4
is still in the mempool.  The chain height is 10 and two confirmations are
required. -/
def toyCoinEnv : CoinEnv Int Nat Nat where
  ListLelantusMints := [0, 1, 2, 3, 4]
  GetMint := fun k _ =>
    { value := 10 + (k : Int), IsUsed := k == 1, nHeight := 5, id := 1,
      amount := if k == 2 then 0 else 100 }
  GetMintedCoinHeightAndId := fun pc => (if pc.value == 14 then -1 else 5, 1)
  coinSetSize := fun _ _ => 3
  GetOutPoint := fun pc => pc.value.toNat
  chainHeight := 10
  ZC_MINT_CONFIRMATIONS := 2
  setLockedCoins := [13]

/-- A Lelantus entry with the given amount, height and group id, for the
evaluation of `GetCoinsToJoinSplit`. -/
def toyEntry (amount nHeight id : Int) : CLelantusEntry Int :=
  { value := 0, IsUsed := false, nHeight := nHeight, id := id, amount := amount }

/-- Three coins of 50, 20 and 30 units in groups 3, 1 and 2. -/
def toyCoins : List (CLelantusEntry Int) := [toyEntry 50 7 3, toyEntry 20 8 1, toyEntry 30 9 2]

/-- Two coins of `2^62` units each: their exact total is `2^63`. -/
def toyBigCoins : List (CLelantusEntry Int) :=
  [toyEntry 4611686018427387904 1 1, toyEntry 4611686018427387904 2 1]

/-- Four coins of `2^62` units and one of 100 units: their exact total is
`2^64 + 100`. -/
def toyOverflowCoins : List (CLelantusEntry Int) :=
  [toyEntry 4611686018427387904 1 1, toyEntry 4611686018427387904 2 1,
   toyEntry 4611686018427387904 3 1, toyEntry 4611686018427387904 4 1, toyEntry 100 5 1]

/-- Four sigma coins of values 10 (used), 10, 5 and 1. -/
def toySigmaCoins : List CSigmaEntry :=
  [{ IsUsed := true, nHeight := 1, get_denomination_value := 10 },
   { IsUsed := false, nHeight := 2, get_denomination_value := 10 },
   { IsUsed := false, nHeight := 3, get_denomination_value := 5 },
   { IsUsed := false, nHeight := 4, get_denomination_value := 1 }]

/-! ## `wallet/wallet.cpp`: mint selection by denomination, fees -/

/-- The sigma denomination table, which is declared outside the translated
sources.  `GetAllDenoms` is the vector filled by `sigma::GetAllDenoms`,
`DenominationToInteger d` is the amount written by `DenominationToInteger`
(`none` when it returns false and leaves its output untouched), and
`indeterminate` stands for the content of a `CAmount` that was never written. -/
structure DenomEnv (D : Type) where
  GetAllDenoms : List D
  DenominationToInteger : D → Option Int
  indeterminate : Int

/-- The content of `denom` after `CAmount denom; DenominationToInteger(d, denom);`. -/
def DenomEnv.value {D : Type} (env : DenomEnv D) (d : D) : Int :=
  (env.DenominationToInteger d).getD env.indeterminate

namespace CWallet

variable {D : Type}

/-- The inner `while (val >= denom)` of `GetRequiredCoinCountForAmount`, one
iteration per unit of fuel, carrying `val` and `result`. -/
def requiredCountWhile (denom : Int) : Nat → Int → Int → Option (Int × Int)
  | 0, _, _ => none
  | fuel + 1, val, result =>
    if val ≥ denom then requiredCountWhile denom fuel (val - denom) (result + 1)
    else some (val, result)

/-- The `for` loop of `GetRequiredCoinCountForAmount` over the denominations. -/
def requiredCountLoop (env : DenomEnv D) (fuel : Nat) : Int → Int → List D → Option (Int × Int)
  | val, result, [] => some (val, result)
  | val, result, d :: rest =>
    match requiredCountWhile (env.value d) fuel val result with
    | none => none
    | some r => requiredCountLoop env fuel r.1 r.2 rest

/-- `CWallet::GetRequiredCoinCountForAmount(required, denominations)`; `none`
when an inner loop outlasts the fuel. -/
def GetRequiredCoinCountForAmount (env : DenomEnv D) (fuel : Nat) (required : Int)
    (denominations : List D) : Option Int :=
  match requiredCountLoop env fuel required 0 denominations with
  | none => none
  | some r => some r.2

/-- The inner `while (val >= denom)` of `SelectMintCoinsForAmount`, one
iteration per unit of fuel, carrying `val` and `coinsOut`. -/
def selectMintWhile (d : D) (denom : Int) : Nat → Int → List D → Option (Int × List D)
  | 0, _, _ => none
  | fuel + 1, val, coinsOut =>
    if val ≥ denom then selectMintWhile d denom fuel (val - denom) (coinsOut ++ [d])
    else some (val, coinsOut)

/-- The `for` loop of `SelectMintCoinsForAmount` over the denominations. -/
def selectMintLoop (env : DenomEnv D) (fuel : Nat) : Int → List D → List D → Option (Int × List D)
  | val, [], coinsOut => some (val, coinsOut)
  | val, d :: rest, coinsOut =>
    match selectMintWhile d (env.value d) fuel val coinsOut with
    | none => none
    | some r => selectMintLoop env fuel r.1 rest r.2

/-- `CWallet::SelectMintCoinsForAmount(required, denominations, coinsOut)`: the
returned amount and the final `coinsOut`; `none` when an inner loop outlasts the
fuel. -/
def SelectMintCoinsForAmount (env : DenomEnv D) (fuel : Nat) (required : Int)
    (denominations : List D) (coinsOut : List D) : Option (Int × List D) :=
  match selectMintLoop env fuel required denominations coinsOut with
  | none => none
  | some r => some (required - r.1, r.2)

end CWallet

/-- The fee settings read by `GetRequiredFee` and `GetMinimumFee`.  Each fee
rate is given by its `GetFee(nTxBytes)`; `estimateSmartFee pool nConfirmTarget n`
is `pool.estimateSmartFee(nConfirmTarget, &estimateFoundTarget).GetFee(n)`. -/
structure FeeEnv (P : Type) where
  minTxFee : Nat → Int
  minRelayTxFee : Nat → Int
  payTxFee : Nat → Int
  fallbackFee : Nat → Int
  estimateSmartFee : P → Nat → Nat → Int
  maxTxFee : Int

namespace CWallet

variable {P : Type}

/-- `CWallet::GetRequiredFee(nTxBytes)`. -/
def GetRequiredFee (env : FeeEnv P) (nTxBytes : Nat) : Int :=
  max (env.minTxFee nTxBytes) (env.minRelayTxFee nTxBytes)

/-- `CWallet::GetMinimumFee(nTxBytes, nConfirmTarget, pool, targetFee)`. -/
def GetMinimumFee (env : FeeEnv P) (nTxBytes nConfirmTarget : Nat) (pool : P)
    (targetFee : Int) : Int :=
  let nFeeNeeded0 := targetFee
  let nFeeNeeded1 :=
    if nFeeNeeded0 = 0 then
      let estimate := env.estimateSmartFee pool nConfirmTarget nTxBytes
      if estimate = 0 then env.fallbackFee nTxBytes else estimate
    else nFeeNeeded0
  let nFeeNeeded2 := max nFeeNeeded1 (GetRequiredFee env nTxBytes)
  if nFeeNeeded2 > env.maxTxFee then env.maxTxFee else nFeeNeeded2

/-- `CWallet::GetMinimumFee(nTxBytes, nConfirmTarget, pool)`: the target is
`payTxFee.GetFee(nTxBytes)`. -/
def GetMinimumFeeDefault (env : FeeEnv P) (nTxBytes nConfirmTarget : Nat) (pool : P) : Int :=
  GetMinimumFee env nTxBytes nConfirmTarget pool (env.payTxFee nTxBytes)

end CWallet

/-- `ZerocoinException`, thrown by `serialNumberFromSerializedPublicKey`. -/
structure ZerocoinException where
  what : String
  deriving DecidableEq, Repr

/-- What `serialNumberFromSerializedPublicKey` calls outside the translated
sources.  `secp256k1_ecdh ctx pubkey scalar` is the 32-byte result written by
`secp256k1_ecdh(ctx, result, pubkey, scalar)`, or `none` when the call does not
return 1; `ZEROCOIN_PUBLICKEY_TO_SERIALNUMBER` is the byte sequence of the
string of that name; `SHA256` is `CSHA256().Write(..).Finalize(..)` and
`scalarOfBytes` the constructor `Scalar(const unsigned char*)`. -/
structure SerialEnv (Ctx PK S : Type) where
  secp256k1_ecdh : Ctx → PK → List Nat → Option (List Nat)
  ZEROCOIN_PUBLICKEY_TO_SERIALNUMBER : List Nat
  SHA256 : List Nat → List Nat
  scalarOfBytes : List Nat → S

namespace lelantus

/-- The constant `one` of `serialNumberFromSerializedPublicKey`: the scalar 1 as
32 big-endian bytes. -/
def one : List Nat := List.replicate 31 0 ++ [1]

namespace PrivateCoin

variable {S G : Type}

/-- `PrivateCoin::serialNumberFromSerializedPublicKey(context, pubkey)`. -/
def serialNumberFromSerializedPublicKey {Ctx PK : Type} (env : SerialEnv Ctx PK S)
    (context : Ctx) (pubkey : PK) : Except ZerocoinException S :=
  match env.secp256k1_ecdh context pubkey one with
  | none => .error { what := "Unable to compute public key hash with secp256k1_ecdh." }
  | some pubkey_hash =>
    let pre := env.ZEROCOIN_PUBLICKEY_TO_SERIALNUMBER ++ pubkey_hash
    let hash := env.SHA256 pre
    .ok (env.scalarOfBytes hash)

/-- The coin after the call `setEcdsaSeckey(seckey)`: the updated coin when the
call succeeded, the coin as it was when the call threw. -/
def afterSetEcdsaSeckey (c : PrivateCoin S G) (seckey : List Nat) : PrivateCoin S G :=
  match setEcdsaSeckey c seckey with
  | .ok c1 => c1
  | .error _ => c

end PrivateCoin

end lelantus

/-- A denomination table for evaluation: a denomination is its number of
0.05-coin units, and the table lists 2000, 500, 200, 20, 10, 2 and 1 units
(100, 25, 10, 1, 0.5, 0.1 and 0.05 coins). -/
def toyDenomEnv : DenomEnv Nat where
  GetAllDenoms := [2000, 500, 200, 20, 10, 2, 1]
  DenominationToInteger := fun d => some ((d : Int) * 5000000)
  indeterminate := 0

/-- Fee settings for evaluation: 1 and 2 units per byte as minimum fees, no
estimate, 5 units per byte as fallback, and a maximum of 1000. -/
def toyFeeEnv : FeeEnv Unit where
  minTxFee := fun n => (n : Int)
  minRelayTxFee := fun n => 2 * (n : Int)
  payTxFee := fun _ => 0
  fallbackFee := fun n => 5 * (n : Int)
  estimateSmartFee := fun _ _ _ => 0
  maxTxFee := 1000

/-- A `SerialEnv` for evaluation: keys are numbers, key 0 is rejected, the
shared secret repeats the key, the hash is the list of the sum of the input and
a scalar is its first byte. -/
def toySerialEnv : SerialEnv Unit Nat Int where
  secp256k1_ecdh := fun _ pk _ => if pk = 0 then none else some (List.replicate 32 pk)
  ZEROCOIN_PUBLICKEY_TO_SERIALNUMBER := [90, 80]
  SHA256 := fun l => [l.sum]
  scalarOfBytes := fun l => (l.headD 0 : Nat)

/-! ## `wallet/wallet.cpp`: spent outpoints, debit, credit and change -/

/-- A wallet transaction as `IsSpent` reads it: the `scriptPubKey` of each
output, `GetDepthInMainChain()` and `isAbandoned()`. -/
structure WalletTxView (Sc : Type) where
  vout : List Sc
  depth : Int
  abandoned : Bool

/-- The wallet state and the script queries read by `IsSpent`.  `mapWallet` is
the lookup `mapWallet.find`, `mapTxSpends` the multimap from outpoints
`(hash, n)` to spending transaction ids, `hasZWallet` tells whether `zwallet`
is non-null.  `sigmaPubcoinHash` and `lelantusPubcoinHash` are
`GetPubCoinValueHash` of the parsed mint script (parsing may throw), and the two
tracker queries give `meta.isUsed` when the meta is found. -/
structure SpentEnv (Sc H TxId : Type) where
  mapWallet : TxId → Option (WalletTxView Sc)
  mapTxSpends : List ((TxId × Nat) × TxId)
  hasZWallet : Bool
  IsZerocoinMint : Sc → Bool
  IsSigmaMint : Sc → Bool
  IsLelantusMint : Sc → Bool
  IsLelantusJMint : Sc → Bool
  sigmaPubcoinHash : Sc → Except Exception H
  lelantusPubcoinHash : Sc → Except Exception H
  GetMetaFromPubcoin : H → Option Bool
  GetLelantusMetaFromPubcoin : H → Option Bool

/-- `CTxOut`: value and script. -/
structure CTxOut (Sc : Type) where
  nValue : Int
  scriptPubKey : Sc

/-- `CTransaction` as read by `GetDebit`, `GetCredit` and `GetChange`: inputs,
outputs and `GetHash()`. -/
structure CTransaction (In Sc TxId : Type) where
  vin : List In
  vout : List (CTxOut Sc)
  hash : TxId

/-- What `GetDebit`, `GetCredit` and `GetChange` read outside themselves.
`GetDebitIn` is `GetDebit(const CTxIn&, filter)`, `IsMine` is
`IsMine(const CTxOut&)` as a bit set, `ParseLelantusJMintScript` gives the hash
of the parsed public coin (`none` when parsing throws `std::invalid_argument`),
`ReadHDMint h` gives `dMint.GetAmount()` when the mint is read, `GetWalletTx`
and `wtxIsChange` are the lookup and `CWalletTx::IsChange`, `ISMINE_NO` is the
enumerator of that name. -/
structure AmountEnv (In Sc H TxId WTx : Type) where
  MAX_MONEY : Int
  GetDebitIn : In → Nat → Int
  IsMine : CTxOut Sc → Nat
  IsLelantusJMint : Sc → Bool
  ParseLelantusJMintScript : Sc → Option H
  ReadHDMint : H → Option Int
  GetWalletTx : TxId → Option WTx
  wtxIsChange : WTx → CTxOut Sc → Bool
  ISMINE_NO : Int

namespace CWallet

section Spent

variable {Sc H TxId : Type}

/-- The mint branch of `IsSpent` (lines 720-738) for the script of the output:
`none` when the script is no mint output handled there and control falls
through to the normal branch. -/
def mintOutputSpent (env : SpentEnv Sc H TxId) (script : Sc) : Option (Except Exception Bool) :=
  if env.IsZerocoinMint script then some (.ok true)
  else if env.hasZWallet && env.IsSigmaMint script then
    some (match env.sigmaPubcoinHash script with
      | .error e => .error e
      | .ok hashPubcoin =>
        match env.GetMetaFromPubcoin hashPubcoin with
        | none => .ok false
        | some isUsed => .ok isUsed)
  else if env.hasZWallet && (env.IsLelantusMint script || env.IsLelantusJMint script) then
    some (match env.lelantusPubcoinHash script with
      | .error e => .error e
      | .ok hashPubcoin =>
        match env.GetLelantusMetaFromPubcoin hashPubcoin with
        | none => .ok false
        | some isUsed => .ok isUsed)
  else none

/-- The normal branch of `IsSpent` (lines 741-756): some transaction recorded
in `mapTxSpends` for the outpoint is in `mapWallet` with depth above 0, or with
depth 0 and not abandoned. -/
def normalOutputSpent [DecidableEq TxId] (env : SpentEnv Sc H TxId) (hash : TxId) (n : Nat) :
    Bool :=
  let range := env.mapTxSpends.filter (fun e => decide (e.1 = (hash, n)))
  range.any (fun e =>
    match env.mapWallet e.2 with
    | none => false
    | some wtx => decide (wtx.depth > 0) || (decide (wtx.depth = 0) && !wtx.abandoned))

/-- Lines 715-739 of `IsSpent`: when the transaction is in the wallet and has
an output `n`, the mint branch for the script of that output. -/
def mintBranchSpent (env : SpentEnv Sc H TxId) (hash : TxId) (n : Nat) :
    Option (Except Exception Bool) :=
  match env.mapWallet hash with
  | none => none
  | some tx =>
    if tx.vout.length > n then
      match tx.vout[n]? with
      | none => none
      | some script => mintOutputSpent env script
    else none

/-- `CWallet::IsSpent(hash, n)`. -/
def IsSpent [DecidableEq TxId] (env : SpentEnv Sc H TxId) (hash : TxId) (n : Nat) :
    Except Exception Bool :=
  match mintBranchSpent env hash n with
  | some r => r
  | none => .ok (normalOutputSpent env hash n)

end Spent

section Amounts

variable {In Sc H TxId WTx : Type}

/-- `CWallet::GetCredit(const CTxOut&, filter)`. -/
def GetCreditOut (env : AmountEnv In Sc H TxId WTx) (txout : CTxOut Sc) (filter : Nat) :
    Except Exception Int :=
  if !MoneyRange env.MAX_MONEY txout.nValue then
    .error (.runtime_error "GetCredit: value out of range")
  else if env.IsLelantusJMint txout.scriptPubKey then
    match env.ParseLelantusJMintScript txout.scriptPubKey with
    | none => .ok env.ISMINE_NO
    | some hashPubcoin =>
      match env.ReadHDMint hashPubcoin with
      | some amount => .ok amount
      | none => .ok 0
  else .ok (if Nat.land (env.IsMine txout) filter != 0 then txout.nValue else 0)

/-- `CWallet::IsChange(const uint256&, const CTxOut&)`. -/
def IsChange (env : AmountEnv In Sc H TxId WTx) (tx : TxId) (txout : CTxOut Sc) :
    Except Exception Bool :=
  match env.GetWalletTx tx with
  | none =>
    .error (.invalid_argument "The specified transaction hash is not belong to the wallet")
  | some wtx => .ok (env.wtxIsChange wtx txout)

/-- `CWallet::GetChange(const uint256&, const CTxOut&)`. -/
def GetChangeOut (env : AmountEnv In Sc H TxId WTx) (tx : TxId) (txout : CTxOut Sc) :
    Except Exception Int :=
  if !MoneyRange env.MAX_MONEY txout.nValue then
    .error (.runtime_error "GetChange: value out of range")
  else
    match IsChange env tx txout with
    | .error e => .error e
    | .ok b => .ok (if b then txout.nValue else 0)

/-- The loop shared by `GetDebit`, `GetCredit` and `GetChange` on a
transaction: add the amount of each item to the running sum and throw
`std::runtime_error` when the sum leaves `MoneyRange`. -/
def sumInRange {α : Type} (MAX_MONEY : Int) (what : String) (amount : α → Except Exception Int) :
    Int → List α → Except Exception Int
  | n, [] => .ok n
  | n, x :: rest =>
    match amount x with
    | .error e => .error e
    | .ok v =>
      if !MoneyRange MAX_MONEY (n + v) then .error (.runtime_error what)
      else sumInRange MAX_MONEY what amount (n + v) rest

/-- `CWallet::GetDebit(const CTransaction&, filter)`. -/
def GetDebit (env : AmountEnv In Sc H TxId WTx) (tx : CTransaction In Sc TxId) (filter : Nat) :
    Except Exception Int :=
  sumInRange env.MAX_MONEY "GetDebit: value out of range"
    (fun txin => .ok (env.GetDebitIn txin filter)) 0 tx.vin

/-- `CWallet::GetCredit(const CTransaction&, filter)`. -/
def GetCredit (env : AmountEnv In Sc H TxId WTx) (tx : CTransaction In Sc TxId) (filter : Nat) :
    Except Exception Int :=
  sumInRange env.MAX_MONEY "GetCredit: value out of range"
    (fun txout => GetCreditOut env txout filter) 0 tx.vout

/-- `CWallet::GetChange(const CTransaction&)`. -/
def GetChange (env : AmountEnv In Sc H TxId WTx) (tx : CTransaction In Sc TxId) :
    Except Exception Int :=
  sumInRange env.MAX_MONEY "GetChange: value out of range"
    (fun txout => GetChangeOut env tx.hash txout) 0 tx.vout

end Amounts

end CWallet

/-- A wallet for the evaluation of `IsSpent`: transaction 1 has one plain
output (script 0), spent by transactions 2 (abandoned, depth 0) and 3 (depth 4);
transaction 5 has one plain output spent only by the conflicted transaction 6.
Script 9 would be a zerocoin mint. -/
def toySpentEnv : SpentEnv Nat Nat Nat where
  mapWallet := fun h =>
    if h = 1 then some { vout := [0], depth := 9, abandoned := false }
    else if h = 2 then some { vout := [0], depth := 0, abandoned := true }
    else if h = 3 then some { vout := [0], depth := 4, abandoned := false }
    else if h = 5 then some { vout := [0], depth := 9, abandoned := false }
    else if h = 6 then some { vout := [0], depth := -1, abandoned := false }
    else none
  mapTxSpends := [((1, 0), 2), ((5, 0), 6), ((1, 0), 3)]
  hasZWallet := true
  IsZerocoinMint := fun s => s == 9
  IsSigmaMint := fun _ => false
  IsLelantusMint := fun _ => false
  IsLelantusJMint := fun _ => false
  sigmaPubcoinHash := fun s => .ok s
  lelantusPubcoinHash := fun s => .ok s
  GetMetaFromPubcoin := fun _ => none
  GetLelantusMetaFromPubcoin := fun _ => none

/-- Amount settings for evaluation: the maximum is 1000, an input debits its
own number, every output is mine and none is a mint, transaction 1 is in the
wallet and its outputs with script 1 are change. -/
def toyAmountEnv : AmountEnv Nat Nat Nat Nat Unit where
  MAX_MONEY := 1000
  GetDebitIn := fun txin _ => (txin : Int)
  IsMine := fun _ => 1
  IsLelantusJMint := fun _ => false
  ParseLelantusJMintScript := fun _ => none
  ReadHDMint := fun _ => none
  GetWalletTx := fun h => if h = 1 then some () else none
  wtxIsChange := fun _ out => out.scriptPubKey == 1
  ISMINE_NO := 0

/-- A transaction with inputs debiting 300 and 400 and outputs of 600 and 500
(the second one change). -/
def toyTx : CTransaction Nat Nat Nat :=
  { vin := [300, 400], vout := [{ nValue := 600, scriptPubKey := 0 },
      { nValue := 500, scriptPubKey := 1 }], hash := 1 }

/-! ## `wallet/wallet.cpp`: `GetCoinsToSpend` -/

/-- Why `GetCoinsToSpend` stops without returning: an exception, an inner loop
that outlasted the fuel of the model, an access to a knapsack row or to the
denomination vector outside its bounds (`index`, size of the vector), or the
dereference of `coins.rbegin()` on an empty list.  The last two have no defined
behaviour in the source. -/
inductive SpendStop where
  | threw (e : Exception)
  | looping
  | outOfBounds (index : Int) (size : Nat)
  | noCoin
  deriving DecidableEq, Repr

/-- What `GetCoinsToSpend` leaves behind: how it ended and the contents of the
three containers it updates through references. -/
structure SpendResult (D : Type) where
  result : Except SpendStop Bool
  coinsToSpend_out : List CSigmaEntry
  coinsToMint_out : List D
  coins : List CSigmaEntry

namespace CWallet

/-- The constant `zeros` of `GetCoinsToSpend`: 0.05 coin. -/
def zeros : Int := 5000000

/-- `INT_MAX` of `<climits>` for the 32-bit `int`. -/
def INT_MAX : Int := 2147483647

/-- The filler `(INT_MAX - 1) / 2` of `next_row`: no selection reaches the value. -/
def rowUnreachable : Nat := (Int.tdiv (INT_MAX - 1) 2).toNat

/-- `CalculateCoinsBalance`. -/
def CalculateCoinsBalance (coins : List CSigmaEntry) : Int :=
  coins.foldl (fun balance c => balance + c.get_denomination_value) 0

/-- The ordering used to sort the coins of `GetCoinsToSpend`: higher denomination
first, lower height first among equal denominations. -/
def denominationComparer (a b : CSigmaEntry) : Bool :=
  if a.get_denomination_value != b.get_denomination_value then
    decide (a.get_denomination_value > b.get_denomination_value)
  else decide (a.nHeight < b.nHeight)

/-- The read `row[i]` of a `std::vector<uint64_t>`. -/
def rowGet (row : List Nat) (i : Int) : Except SpendStop Nat :=
  if 0 ≤ i then
    match row[i.toNat]? with
    | some v => .ok v
    | none => .error (.outOfBounds i row.length)
  else .error (.outOfBounds i row.length)

/-- Replacement of the element at a position of a list, when the position exists. -/
def listSet? : List Nat → Nat → Nat → Option (List Nat)
  | [], _, _ => none
  | _ :: l, 0, v => some (v :: l)
  | a :: l, n + 1, v =>
    match listSet? l n v with
    | none => none
    | some l1 => some (a :: l1)

/-- The write `row[i] = v` of a `std::vector<uint64_t>`. -/
def rowSet (row : List Nat) (i : Int) (v : Nat) : Except SpendStop (List Nat) :=
  if 0 ≤ i then
    match listSet? row i.toNat v with
    | some row1 => .ok row1
    | none => .error (.outOfBounds i row.length)
  else .error (.outOfBounds i row.length)

/-- The loop `for (int j = 1; j <= val; j++)` of lines 3165-3170, started at `j`
with `steps` iterations left. -/
def knapsackRow (denom_i : Int) (prev_row : List Nat) :
    Nat → Int → List Nat → Except SpendStop (List Nat)
  | 0, _, next_row => .ok next_row
  | steps + 1, j, next_row =>
    match rowGet prev_row j with
    | .error e => .error e
    | .ok pj =>
      match rowSet next_row j pj with
      | .error e => .error e
      | .ok next1 =>
        if j ≥ denom_i then
          match rowGet next1 j, rowGet prev_row (j - denom_i) with
          | .error e, _ => .error e
          | .ok _, .error e => .error e
          | .ok nj, .ok pk =>
            if nj > pk + 1 then
              match rowSet next1 j (pk + 1) with
              | .error e => .error e
              | .ok next2 => knapsackRow denom_i prev_row steps (j + 1) next2
            else knapsackRow denom_i prev_row steps (j + 1) next1
        else knapsackRow denom_i prev_row steps (j + 1) next1

/-- The loop of lines 3162-3171 over the coins after the first one of the
reverse order: swap the rows, then fill `next_row` for the coin.  It returns
`(prev_row, next_row)`. -/
def knapsackRows (val : Int) :
    List CSigmaEntry → List Nat → List Nat → Except SpendStop (List Nat × List Nat)
  | [], prev_row, next_row => .ok (prev_row, next_row)
  | coin :: rest, prev_row, next_row =>
    let denom_i := Int.tdiv coin.get_denomination_value zeros
    match knapsackRow denom_i next_row val.toNat 1 prev_row with
    | .error e => .error e
    | .ok next1 => knapsackRows val rest next_row next1

/-- Lines 3151-3171: the two rows are created with `val + 1` entries, the first
coin of the reverse order is entered and the other coins are processed.  It
returns the final `next_row`. -/
def knapsackTable (val : Int) (coins : List CSigmaEntry) : Except SpendStop (List Nat) :=
  let prev_row : List Nat := List.replicate (val + 1).toNat 0
  let next_row : List Nat := List.replicate (val + 1).toNat rowUnreachable
  match coins.reverse with
  | [] => .error .noCoin
  | last :: others =>
    match rowSet next_row 0 0 with
    | .error e => .error e
    | .ok next1 =>
      match rowSet next1 (Int.tdiv last.get_denomination_value zeros) 1 with
      | .error e => .error e
      | .ok next2 =>
        match knapsackRows val others prev_row next2 with
        | .error e => .error e
        | .ok rows => .ok rows.2

variable {D : Type}

/-- The loop `while (index >= roundedRequired)` of lines 3190-3198 with `steps`
iterations left, carrying `index`, `best_spend_val` and `minimum`.  It returns
`(best_spend_val, minimum)`. -/
def bestSpendLoop (env : DenomEnv D) (fuel : Nat) (denominations : List D) (next_row : List Nat)
    (roundedRequired : Int) (coinsToSpendLimit : Nat) :
    Nat → Int → Int → Int → Except SpendStop (Int × Int)
  | 0, index, best_spend_val, minimum =>
    if index ≥ roundedRequired then .error .looping else .ok (best_spend_val, minimum)
  | steps + 1, index, best_spend_val, minimum =>
    if index ≥ roundedRequired then
      match rowGet next_row index with
      | .error e => .error e
      | .ok count =>
        match GetRequiredCoinCountForAmount env fuel ((index - roundedRequired) * zeros)
            denominations with
        | none => .error .looping
        | some mints =>
          let temp_min : Int := (count : Int) + mints
          if minimum > temp_min && count != rowUnreachable && decide (count ≤ coinsToSpendLimit)
          then
            bestSpendLoop env fuel denominations next_row roundedRequired coinsToSpendLimit
              steps (index - 1) index temp_min
          else
            bestSpendLoop env fuel denominations next_row roundedRequired coinsToSpendLimit
              steps (index - 1) best_spend_val minimum
    else .ok (best_spend_val, minimum)

/-- Lines 3173-3204: the value of `best_spend_val` after the choice.  With a
coin-control selection it is the total of the coins; otherwise it is the best
index of `next_row` times `zeros`, and the choice throws when no index
qualified. -/
def bestSpendValue {O : Type} (env : DenomEnv D) (fuel : Nat) (denominations : List D)
    (next_row : List Nat) (coins : List CSigmaEntry) (roundedRequired val : Int)
    (coinsToSpendLimit : Nat) (coinControl : Option (CCoinControl O)) :
    Except SpendStop Int :=
  let coinControlUsed : Bool :=
    match coinControl with
    | none => false
    | some cc => cc.HasSelected
  if coinControlUsed then
    .ok (coins.reverse.foldl (fun best_spend_val c => best_spend_val + c.get_denomination_value) 0)
  else
    match bestSpendLoop env fuel denominations next_row roundedRequired coinsToSpendLimit
        (val - roundedRequired + 1).toNat val val (INT_MAX - 1) with
    | .error e => .error e
    | .ok r =>
      if r.2 = INT_MAX - 1 then
        .error (.threw (.runtime_error "Can not choose coins within limit."))
      else .ok (r.1 * zeros)

/-- Lines 3206-3215: the change is selected for minting, the coins for
spending, and each selection must reach its amount. -/
def spendFinish (env : DenomEnv D) (fuel : Nat) (best_spend_val roundedRequired : Int)
    (denominations : List D) (coins : List CSigmaEntry) (coinsToSpend_out : List CSigmaEntry)
    (coinsToMint_out : List D) : SpendResult D :=
  match SelectMintCoinsForAmount env fuel (best_spend_val - roundedRequired * zeros)
      denominations coinsToMint_out with
  | none =>
    { result := .error .looping, coinsToSpend_out := coinsToSpend_out,
      coinsToMint_out := coinsToMint_out, coins := coins }
  | some minted =>
    if minted.1 != best_spend_val - roundedRequired * zeros then
      { result := .error (.threw
          (.runtime_error "Problem with coin selection for re-mint while spending."))
        coinsToSpend_out := coinsToSpend_out, coinsToMint_out := minted.2, coins := coins }
    else
      let spent := SelectSpendCoinsForAmount best_spend_val coins coinsToSpend_out
      if spent.1 != best_spend_val then
        { result := .error (.threw (.runtime_error "Problem with coin selection for spend."))
          coinsToSpend_out := spent.2, coinsToMint_out := minted.2, coins := coins }
      else
        { result := .ok true, coinsToSpend_out := spent.2, coinsToMint_out := minted.2,
          coins := coins }

/-- `roundedRequired` of `GetCoinsToSpend`: `required / zeros`, plus one when
`required % zeros != 0`. -/
def roundedRequiredOf (required : Int) : Int :=
  if Int.tmod required zeros ≠ 0 then Int.tdiv required zeros + 1 else Int.tdiv required zeros

/-- `CWallet::GetCoinsToSpend(required, coinsToSpend_out, coinsToMint_out, coins,
coinsToSpendLimit, amountToSpendLimit, coinControl)`.  The `int` variables are
integers here; they fit their type when `MAX_MONEY / zeros` is below `2^31`. -/
def GetCoinsToSpend {O : Type} (MAX_MONEY : Int) (env : DenomEnv D) (fuel : Nat) (required : Int)
    (coinsToSpend_out : List CSigmaEntry) (coinsToMint_out : List D) (coins : List CSigmaEntry)
    (coinsToSpendLimit : Nat) (amountToSpendLimit : Int) (coinControl : Option (CCoinControl O)) :
    SpendResult D :=
  let stop (coins1 : List CSigmaEntry) (s : SpendStop) : SpendResult D :=
    { result := .error s, coinsToSpend_out := coinsToSpend_out,
      coinsToMint_out := coinsToMint_out, coins := coins1 }
  if !MoneyRange MAX_MONEY required then
    stop coins (.threw (.invalid_argument "Request to spend more than 21 MLN firos.\n"))
  else if !MoneyRange MAX_MONEY amountToSpendLimit then
    stop coins (.threw (.invalid_argument "Amount limit is exceed max money"))
  else
    let roundedRequired := roundedRequiredOf required
    let limitVal := Int.tdiv amountToSpendLimit zeros
    if roundedRequired > limitVal then
      stop coins (.threw (.invalid_argument "Required amount exceed value spend limit"))
    else
      let availableBalance := CalculateCoinsBalance coins
      if roundedRequired * zeros > availableBalance then stop coins (.threw .InsufficientFunds)
      else
        let sorted := listSort denominationComparer coins
        let denominations := env.GetAllDenoms
        match denominations with
        | [] => stop sorted (.outOfBounds 0 0)
        | d0 :: _ =>
          match env.DenominationToInteger d0 with
          | none => stop sorted (.threw (.runtime_error "Unknown sigma denomination.\n"))
          | some max_coin_value =>
            let val := min (roundedRequired + Int.tdiv max_coin_value zeros) limitVal
            match knapsackTable val sorted with
            | .error s => stop sorted s
            | .ok next_row =>
              match bestSpendValue env fuel denominations next_row sorted roundedRequired val
                  coinsToSpendLimit coinControl with
              | .error s => stop sorted s
              | .ok best_spend_val =>
                spendFinish env fuel best_spend_val roundedRequired denominations sorted
                  coinsToSpend_out coinsToMint_out

end CWallet

/-- A sigma coin of the given number of 0.05-coin units, minted at the given
height. -/
def toySigma (units : Int) (nHeight : Int) (used : Bool) : CSigmaEntry :=
  { IsUsed := used, nHeight := nHeight, get_denomination_value := units * 5000000 }

/-- One unused coin of 0.1 coin. -/
def toySmallWallet : List CSigmaEntry := [toySigma 2 1 false]

/-- Nine unused coins: one of 25 coins, three of 10 coins and five of 1 coin. -/
def toyMixedWallet : List CSigmaEntry :=
  [toySigma 500 1 false, toySigma 200 2 false, toySigma 200 3 false, toySigma 200 4 false,
   toySigma 20 5 false, toySigma 20 6 false, toySigma 20 7 false, toySigma 20 8 false,
   toySigma 20 9 false]

/-- Three unused coins of 1 coin, 0.5 coin and 0.1 coin. -/
def toyPlainWallet : List CSigmaEntry :=
  [toySigma 10 2 false, toySigma 20 1 false, toySigma 2 3 false]

namespace CWallet

/-- The index of a coin in the knapsack rows: its denomination in units of
`zeros`, as computed on lines 3159 and 3164. -/
def coinUnits (c : CSigmaEntry) : Int := Int.tdiv c.get_denomination_value zeros

/-- A row bounds the selections from `processed` when, for every sub-list of
`processed` whose units total at most `val`, the entry of the row at that
total is at most the number of coins of the sub-list. -/
def rowBound (val : Int) (row : List Nat) (processed : List CSigmaEntry) : Prop :=
  ∀ S : List CSigmaEntry, List.Sublist S processed → (S.map coinUnits).sum ≤ val →
    row.getD ((S.map coinUnits).sum).toNat 0 ≤ S.length

end CWallet

/-! # Properties -/

section CoinModel

open lelantus lelantus.PrivateCoin

variable {S G R : Type}

/-- C2, as stated, fails: on a coin satisfying the invariant each of
`setSerialNumber`, `setV`, `setRandomness` and `setPublicCoin` can produce a
coin that violates it. -/
theorem privateCoin_setters_break_invariant :
    Invariant toyPrimitives toyCoin ∧
    ¬ Invariant toyPrimitives (toyCoin.setSerialNumber 2) ∧
    ¬ Invariant toyPrimitives (toyCoin.setV 11) ∧
    ¬ Invariant toyPrimitives (toyCoin.setRandomness 8) ∧
    ¬ Invariant toyPrimitives (toyCoin.setPublicCoin (PublicCoin.mk 0)) := by
  decide

/-- C2 (amended): the invariant holds after both constructors and after
`mintCoin`, and `setVersion` and `setEcdsaSeckey` preserve it.  The setters
`setSerialNumber`, `setV`, `setRandomness` and `setPublicCoin` store one member
and do not recompute the other: applied to a coin satisfying the invariant they
give a coin satisfying it exactly when the double commitment to the new members
equals the double commitment to the old ones (for `setPublicCoin`: when the new
public coin is the old one). -/
theorem privateCoin_invariant_operations (prim : Primitives S G R) (raw : PrivateCoin S G)
    (p : Params G) (v : Nat) (rng : R) (serial random : S) (version_ : Int)
    (c : PrivateCoin S G) (hc : Invariant prim c) :
    Invariant prim (create prim raw p v rng).1 ∧
    Invariant prim (createFrom prim raw p serial v random version_) ∧
    Invariant prim (mintCoin prim c v rng).1 ∧
    (∀ nVersion, Invariant prim (c.setVersion nVersion)) ∧
    (∀ seckey c1, c.setEcdsaSeckey seckey = .ok c1 → Invariant prim c1) ∧
    (∀ n, Invariant prim (c.setSerialNumber n) ↔
      prim.double_commit c.params.get_g n c.params.get_h1 (prim.scalarOfUInt64 c.value)
          c.params.get_h0 c.randomness =
        prim.double_commit c.params.get_g c.serialNumber c.params.get_h1
          (prim.scalarOfUInt64 c.value) c.params.get_h0 c.randomness) ∧
    (∀ n, Invariant prim (c.setV n) ↔
      prim.double_commit c.params.get_g c.serialNumber c.params.get_h1 (prim.scalarOfUInt64 n)
          c.params.get_h0 c.randomness =
        prim.double_commit c.params.get_g c.serialNumber c.params.get_h1
          (prim.scalarOfUInt64 c.value) c.params.get_h0 c.randomness) ∧
    (∀ n, Invariant prim (c.setRandomness n) ↔
      prim.double_commit c.params.get_g c.serialNumber c.params.get_h1
          (prim.scalarOfUInt64 c.value) c.params.get_h0 n =
        prim.double_commit c.params.get_g c.serialNumber c.params.get_h1
          (prim.scalarOfUInt64 c.value) c.params.get_h0 c.randomness) ∧
    (∀ q, Invariant prim (c.setPublicCoin q) ↔ q = c.publicCoin) := by
  unfold Invariant at hc
  refine ⟨rfl, rfl, rfl, fun _ => hc, ?_, ?_, ?_, ?_, ?_⟩
  · intro seckey c1 h
    unfold setEcdsaSeckey at h
    split at h
    · cases h; exact hc
    · cases h
  · intro n
    simp only [Invariant, setSerialNumber, hc, PublicCoin.mk.injEq]
    exact eq_comm
  · intro n
    simp only [Invariant, setV, hc, PublicCoin.mk.injEq]
    exact eq_comm
  · intro n
    simp only [Invariant, setRandomness, hc, PublicCoin.mk.injEq]
    exact eq_comm
  · intro q
    simp only [Invariant, setPublicCoin, hc]

/-- Evaluation of the amended C2 on the integer instance: `toyCoin` satisfies
the invariant and keeps it under `setVersion`. -/
theorem privateCoin_invariant_operations_witness :
    Invariant toyPrimitives toyCoin ∧ Invariant toyPrimitives (toyCoin.setVersion 3) :=
  ⟨by decide,
    (privateCoin_invariant_operations toyPrimitives toyRaw toyParams 10 0 1 7 0 toyCoin
      (by decide)).2.2.2.1 3⟩

/-- C3: `validate()` is true exactly when the group element is a member of the
group and is not the infinity element. -/
theorem publicCoin_validate_iff (prim : Primitives S G R) (c : PublicCoin G) :
    c.validate prim = true ↔ (prim.isMember c.value = true ∧ prim.isInfinity c.value = false) := by
  unfold PublicCoin.validate
  cases prim.isMember c.value <;> cases prim.isInfinity c.value <;> simp

end CoinModel

section MintRecipients

open lelantus CWallet

variable {S G R W M H256 H160 : Type}

/-- The iteration of `mintRecipientLoop` that returns: the coin it examined
validated, its tag is absent from the state, and the recipient is assembled
from that coin, its Schnorr proof and the tag. -/
theorem mintRecipientLoop_returned (env : MintEnv S G R W M H256 H160) (generate : Bool)
    (fuel : Nat) (st : MintState S G W M) (r : CRecipient) (st1 : MintState S G W M)
    (h : mintRecipientLoop env generate fuel st = .returned (r, st1)) :
    ∃ (w : W) (seedID : H160),
      st1.coin.getPublicCoin.validate env.prim = true ∧
      env.HasCoinTag (hashForRecover env st1.vDMint seedID) = false ∧
      r = { scriptPubKey := [env.OP_LELANTUSMINT] ++ env.getvch st1.coin.getPublicCoin.getValue ++
              (env.GenerateMintSchnorrProof w st1.coin).2 ++
              env.serialize256 (hashForRecover env st1.vDMint seedID),
            nAmount := toCAmount st1.coin.getV,
            fSubtractFeeFromAmount := false } := by
  induction fuel generalizing st with
  | zero => simp [mintRecipientLoop] at h
  | succ fuel ih =>
    unfold mintRecipientLoop at h
    simp only [] at h
    split at h
    · cases h
    · rename_i hv
      split at h
      · exact ih _ h
      · rename_i ht
        simp only [Outcome.returned.injEq, Prod.mk.injEq] at h
        obtain ⟨hr, hs⟩ := h
        subst hs
        refine ⟨(generateStep env generate st).1.wallet, (generateStep env generate st).2, ?_, ?_, ?_⟩
        · simpa using hv
        · simpa using ht
        · exact hr.symm

/-- An iteration of `mintRecipientLoop` throws when the coin it examines fails
`validate`. -/
theorem mintRecipientLoop_invalid (env : MintEnv S G R W M H256 H160) (generate : Bool)
    (fuel : Nat) (st : MintState S G W M)
    (h : (generateStep env generate st).1.coin.getPublicCoin.validate env.prim = false) :
    mintRecipientLoop env generate (fuel + 1) st =
      .threw (.runtime_error "Unable to mint a lelantus coin.") := by
  unfold mintRecipientLoop
  simp [h]

/-- Without `generate`, an iteration whose tag is present in the state leads to
an identical iteration: the loop never leaves. -/
theorem mintRecipientLoop_no_generate_spins (env : MintEnv S G R W M H256 H160)
    (fuel : Nat) (st : MintState S G W M)
    (hv : st.coin.getPublicCoin.validate env.prim = true)
    (ht : env.HasCoinTag (hashForRecover env st.vDMint env.zero160) = true) :
    mintRecipientLoop env false fuel st = .looping := by
  induction fuel generalizing st with
  | zero => rfl
  | succ fuel ih =>
    unfold mintRecipientLoop
    simp only [generateStep, hv, ht, Bool.false_eq_true, if_false, Bool.not_true, if_true]
    exact ih _ hv ht

/-- `toCAmount` is the identity below `2^63`. -/
theorem toCAmount_of_lt (n : Nat) (h : n < 2 ^ 63) : toCAmount n = (n : Int) := by
  unfold toCAmount
  have h1 : n % 2 ^ 64 = n := Nat.mod_eq_of_lt (by omega)
  rw [h1, if_pos h]

/-- From `2^63` on, `toCAmount` is the value minus `2^64`. -/
theorem toCAmount_of_ge (n : Nat) (h1 : 2 ^ 63 ≤ n) (h2 : n < 2 ^ 64) :
    toCAmount n = (n : Int) - 2 ^ 64 := by
  unfold toCAmount
  have h3 : n % 2 ^ 64 = n := Nat.mod_eq_of_lt h2
  rw [h3, if_neg (by omega)]

/-- `sigmaMintTransform` on a list split at a coin that fails validation after
the coins before it succeeded. -/
theorem sigmaMintTransform_append_invalid {G2 D C W2 M2 : Type}
    (senv : SigmaMintEnv G2 D C W2 M2) (pre : List C) (c : C) (post : List C)
    (st st1 : SigmaMintState W2 M2) (rcps : List CRecipient) (cs : List C)
    (hpre : sigmaMintTransform senv st pre = .ok (rcps, cs, st1))
    (hc : sigmaMintRecipient senv st1 c = .error (.runtime_error "Unable to mint a sigma coin.")) :
    sigmaMintTransform senv st (pre ++ c :: post) =
      .error (.runtime_error "Unable to mint a sigma coin.") := by
  induction pre generalizing st rcps cs with
  | nil =>
    simp only [sigmaMintTransform, Except.ok.injEq, Prod.mk.injEq] at hpre
    obtain ⟨-, -, rfl⟩ := hpre
    simp [sigmaMintTransform, hc]
  | cons a pre ih =>
    simp only [List.cons_append]
    unfold sigmaMintTransform at hpre ⊢
    split at hpre
    · cases hpre
    · rename_i rcp coin1 st2 hstep
      split at hpre
      · cases hpre
      · rename_i rcps1 coins1 st3 hrest
        simp only [Except.ok.injEq, Prod.mk.injEq] at hpre
        obtain ⟨-, -, rfl⟩ := hpre
        rw [ih st2 rcps1 coins1 hrest]

/-- Every recipient returned by `sigmaMintTransform` belongs to a coin that
passed validation, and its script is the opcode followed by that coin. -/
theorem sigmaMintTransform_ok {G2 D C W2 M2 : Type}
    (senv : SigmaMintEnv G2 D C W2 M2) (coins : List C)
    (st st1 : SigmaMintState W2 M2) (rcps : List CRecipient) (cs : List C)
    (h : sigmaMintTransform senv st coins = .ok (rcps, cs, st1)) :
    List.Forall₂ (fun rcp c => senv.validate (senv.getPublicCoin c) = true ∧
      rcp.scriptPubKey = [senv.OP_SIGMAMINT] ++ senv.getvch (senv.getPublicCoin c).value)
      rcps cs := by
  induction coins generalizing st rcps cs with
  | nil =>
    simp only [sigmaMintTransform, Except.ok.injEq, Prod.mk.injEq] at h
    obtain ⟨rfl, rfl, -⟩ := h
    exact List.Forall₂.nil
  | cons a coins ih =>
    unfold sigmaMintTransform at h
    split at h
    · cases h
    · rename_i rcp coin1 st2 hstep
      split at h
      · cases h
      · rename_i rcps1 coins1 st3 hrest
        simp only [Except.ok.injEq, Prod.mk.injEq] at h
        obtain ⟨rfl, rfl, rfl⟩ := h
        refine List.Forall₂.cons ?_ (ih st2 rcps1 coins1 hrest)
        unfold sigmaMintRecipient at hstep
        simp only [] at hstep
        split at hstep
        · cases hstep
        · rename_i hv
          simp only [Except.ok.injEq, Prod.mk.injEq] at hstep
          obtain ⟨rfl, rfl, -⟩ := hstep
          exact ⟨by simpa using hv, rfl⟩

/-- C4 (amended): whenever `CreateLelantusMintRecipient` returns, the recipient
script is the concatenation, in this order, of the one-byte `OP_LELANTUSMINT`
opcode, the serialized public-coin group element of the coin, the serialized
Schnorr proof of the coin and the serialized uniqueness hash; with a 34-byte
group element, a 98-byte proof and a 32-byte hash its length is 165; the amount
is `CAmount(coin.getV())`, which is `coin.getV()` for every value below `2^63`
and `coin.getV() - 2^64` (a negative amount) for every value from `2^63` up to
`2^64 - 1`; `fSubtractFeeFromAmount` is false. -/
theorem createLelantusMintRecipient_layout (env : MintEnv S G R W M H256 H160)
    (pwalletMain : Option W) (coin : PrivateCoin S G) (vDMint : M) (generate : Bool)
    (fuel : Nat) (r : CRecipient) (st1 : MintState S G W M)
    (h : CreateLelantusMintRecipient env pwalletMain coin vDMint generate fuel =
      .returned (r, st1)) :
    ∃ (w : W) (seedID : H160),
      r.scriptPubKey = [env.OP_LELANTUSMINT] ++ env.getvch st1.coin.getPublicCoin.getValue ++
        (env.GenerateMintSchnorrProof w st1.coin).2 ++
        env.serialize256 (hashForRecover env st1.vDMint seedID) ∧
      ((env.getvch st1.coin.getPublicCoin.getValue).length = 34 →
        (env.GenerateMintSchnorrProof w st1.coin).2.length = 98 →
        (env.serialize256 (hashForRecover env st1.vDMint seedID)).length = 32 →
        r.scriptPubKey.length = 1 + 34 + 98 + 32) ∧
      r.nAmount = toCAmount st1.coin.getV ∧
      (st1.coin.getV < 2 ^ 63 → r.nAmount = (st1.coin.getV : Int)) ∧
      (2 ^ 63 ≤ st1.coin.getV → st1.coin.getV < 2 ^ 64 →
        r.nAmount = (st1.coin.getV : Int) - 2 ^ 64 ∧ r.nAmount < 0 ∧
          r.nAmount ≠ (st1.coin.getV : Int)) ∧
      r.fSubtractFeeFromAmount = false := by
  unfold CreateLelantusMintRecipient at h
  cases pwalletMain with
  | none => simp [EnsureMintWalletAvailable] at h
  | some w0 =>
    simp only [EnsureMintWalletAvailable] at h
    obtain ⟨w, seedID, -, -, hr⟩ := mintRecipientLoop_returned env generate fuel _ r st1 h
    refine ⟨w, seedID, ?_, ?_, ?_, ?_, ?_, ?_⟩
    · rw [hr]
    · intro h1 h2 h3
      rw [hr]
      simp only [List.length_append, List.length_singleton, h1, h2, h3]
    · rw [hr]
    · intro hlt
      rw [hr]
      exact toCAmount_of_lt _ hlt
    · intro hge hlt
      rw [hr]
      have hc := toCAmount_of_ge _ hge hlt
      simp only [] at hc ⊢
      refine ⟨hc, ?_, ?_⟩
      · rw [hc]
        omega
      · rw [hc]
        omega
    · rw [hr]

/-- Evaluation of C4: with tag 8 present in the state the second generated coin
is returned, in a script of 165 bytes with amount 10. -/
theorem createLelantusMintRecipient_layout_witness :
    ∃ (r : CRecipient) (st1 : MintState Int Int Nat (Int × Int)),
      CreateLelantusMintRecipient (toyMintEnv [8]) (some 0) toyCoin (0, 0) true 2 =
        .returned (r, st1) ∧
      r.scriptPubKey.length = 165 ∧ r.nAmount = 10 := by
  have hrun : CreateLelantusMintRecipient (toyMintEnv [8]) (some 0) toyCoin (0, 0) true 2 =
      .returned
        ({ scriptPubKey := [197] ++ (List.replicate 33 0 ++ [61]) ++ List.replicate 98 0 ++
              (List.replicate 31 0 ++ [13]),
           nAmount := 10, fSubtractFeeFromAmount := false },
         { wallet := 2,
           coin := PrivateCoin.createFrom toyPrimitives toyRaw toyParams 2 10 3 0,
           vDMint := (61, 10) }) := by
    rfl
  obtain ⟨w, seedID, -, hlen, -, hamt, -, -⟩ :=
    createLelantusMintRecipient_layout (toyMintEnv [8]) (some 0) toyCoin (0, 0) true 2 _ _ hrun
  exact ⟨_, _, hrun, hlen (by simp [toyMintEnv]) (by simp [toyMintEnv]) (by simp [toyMintEnv]),
    hamt (by decide)⟩

/-- C4, counterexample to the statement that the amount equals `coin.getV()`:
for the coin of value `2^63` the call returns a recipient whose amount is
`-2^63`, not the value of the returned coin. -/
theorem createLelantusMintRecipient_amount_wraps :
    ∃ (r : CRecipient) (st1 : MintState Int Int Nat (Int × Int)),
      CreateLelantusMintRecipient (toyMintEnv []) (some 0) toyHugeCoin (0, 0) true 1 =
        .returned (r, st1) ∧
      st1.coin.getV = 9223372036854775808 ∧
      r.nAmount = -9223372036854775808 ∧
      r.nAmount ≠ (st1.coin.getV : Int) := by
  refine ⟨_, _, rfl, ?_, ?_, ?_⟩ <;> decide

/-- C5, on the failing input: called with `generate = false` on a valid coin
whose tag (22) is present in the state, `CreateLelantusMintRecipient` is still
in its loop after any number of iterations; it neither returns nor throws. -/
theorem createLelantusMintRecipient_no_generate_loops (fuel : Nat) :
    CreateLelantusMintRecipient (toyMintEnv [22]) (some 0) toyCoin (72, 10) false fuel =
      .looping := by
  unfold CreateLelantusMintRecipient
  simp only [EnsureMintWalletAvailable]
  exact mintRecipientLoop_no_generate_spins (toyMintEnv [22]) fuel _ (by decide) (by decide)

/-- C6: with the mint wallet available, `CreateLelantusMintRecipient` throws
`std::runtime_error` in the iteration in which the coin it examines fails
`validate()` (the coin passed in when `generate` is false, the generated coin
when it is true), and whenever it returns a recipient the coin passed
`validate()`; the lambda of `CreateSigmaMintRecipients` throws
`std::runtime_error` for a coin failing `validate()`, which makes the whole call
throw, and every recipient it returns belongs to a coin that passed. -/
theorem mint_recipients_reject_invalid {G2 D C W2 M2 : Type}
    (env : MintEnv S G R W M H256 H160) (senv : SigmaMintEnv G2 D C W2 M2)
    (w : W) (coin : PrivateCoin S G) (vDMint : M) (generate : Bool) (fuel : Nat) :
    (∀ st : MintState S G W M,
      (generateStep env generate st).1.coin.getPublicCoin.validate env.prim = false →
      mintRecipientLoop env generate (fuel + 1) st =
        .threw (.runtime_error "Unable to mint a lelantus coin.")) ∧
    (coin.getPublicCoin.validate env.prim = false →
      CreateLelantusMintRecipient env (some w) coin vDMint false (fuel + 1) =
        .threw (.runtime_error "Unable to mint a lelantus coin.")) ∧
    ((env.GenerateLelantusMint w coin vDMint env.zero160).2.1.getPublicCoin.validate env.prim
        = false →
      CreateLelantusMintRecipient env (some w) coin vDMint true (fuel + 1) =
        .threw (.runtime_error "Unable to mint a lelantus coin.")) ∧
    (∀ (pwalletMain : Option W) (r : CRecipient) (st1 : MintState S G W M),
      CreateLelantusMintRecipient env pwalletMain coin vDMint generate fuel = .returned (r, st1) →
      st1.coin.getPublicCoin.validate env.prim = true ∧
      ∃ rest, r.scriptPubKey =
        [env.OP_LELANTUSMINT] ++ env.getvch st1.coin.getPublicCoin.getValue ++ rest) ∧
    (∀ (sst : SigmaMintState W2 M2) (c : C),
      senv.validate (senv.getPublicCoin
        (senv.GenerateMint sst.wallet (senv.getPublicCoin c).denomination c senv.freshMint).2.1)
        = false →
      sigmaMintRecipient senv sst c = .error (.runtime_error "Unable to mint a sigma coin.")) ∧
    (∀ (w2 : W2) (vDMints : List M2) (pre : List C) (c : C) (post : List C)
      (rcps : List CRecipient) (cs : List C) (sst : SigmaMintState W2 M2),
      sigmaMintTransform senv { wallet := w2, vDMints := vDMints } pre = .ok (rcps, cs, sst) →
      senv.validate (senv.getPublicCoin
        (senv.GenerateMint sst.wallet (senv.getPublicCoin c).denomination c senv.freshMint).2.1)
        = false →
      CreateSigmaMintRecipients senv (some w2) (pre ++ c :: post) vDMints =
        .error (.runtime_error "Unable to mint a sigma coin.")) ∧
    (∀ (pw : Option W2) (coins : List C) (vDMints : List M2) (rcps : List CRecipient)
      (cs : List C) (sst : SigmaMintState W2 M2),
      CreateSigmaMintRecipients senv pw coins vDMints = .ok (rcps, cs, sst) →
      List.Forall₂ (fun rcp c => senv.validate (senv.getPublicCoin c) = true ∧
        rcp.scriptPubKey = [senv.OP_SIGMAMINT] ++ senv.getvch (senv.getPublicCoin c).value)
        rcps cs) := by
  have hsig : ∀ (sst : SigmaMintState W2 M2) (c : C),
      senv.validate (senv.getPublicCoin
        (senv.GenerateMint sst.wallet (senv.getPublicCoin c).denomination c senv.freshMint).2.1)
        = false →
      sigmaMintRecipient senv sst c = .error (.runtime_error "Unable to mint a sigma coin.") := by
    intro sst c hv
    unfold sigmaMintRecipient
    simp [hv]
  refine ⟨fun st hv => mintRecipientLoop_invalid env generate fuel st hv, ?_, ?_, ?_, hsig, ?_, ?_⟩
  · intro hv
    unfold CreateLelantusMintRecipient
    simp only [EnsureMintWalletAvailable]
    exact mintRecipientLoop_invalid env false fuel _ (by simpa [generateStep] using hv)
  · intro hv
    unfold CreateLelantusMintRecipient
    simp only [EnsureMintWalletAvailable]
    exact mintRecipientLoop_invalid env true fuel _ (by simpa [generateStep] using hv)
  · intro pw r st1 h
    unfold CreateLelantusMintRecipient at h
    cases pw with
    | none => simp [EnsureMintWalletAvailable] at h
    | some w0 =>
      simp only [EnsureMintWalletAvailable] at h
      obtain ⟨w1, seedID, hv, -, hr⟩ := mintRecipientLoop_returned env generate fuel _ r st1 h
      refine ⟨hv, ?_⟩
      rw [hr]
      exact ⟨(env.GenerateMintSchnorrProof w1 st1.coin).2 ++
        env.serialize256 (hashForRecover env st1.vDMint seedID), by simp only [List.append_assoc]⟩
  · intro w2 vDMints pre c post rcps cs sst hpre hv
    unfold CreateSigmaMintRecipients
    simp only [EnsureMintWalletAvailable]
    exact sigmaMintTransform_append_invalid senv pre c post _ sst rcps cs hpre (hsig sst c hv)
  · intro pw coins vDMints rcps cs sst h
    unfold CreateSigmaMintRecipients at h
    cases pw with
    | none => simp [EnsureMintWalletAvailable] at h
    | some w0 =>
      simp only [EnsureMintWalletAvailable] at h
      exact sigmaMintTransform_ok senv coins _ sst rcps cs h

/-- Evaluation of C6: a coin whose public coin is the infinity element is
rejected with `std::runtime_error`. -/
theorem mint_recipients_reject_invalid_witness :
    toyInvalidCoin.getPublicCoin.validate (toyMintEnv []).prim = false ∧
    CreateLelantusMintRecipient (toyMintEnv []) (some 0) toyInvalidCoin (0, 0) false 1 =
      .threw (.runtime_error "Unable to mint a lelantus coin.") :=
  ⟨by decide,
    (mint_recipients_reject_invalid (toyMintEnv []) toySigmaEnv 0 toyInvalidCoin (0, 0) false
      0).2.1 (by decide)⟩

end MintRecipients

section AvailableCoins

open CWallet

variable {G K O : Type}

/-- C7: every coin returned by `GetAvailableLelantusCoins` is unused, has a
non-zero amount, has a known mint height (not -1) with
`height + (ZC_MINT_CONFIRMATIONS - 1) <= chain height`, has an outpoint outside
the locked-coin set and, when coin control has a selection, an outpoint selected
by coin control. -/
theorem getAvailableLelantusCoins_sound [DecidableEq O] (env : CoinEnv G K O)
    (coinControl : Option (CCoinControl O)) (includeUnsafe forEstimation : Bool)
    (coin : CLelantusEntry G)
    (h : coin ∈ GetAvailableLelantusCoins env coinControl includeUnsafe forEstimation) :
    coin.IsUsed = false ∧ coin.amount ≠ 0 ∧
    (env.GetMintedCoinHeightAndId (lelantus.PublicCoin.mk coin.value)).1 ≠ -1 ∧
    (env.GetMintedCoinHeightAndId (lelantus.PublicCoin.mk coin.value)).1 +
      (env.ZC_MINT_CONFIRMATIONS - 1) ≤ env.chainHeight ∧
    env.GetOutPoint (lelantus.PublicCoin.mk coin.value) ∉ env.setLockedCoins ∧
    (∀ cc, coinControl = some cc → cc.HasSelected = true →
      cc.IsSelected (env.GetOutPoint (lelantus.PublicCoin.mk coin.value)) = true) := by
  unfold GetAvailableLelantusCoins at h
  simp only [List.mem_filter, List.mem_map] at h
  obtain ⟨⟨-, hamt⟩, hkeep⟩ := h
  have hamt1 : coin.amount ≠ 0 := by simpa using hamt
  have hrem : lelantusCoinRemoved env coinControl includeUnsafe coin = false := by
    simpa using hkeep
  unfold lelantusCoinRemoved at hrem
  simp only [] at hrem
  split at hrem
  · cases hrem
  · rename_i hused
    split at hrem
    · cases hrem
    · split at hrem
      · cases hrem
      · rename_i hheight
        split at hrem
        · cases hrem
        · rename_i hconf
          split at hrem
          · cases hrem
          · rename_i hlocked
            refine ⟨by simpa using hused, hamt1, ?_, ?_, ?_, ?_⟩
            · simpa using hheight
            · simpa using hconf
            · simpa using hlocked
            · intro cc hcc hsel
              subst hcc
              simp only [hsel, if_true] at hrem
              split at hrem
              · cases hrem
              · rename_i hnot
                simpa using hnot

/-- Evaluation of C7: of the five mints of `toyCoinEnv` only mint 0 is
returned, and it has the listed properties. -/
theorem getAvailableLelantusCoins_sound_witness :
    GetAvailableLelantusCoins toyCoinEnv none false false =
      [{ value := 10, IsUsed := false, nHeight := 5, id := 1, amount := 100 }] ∧
    (toyCoinEnv.GetMintedCoinHeightAndId (lelantus.PublicCoin.mk 10)).1 + (2 - 1) ≤ 10 :=
  ⟨by decide,
    (getAvailableLelantusCoins_sound toyCoinEnv none false false
      { value := 10, IsUsed := false, nHeight := 5, id := 1, amount := 100 } (by decide)).2.2.2.1⟩

end AvailableCoins

section CoinSelection

open CWallet

variable {G O : Type}

/-- `wrapInt64` lands in the range of `int64_t`. -/
theorem wrapInt64_range (x : Int) :
    -9223372036854775808 ≤ wrapInt64 x ∧ wrapInt64 x < 9223372036854775808 := by
  unfold wrapInt64
  omega

/-- The values that `wrapInt64` leaves alone are exactly those of `int64_t`. -/
theorem wrapInt64_eq_self_iff (x : Int) :
    wrapInt64 x = x ↔ -9223372036854775808 ≤ x ∧ x < 9223372036854775808 := by
  unfold wrapInt64
  omega

/-- Under `wrapInt64` a reduced summand can be replaced by its exact value. -/
theorem wrapInt64_add_left (a b : Int) : wrapInt64 (wrapInt64 a + b) = wrapInt64 (a + b) := by
  unfold wrapInt64
  omega

/-- Reducing twice is reducing once. -/
theorem wrapInt64_idem (a : Int) : wrapInt64 (wrapInt64 a) = wrapInt64 a := by
  unfold wrapInt64
  omega

/-- A 64-bit running sum of amounts, started from a 64-bit value, is the exact
sum reduced to 64 bits. -/
theorem foldl_amount_eq_wrap (coins : List (CLelantusEntry G)) (init : Int)
    (hinit : wrapInt64 init = init) :
    coins.foldl (fun balance c => wrapInt64 (balance + c.amount)) init =
      wrapInt64 (init + (coins.map (fun c => c.amount)).sum) := by
  induction coins generalizing init with
  | nil => simp [hinit]
  | cons c coins ih =>
    simp only [List.foldl_cons, List.map_cons, List.sum_cons]
    rw [ih _ (wrapInt64_idem _), wrapInt64_add_left, add_assoc]

/-- `CalculateLelantusCoinsBalance` is the sum of the amounts reduced to 64 bits. -/
theorem calculateLelantusCoinsBalance_eq_wrap (coins : List (CLelantusEntry G)) :
    CalculateLelantusCoinsBalance coins = wrapInt64 ((coins.map (fun c => c.amount)).sum) := by
  unfold CalculateLelantusCoinsBalance
  rw [foldl_amount_eq_wrap coins 0 (by decide), zero_add]

/-- The amounts of a part of a list of coins with non-negative amounts total at
least zero and at most the total of the list. -/
theorem subperm_amount_sum_le (out coins : List (CLelantusEntry G))
    (hsub : List.Subperm out coins) (hpos : ∀ c ∈ coins, 0 ≤ c.amount) :
    0 ≤ (out.map (fun c => c.amount)).sum ∧
      (out.map (fun c => c.amount)).sum ≤ (coins.map (fun c => c.amount)).sum := by
  obtain ⟨l, hperm, hsl⟩ := hsub
  rw [← (hperm.map _).sum_eq]
  clear hperm
  induction hsl with
  | slnil => simp
  | cons a _ ih =>
    have h1 := ih (fun c hc => hpos c (List.mem_cons_of_mem _ hc))
    have h2 := hpos a (List.mem_cons_self _ _)
    simp only [List.map_cons, List.sum_cons]
    omega
  | cons₂ a _ ih =>
    have h1 := ih (fun c hc => hpos c (List.mem_cons_of_mem _ hc))
    have h2 := hpos a (List.mem_cons_self _ _)
    simp only [List.map_cons, List.sum_cons]
    omega

/-- `insertSorted` adds exactly the inserted element. -/
theorem insertSorted_perm {α : Type} (comp : α → α → Bool) (a : α) (l : List α) :
    List.Perm (insertSorted comp a l) (a :: l) := by
  induction l with
  | nil => exact List.Perm.refl _
  | cons b l ih =>
    unfold insertSorted
    split
    · exact (List.Perm.cons b ih).trans (List.Perm.swap a b l)
    · exact List.Perm.refl _

/-- `listSort` permutes its argument. -/
theorem listSort_perm {α : Type} (comp : α → α → Bool) (l : List α) :
    List.Perm (listSort comp l) l := by
  induction l with
  | nil => exact List.Perm.refl _
  | cons a l ih =>
    unfold listSort
    exact (insertSorted_perm comp a _).trans (List.Perm.cons a ih)

/-- Inserting into a list ordered by group id keeps it ordered. -/
theorem insertSorted_id_pairwise (a : CLelantusEntry G) (l : List (CLelantusEntry G))
    (hl : List.Pairwise (fun x y => x.id ≤ y.id) l) :
    List.Pairwise (fun x y => x.id ≤ y.id) (insertSorted idComparer a l) := by
  induction l with
  | nil => simp [insertSorted]
  | cons b l ih =>
    rw [List.pairwise_cons] at hl
    unfold insertSorted
    split
    · rename_i hlt
      have hba : b.id < a.id := by simpa [idComparer] using hlt
      rw [List.pairwise_cons]
      refine ⟨?_, ih hl.2⟩
      intro x hx
      rcases List.mem_cons.mp ((insertSorted_perm idComparer a l).mem_iff.mp hx) with rfl | hx
      · exact le_of_lt hba
      · exact hl.1 x hx
    · rename_i hlt
      have hab : a.id ≤ b.id := by simpa [idComparer] using hlt
      rw [List.pairwise_cons]
      refine ⟨?_, List.pairwise_cons.mpr hl⟩
      intro x hx
      rcases List.mem_cons.mp hx with rfl | hx
      · exact hab
      · exact le_trans hab (hl.1 x hx)

/-- The result of `listSort idComparer` is ordered by non-decreasing group id. -/
theorem listSort_id_pairwise (l : List (CLelantusEntry G)) :
    List.Pairwise (fun x y => x.id ≤ y.id) (listSort idComparer l) := by
  induction l with
  | nil => simp [listSort]
  | cons a l ih =>
    unfold listSort
    exact insertSorted_id_pairwise a _ ih

/-- A successful reverse scan removes exactly one coin. -/
theorem scanFromBack_length (need : Int) (l : List (CLelantusEntry G))
    (ch : CLelantusEntry G) (rest : List (CLelantusEntry G))
    (h : scanFromBack need l = some (ch, rest)) : rest.length + 1 = l.length := by
  induction l generalizing ch rest with
  | nil => simp [scanFromBack] at h
  | cons c l ih =>
    unfold scanFromBack at h
    simp only [] at h
    split at h
    · simp only [Option.some.injEq, Prod.mk.injEq] at h
      obtain ⟨-, rfl⟩ := h
      rfl
    · split at h
      · cases h
      · rename_i ch1 rest1 hrec
        simp only [Option.some.injEq, Prod.mk.injEq] at h
        obtain ⟨-, rfl⟩ := h
        simp only [List.length_cons]
        rw [ih ch1 rest1 hrec]

/-- The reverse scan succeeds when its last coin (the first coin of the list)
has an amount of at least `need`. -/
theorem scanFromBack_ne_none (need : Int) (x : CLelantusEntry G)
    (hx : need ≤ x.amount) (pre : List (CLelantusEntry G)) :
    scanFromBack need (pre ++ [x]) ≠ none := by
  induction pre with
  | nil => simp [scanFromBack, hx]
  | cons c pre ih =>
    simp only [List.cons_append]
    unfold scanFromBack
    simp only []
    split
    · simp
    · split
      · rename_i hnone
        exact absurd hnone ih
      · simp

/-- The selection loop ends within one iteration per coin. -/
theorem joinSplitLoop_terminates (nullEntry : CLelantusEntry G) (required : Int) (fuel : Nat)
    (spend_val : Int) (coins coinsToSpend : List (CLelantusEntry G))
    (hfuel : coins.length < fuel) :
    joinSplitLoop nullEntry required fuel spend_val coins coinsToSpend ≠ none := by
  induction fuel generalizing spend_val coins coinsToSpend with
  | zero => omega
  | succ fuel ih =>
    unfold joinSplitLoop
    split
    · split
      · simp
      · rename_i first others
        simp only [List.length_cons] at hfuel
        simp only []
        split
        · exact ih _ _ _ (by omega)
        · rename_i hneed
          split
          · rename_i choosen rest hscan
            have hlen := scanFromBack_length _ _ _ _ hscan
            simp only [List.length_reverse, List.length_cons] at hlen
            exact ih _ _ _ (by simp only [List.length_reverse]; omega)
          · rename_i hscan
            rw [List.reverse_cons] at hscan
            exact absurd hscan (scanFromBack_ne_none _ first (by omega) _)
    · simp

/-- The loop of `SelectSpendCoinsForAmount` appends to `coinsOut` unused coins
taken in order from `coinsIn`, lowers `val` by their total and keeps it
non-negative. -/
theorem selectSpendLoop_spec (coinsIn : List CSigmaEntry) (val : Int)
    (coinsOut : List CSigmaEntry) (hval : 0 ≤ val) :
    ∃ appended : List CSigmaEntry,
      (selectSpendLoop val coinsIn coinsOut).2 = coinsOut ++ appended ∧
      val - (selectSpendLoop val coinsIn coinsOut).1 =
        (appended.map (fun c => c.get_denomination_value)).sum ∧
      0 ≤ (selectSpendLoop val coinsIn coinsOut).1 ∧
      List.Sublist appended coinsIn ∧
      ∀ c ∈ appended, c.IsUsed = false := by
  induction coinsIn generalizing val coinsOut with
  | nil => exact ⟨[], by simp [selectSpendLoop, hval]⟩
  | cons coin rest ih =>
    unfold selectSpendLoop
    split
    · obtain ⟨app, h1, h2, h3, h4, h5⟩ := ih val coinsOut hval
      exact ⟨app, h1, h2, h3, List.Sublist.cons coin h4, h5⟩
    · rename_i hused
      simp only []
      split
      · rename_i hge
        obtain ⟨app, h1, h2, h3, h4, h5⟩ :=
          ih (val - coin.get_denomination_value) (coinsOut ++ [coin]) (by omega)
        refine ⟨coin :: app, ?_, ?_, h3, List.Sublist.cons₂ coin h4, ?_⟩
        · rw [h1]; simp
        · simp only [List.map_cons, List.sum_cons]
          omega
        · intro c hc
          rcases List.mem_cons.mp hc with rfl | hc
          · simpa using hused
          · exact h5 c hc
      · obtain ⟨app, h1, h2, h3, h4, h5⟩ := ih val coinsOut hval
        exact ⟨app, h1, h2, h3, List.Sublist.cons coin h4, h5⟩

/-- Unfolding of `GetCoinsToJoinSplit` once its four checks pass. -/
theorem getCoinsToJoinSplit_pass (MAX_MONEY : Int) (nullEntry : CLelantusEntry G)
    (fuel : Nat) (required : Int) (coinsToSpend_out : List (CLelantusEntry G))
    (changeToMint : Int) (coins : List (CLelantusEntry G)) (coinsToSpendLimit : Nat)
    (amountToSpendLimit : Int) (coinControl : Option (CCoinControl O))
    (h1 : MoneyRange MAX_MONEY required = true)
    (h2 : MoneyRange MAX_MONEY amountToSpendLimit = true)
    (h3 : required ≤ amountToSpendLimit)
    (h4 : required ≤ CalculateLelantusCoinsBalance coins) :
    GetCoinsToJoinSplit MAX_MONEY nullEntry fuel required coinsToSpend_out changeToMint
      coins coinsToSpendLimit amountToSpendLimit coinControl =
      match joinSplitSelection nullEntry fuel required (listSort amountComparer coins)
          coinControl with
      | none => { result := .looping, coinsToSpend_out := coinsToSpend_out,
                  changeToMint := changeToMint }
      | some (spend_val, coinsToSpend) =>
        { result := .returned true
          coinsToSpend_out := listSort idComparer coinsToSpend ++ coinsToSpend_out
          changeToMint := wrapInt64 (spend_val - required) } := by
  unfold GetCoinsToJoinSplit
  simp only [h1, h2, Bool.not_true, Bool.false_eq_true, if_false]
  rw [if_neg (by omega), if_neg (by omega)]

/-- How `GetCoinsToJoinSplit` ends, by cases on its checks: it either threw with
its outputs unchanged, or passed all four checks. -/
theorem getCoinsToJoinSplit_cases (MAX_MONEY : Int) (nullEntry : CLelantusEntry G)
    (fuel : Nat) (required : Int) (coinsToSpend_out : List (CLelantusEntry G))
    (changeToMint : Int) (coins : List (CLelantusEntry G)) (coinsToSpendLimit : Nat)
    (amountToSpendLimit : Int) (coinControl : Option (CCoinControl O)) :
    ((∃ e, GetCoinsToJoinSplit MAX_MONEY nullEntry fuel required coinsToSpend_out changeToMint
        coins coinsToSpendLimit amountToSpendLimit coinControl =
        { result := .threw e, coinsToSpend_out := coinsToSpend_out,
          changeToMint := changeToMint }) ∨
     (MoneyRange MAX_MONEY required = true ∧ MoneyRange MAX_MONEY amountToSpendLimit = true ∧
       required ≤ amountToSpendLimit ∧ required ≤ CalculateLelantusCoinsBalance coins)) := by
  by_cases h1 : MoneyRange MAX_MONEY required = true
  · by_cases h2 : MoneyRange MAX_MONEY amountToSpendLimit = true
    · by_cases h3 : required ≤ amountToSpendLimit
      · by_cases h4 : required ≤ CalculateLelantusCoinsBalance coins
        · exact Or.inr ⟨h1, h2, h3, h4⟩
        · left
          unfold GetCoinsToJoinSplit
          simp only [h1, h2, Bool.not_true, Bool.false_eq_true, if_false]
          rw [if_neg (by omega), if_pos (by omega)]
          exact ⟨_, rfl⟩
      · left
        unfold GetCoinsToJoinSplit
        simp only [h1, h2, Bool.not_true, Bool.false_eq_true, if_false]
        rw [if_pos (by omega)]
        exact ⟨_, rfl⟩
    · left
      unfold GetCoinsToJoinSplit
      simp only [Bool.not_eq_true] at h2
      simp only [h1, h2, Bool.not_true, Bool.false_eq_true, if_false, Bool.not_false, if_true]
      exact ⟨_, rfl⟩
  · left
    unfold GetCoinsToJoinSplit
    simp only [Bool.not_eq_true] at h1
    simp only [h1, Bool.not_false, if_true]
    exact ⟨_, rfl⟩

/-- When `GetCoinsToJoinSplit` returns true, its output vector is the selection
sorted by group id, placed in front of the previous contents. -/
theorem getCoinsToJoinSplit_returned (MAX_MONEY : Int) (nullEntry : CLelantusEntry G)
    (fuel : Nat) (required : Int) (coinsToSpend_out : List (CLelantusEntry G))
    (changeToMint : Int) (coins : List (CLelantusEntry G)) (coinsToSpendLimit : Nat)
    (amountToSpendLimit : Int) (coinControl : Option (CCoinControl O))
    (h : (GetCoinsToJoinSplit MAX_MONEY nullEntry fuel required coinsToSpend_out changeToMint
      coins coinsToSpendLimit amountToSpendLimit coinControl).result = .returned true) :
    ∃ (spend_val : Int) (coinsToSpend : List (CLelantusEntry G)),
      joinSplitSelection nullEntry fuel required (listSort amountComparer coins) coinControl =
        some (spend_val, coinsToSpend) ∧
      (GetCoinsToJoinSplit MAX_MONEY nullEntry fuel required coinsToSpend_out changeToMint
        coins coinsToSpendLimit amountToSpendLimit coinControl).coinsToSpend_out =
          listSort idComparer coinsToSpend ++ coinsToSpend_out ∧
      (GetCoinsToJoinSplit MAX_MONEY nullEntry fuel required coinsToSpend_out changeToMint
        coins coinsToSpendLimit amountToSpendLimit coinControl).changeToMint =
          wrapInt64 (spend_val - required) := by
  rcases getCoinsToJoinSplit_cases MAX_MONEY nullEntry fuel required coinsToSpend_out
    changeToMint coins coinsToSpendLimit amountToSpendLimit coinControl with ⟨e, he⟩ | ⟨h1, h2, h3, h4⟩
  · rw [he] at h
    cases h
  · rw [getCoinsToJoinSplit_pass MAX_MONEY nullEntry fuel required coinsToSpend_out
      changeToMint coins coinsToSpendLimit amountToSpendLimit coinControl h1 h2 h3 h4] at h ⊢
    cases hsel : joinSplitSelection nullEntry fuel required (listSort amountComparer coins)
      coinControl with
    | none =>
      rw [hsel] at h
      cases h
    | some sel =>
      obtain ⟨spend_val, coinsToSpend⟩ := sel
      exact ⟨spend_val, coinsToSpend, rfl, rfl, rfl⟩

/-- C8 (amended): `GetCoinsToJoinSplit` throws `WalletError` if `required` is
outside `MoneyRange` (negative or above the maximum), if `amountToSpendLimit` is
outside `MoneyRange`, or if `required > amountToSpendLimit`; otherwise it throws
`InsufficientFunds` if `required` exceeds the balance computed by
`CalculateLelantusCoinsBalance`; otherwise it returns true (the selection loop
ends within one iteration per coin).  The computed balance is the sum of the
amounts of the coins reduced to 64-bit two's complement, so whenever that sum
lies in `[-2^63, 2^63)` the balance check compares `required` with the sum
itself.  On every throw `coinsToSpend_out` and `changeToMint` are unchanged. -/
theorem getCoinsToJoinSplit_checks (MAX_MONEY : Int) (nullEntry : CLelantusEntry G)
    (fuel : Nat) (required : Int) (coinsToSpend_out : List (CLelantusEntry G))
    (changeToMint : Int) (coins : List (CLelantusEntry G)) (coinsToSpendLimit : Nat)
    (amountToSpendLimit : Int) (coinControl : Option (CCoinControl O)) :
    ((required < 0 ∨ MAX_MONEY < required ∨ amountToSpendLimit < 0 ∨
        MAX_MONEY < amountToSpendLimit ∨ amountToSpendLimit < required) →
      ∃ what, (GetCoinsToJoinSplit MAX_MONEY nullEntry fuel required coinsToSpend_out
        changeToMint coins coinsToSpendLimit amountToSpendLimit coinControl).result =
          .threw (.WalletError what)) ∧
    ((0 ≤ required ∧ required ≤ MAX_MONEY ∧ 0 ≤ amountToSpendLimit ∧
        amountToSpendLimit ≤ MAX_MONEY ∧ required ≤ amountToSpendLimit) →
      (CalculateLelantusCoinsBalance coins < required →
        (GetCoinsToJoinSplit MAX_MONEY nullEntry fuel required coinsToSpend_out
          changeToMint coins coinsToSpendLimit amountToSpendLimit coinControl).result =
            .threw .InsufficientFunds) ∧
      (required ≤ CalculateLelantusCoinsBalance coins → coins.length < fuel →
        (GetCoinsToJoinSplit MAX_MONEY nullEntry fuel required coinsToSpend_out
          changeToMint coins coinsToSpendLimit amountToSpendLimit coinControl).result =
            .returned true)) ∧
    CalculateLelantusCoinsBalance coins = wrapInt64 ((coins.map (fun c => c.amount)).sum) ∧
    ((0 ≤ required ∧ required ≤ MAX_MONEY ∧ 0 ≤ amountToSpendLimit ∧
        amountToSpendLimit ≤ MAX_MONEY ∧ required ≤ amountToSpendLimit) →
      -9223372036854775808 ≤ (coins.map (fun c => c.amount)).sum →
      (coins.map (fun c => c.amount)).sum < 9223372036854775808 →
      ((coins.map (fun c => c.amount)).sum < required →
        (GetCoinsToJoinSplit MAX_MONEY nullEntry fuel required coinsToSpend_out
          changeToMint coins coinsToSpendLimit amountToSpendLimit coinControl).result =
            .threw .InsufficientFunds) ∧
      (required ≤ (coins.map (fun c => c.amount)).sum → coins.length < fuel →
        (GetCoinsToJoinSplit MAX_MONEY nullEntry fuel required coinsToSpend_out
          changeToMint coins coinsToSpendLimit amountToSpendLimit coinControl).result =
            .returned true)) ∧
    (∀ e, (GetCoinsToJoinSplit MAX_MONEY nullEntry fuel required coinsToSpend_out
        changeToMint coins coinsToSpendLimit amountToSpendLimit coinControl).result = .threw e →
      (GetCoinsToJoinSplit MAX_MONEY nullEntry fuel required coinsToSpend_out
        changeToMint coins coinsToSpendLimit amountToSpendLimit coinControl).coinsToSpend_out =
          coinsToSpend_out ∧
      (GetCoinsToJoinSplit MAX_MONEY nullEntry fuel required coinsToSpend_out
        changeToMint coins coinsToSpendLimit amountToSpendLimit coinControl).changeToMint =
          changeToMint) := by
  have hgood : (0 ≤ required ∧ required ≤ MAX_MONEY ∧ 0 ≤ amountToSpendLimit ∧
        amountToSpendLimit ≤ MAX_MONEY ∧ required ≤ amountToSpendLimit) →
      (CalculateLelantusCoinsBalance coins < required →
        (GetCoinsToJoinSplit MAX_MONEY nullEntry fuel required coinsToSpend_out
          changeToMint coins coinsToSpendLimit amountToSpendLimit coinControl).result =
            .threw .InsufficientFunds) ∧
      (required ≤ CalculateLelantusCoinsBalance coins → coins.length < fuel →
        (GetCoinsToJoinSplit MAX_MONEY nullEntry fuel required coinsToSpend_out
          changeToMint coins coinsToSpendLimit amountToSpendLimit coinControl).result =
            .returned true) := by
    rintro ⟨h1, h2, h3, h4, h5⟩
    have hr : MoneyRange MAX_MONEY required = true := by simp [MoneyRange, h1, h2]
    have hl : MoneyRange MAX_MONEY amountToSpendLimit = true := by simp [MoneyRange, h3, h4]
    constructor
    · intro hsum
      unfold GetCoinsToJoinSplit
      simp only [hr, hl, Bool.not_true, Bool.false_eq_true, if_false]
      rw [if_neg (by omega), if_pos (by omega)]
    · intro hsum hfuel
      rw [getCoinsToJoinSplit_pass MAX_MONEY nullEntry fuel required coinsToSpend_out
        changeToMint coins coinsToSpendLimit amountToSpendLimit coinControl hr hl h5 hsum]
      cases hsel : joinSplitSelection nullEntry fuel required (listSort amountComparer coins)
        coinControl with
      | none =>
        exfalso
        unfold joinSplitSelection at hsel
        simp only [] at hsel
        split at hsel
        · cases hsel
        · exact absurd hsel (joinSplitLoop_terminates nullEntry required fuel 0 _ []
            (by rw [(listSort_perm amountComparer coins).length_eq]; exact hfuel))
      | some sel => rfl
  refine ⟨?_, hgood, calculateLelantusCoinsBalance_eq_wrap coins, ?_, ?_⟩
  · intro hbad
    unfold GetCoinsToJoinSplit
    simp only []
    split
    · exact ⟨_, rfl⟩
    · rename_i hc1
      split
      · exact ⟨_, rfl⟩
      · rename_i hc2
        split
        · exact ⟨_, rfl⟩
        · rename_i hc3
          simp [MoneyRange] at hc1 hc2
          omega
  · intro hargs hlo hhi
    have hbal : CalculateLelantusCoinsBalance coins = (coins.map (fun c => c.amount)).sum := by
      rw [calculateLelantusCoinsBalance_eq_wrap]
      exact (wrapInt64_eq_self_iff _).mpr ⟨hlo, hhi⟩
    rw [← hbal]
    exact hgood hargs
  · intro e he
    rcases getCoinsToJoinSplit_cases MAX_MONEY nullEntry fuel required coinsToSpend_out
      changeToMint coins coinsToSpendLimit amountToSpendLimit coinControl with
      ⟨e1, he1⟩ | ⟨h1, h2, h3, h4⟩
    · rw [he1]
      exact ⟨rfl, rfl⟩
    · rw [getCoinsToJoinSplit_pass MAX_MONEY nullEntry fuel required coinsToSpend_out
        changeToMint coins coinsToSpendLimit amountToSpendLimit coinControl h1 h2 h3 h4] at he ⊢
      cases hsel : joinSplitSelection nullEntry fuel required (listSort amountComparer coins)
        coinControl with
      | none => exact ⟨rfl, rfl⟩
      | some sel =>
        rw [hsel] at he
        cases he

/-- Evaluation of C8 on `toyCoins` (total 100, maximum 1000): a request of 60
under a limit of 100 returns true; a request of 101 under a limit of 100 throws
`WalletError`. -/
theorem getCoinsToJoinSplit_checks_witness :
    (GetCoinsToJoinSplit 1000 (toyEntry 0 0 0) 4 60 [] 0 toyCoins 10 100
      (none : Option (CCoinControl Nat))).result = .returned true ∧
    ∃ what, (GetCoinsToJoinSplit 1000 (toyEntry 0 0 0) 4 101 [] 0 toyCoins 10 100
      (none : Option (CCoinControl Nat))).result = .threw (.WalletError what) :=
  ⟨((getCoinsToJoinSplit_checks 1000 (toyEntry 0 0 0) 4 60 [] 0 toyCoins 10 100
      (none : Option (CCoinControl Nat))).2.2.2.1 (by decide) (by decide) (by decide)).2
      (by decide) (by decide),
    (getCoinsToJoinSplit_checks 1000 (toyEntry 0 0 0) 4 101 [] 0 toyCoins 10 100
      (none : Option (CCoinControl Nat))).1 (by decide)⟩

/-- C8, counterexample to the statement about the sum of the amounts: on two
coins of `2^62` units (non-negative amounts, exact total `2^63`) a request of 60
under a limit of 100 passes the three argument checks and does not exceed the
sum of the amounts, yet the 64-bit balance is `-2^63` and the call throws
`InsufficientFunds`. -/
theorem getCoinsToJoinSplit_balance_wraps :
    MoneyRange 1000 60 = true ∧ MoneyRange 1000 100 = true ∧ (60 : Int) ≤ 100 ∧
    (∀ c ∈ toyBigCoins, 0 ≤ c.amount) ∧
    (toyBigCoins.map (fun c => c.amount)).sum = 9223372036854775808 ∧
    (60 : Int) ≤ (toyBigCoins.map (fun c => c.amount)).sum ∧
    CalculateLelantusCoinsBalance toyBigCoins = -9223372036854775808 ∧
    (GetCoinsToJoinSplit 1000 (toyEntry 0 0 0) 3 60 [] 0 toyBigCoins 10 100
      (none : Option (CCoinControl Nat))).result = .threw .InsufficientFunds := by
  decide

/-- C9: when `GetCoinsToJoinSplit` returns true and `coinsToSpend_out` was empty
on entry, `coinsToSpend_out` is ordered by non-decreasing group id. -/
theorem getCoinsToJoinSplit_sorted_by_id (MAX_MONEY : Int) (nullEntry : CLelantusEntry G)
    (fuel : Nat) (required : Int) (changeToMint : Int) (coins : List (CLelantusEntry G))
    (coinsToSpendLimit : Nat) (amountToSpendLimit : Int) (coinControl : Option (CCoinControl O))
    (h : (GetCoinsToJoinSplit MAX_MONEY nullEntry fuel required [] changeToMint
      coins coinsToSpendLimit amountToSpendLimit coinControl).result = .returned true) :
    List.Pairwise (fun a b => a.id ≤ b.id)
      (GetCoinsToJoinSplit MAX_MONEY nullEntry fuel required [] changeToMint
        coins coinsToSpendLimit amountToSpendLimit coinControl).coinsToSpend_out := by
  obtain ⟨spend_val, coinsToSpend, -, hout, -⟩ :=
    getCoinsToJoinSplit_returned MAX_MONEY nullEntry fuel required [] changeToMint coins
      coinsToSpendLimit amountToSpendLimit coinControl h
  rw [hout, List.append_nil]
  exact listSort_id_pairwise coinsToSpend

/-- Evaluation of C9 on `toyCoins`: a request of 60 selects the coins of 50
(group 3) and 20 (group 1) and returns them in the order of groups 1, 3. -/
theorem getCoinsToJoinSplit_sorted_by_id_witness :
    (GetCoinsToJoinSplit 1000 (toyEntry 0 0 0) 4 60 [] 0 toyCoins 10 100
      (none : Option (CCoinControl Nat))).coinsToSpend_out = [toyEntry 20 8 1, toyEntry 50 7 3] ∧
    List.Pairwise (fun a b => a.id ≤ b.id)
      (GetCoinsToJoinSplit 1000 (toyEntry 0 0 0) 4 60 [] 0 toyCoins 10 100
        (none : Option (CCoinControl Nat))).coinsToSpend_out :=
  ⟨by decide,
    getCoinsToJoinSplit_sorted_by_id 1000 (toyEntry 0 0 0) 4 60 0 toyCoins 10 100
      (none : Option (CCoinControl Nat)) (by decide)⟩

/-- C10: for `required >= 0`, `SelectSpendCoinsForAmount` returns exactly the
sum of the denomination values of the coins it appended to `coinsOut`, that sum
is at most `required`, and the appended coins are a subsequence of `coinsIn`
(each input coin taken at most once) without any coin marked used. -/
theorem selectSpendCoinsForAmount_spec (required : Int) (coinsIn coinsOut : List CSigmaEntry)
    (hreq : 0 ≤ required) :
    ∃ appended : List CSigmaEntry,
      (SelectSpendCoinsForAmount required coinsIn coinsOut).2 = coinsOut ++ appended ∧
      (SelectSpendCoinsForAmount required coinsIn coinsOut).1 =
        (appended.map (fun c => c.get_denomination_value)).sum ∧
      (SelectSpendCoinsForAmount required coinsIn coinsOut).1 ≤ required ∧
      List.Sublist appended coinsIn ∧
      ∀ c ∈ appended, c.IsUsed = false := by
  obtain ⟨app, h1, h2, h3, h4, h5⟩ := selectSpendLoop_spec coinsIn required coinsOut hreq
  refine ⟨app, h1, h2, ?_, h4, h5⟩
  show required - (selectSpendLoop required coinsIn coinsOut).1 ≤ required
  omega

/-- Evaluation of C10 on `toySigmaCoins`: for a request of 17 the used coin is
skipped and the coins of 10, 5 and 1 are taken, 16 in total. -/
theorem selectSpendCoinsForAmount_spec_witness :
    (SelectSpendCoinsForAmount 17 toySigmaCoins []).1 = 16 ∧
    ∃ appended : List CSigmaEntry,
      (SelectSpendCoinsForAmount 17 toySigmaCoins []).2 = [] ++ appended ∧
      (SelectSpendCoinsForAmount 17 toySigmaCoins []).1 =
        (appended.map (fun c => c.get_denomination_value)).sum ∧
      (SelectSpendCoinsForAmount 17 toySigmaCoins []).1 ≤ 17 ∧
      List.Sublist appended toySigmaCoins ∧
      ∀ c ∈ appended, c.IsUsed = false :=
  ⟨by decide, selectSpendCoinsForAmount_spec 17 toySigmaCoins [] (by decide)⟩

end CoinSelection

section MintSelection

open CWallet

variable {D : Type}

/-- With a positive denomination and enough fuel the inner loop of
`SelectMintCoinsForAmount` appends `k` copies of the denomination and leaves a
remainder below it. -/
theorem selectMintWhile_spec (d : D) (denom : Int) (hd : 0 < denom) (fuel : Nat) (val : Int)
    (coinsOut : List D) (hval : 0 ≤ val) (hfuel : val.toNat < fuel) :
    ∃ k : Nat, selectMintWhile d denom fuel val coinsOut =
        some (val - k * denom, coinsOut ++ List.replicate k d) ∧
      0 ≤ val - k * denom ∧ val - k * denom < denom := by
  induction fuel generalizing val coinsOut with
  | zero => omega
  | succ fuel ih =>
    unfold selectMintWhile
    split
    · rename_i hge
      obtain ⟨k, hk, h0, h1⟩ := ih (val - denom) (coinsOut ++ [d]) (by omega) (by omega)
      refine ⟨k + 1, ?_, ?_, ?_⟩
      · rw [hk]
        simp only [List.append_assoc, List.singleton_append, List.replicate_succ]
        congr 2
        push_cast
        ring
      · push_cast; linarith
      · push_cast; linarith
    · rename_i hlt
      exact ⟨0, by simp, by simpa using hval, by simpa using hlt⟩

/-- With positive denominations and enough fuel the loop of
`SelectMintCoinsForAmount` ends; it lowers `val` by the total of the appended
denominations, keeps it non-negative and leaves it below the last denomination. -/
theorem selectMintLoop_spec (env : DenomEnv D) (fuel : Nat) (denominations : List D)
    (hpos : ∀ d ∈ denominations, 0 < env.value d) (val : Int) (coinsOut : List D)
    (hval : 0 ≤ val) (hfuel : val.toNat < fuel) :
    ∃ (appended : List D) (rest : Int),
      selectMintLoop env fuel val denominations coinsOut = some (rest, coinsOut ++ appended) ∧
      0 ≤ rest ∧ val - rest = (appended.map env.value).sum ∧
      (∀ d, denominations.getLast? = some d → rest < env.value d) ∧
      (∀ x ∈ appended, x ∈ denominations) := by
  induction denominations generalizing val coinsOut with
  | nil => exact ⟨[], val, by simp [selectMintLoop, hval]⟩
  | cons d rest ih =>
    have hd : 0 < env.value d := hpos d (List.mem_cons_self d rest)
    obtain ⟨k, hk, h0, h1⟩ := selectMintWhile_spec d (env.value d) hd fuel val coinsOut hval hfuel
    obtain ⟨app, r, hloop, hr0, hsum, hlast, hmem⟩ :=
      ih (fun x hx => hpos x (List.mem_cons_of_mem d hx)) (val - k * env.value d)
        (coinsOut ++ List.replicate k d) h0
        (by have : 0 ≤ (k : Int) * env.value d := by positivity
            omega)
    have hrle : r ≤ val - k * env.value d := by
      have : 0 ≤ (app.map env.value).sum := by
        apply List.sum_nonneg
        intro x hx
        obtain ⟨y, hy, rfl⟩ := List.mem_map.mp hx
        exact le_of_lt (hpos y (List.mem_cons_of_mem d (hmem y hy)))
      omega
    refine ⟨List.replicate k d ++ app, r, ?_, hr0, ?_, ?_, ?_⟩
    · unfold selectMintLoop
      rw [hk]
      simp only []
      rw [hloop, List.append_assoc]
    · simp only [List.map_append, List.sum_append, List.map_replicate, List.sum_replicate,
        nsmul_eq_mul]
      linarith
    · intro x hx
      cases rest with
      | nil =>
        simp only [List.getLast?_singleton, Option.some.injEq] at hx
        subst hx
        omega
      | cons e rest1 =>
        rw [List.getLast?_cons_cons] at hx
        exact hlast x hx
    · intro x hx
      rcases List.mem_append.mp hx with hx | hx
      · rw [List.eq_of_mem_replicate hx]
        exact List.mem_cons_self d rest
      · exact List.mem_cons_of_mem d (hmem x hx)

/-- C11: for `required >= 0` and a non-empty list of positive denominations,
`SelectMintCoinsForAmount` terminates (fuel above `required` is enough), returns
exactly the sum of the denominations it appended to `coinsOut`, that sum is at
most `required`, and `required` minus the returned amount is strictly less than
the last denomination of the list. -/
theorem selectMintCoinsForAmount_spec (env : DenomEnv D) (fuel : Nat) (required : Int)
    (denominations : List D) (coinsOut : List D) (hreq : 0 ≤ required)
    (hne : denominations ≠ []) (hpos : ∀ d ∈ denominations, 0 < env.value d)
    (hfuel : required.toNat < fuel) :
    ∃ appended : List D,
      SelectMintCoinsForAmount env fuel required denominations coinsOut =
        some ((appended.map env.value).sum, coinsOut ++ appended) ∧
      (appended.map env.value).sum ≤ required ∧
      required - (appended.map env.value).sum < env.value (denominations.getLast hne) := by
  obtain ⟨app, r, hloop, hr0, hsum, hlast, -⟩ :=
    selectMintLoop_spec env fuel denominations hpos required coinsOut hreq hfuel
  refine ⟨app, ?_, by omega, ?_⟩
  · unfold SelectMintCoinsForAmount
    rw [hloop]
    simp only [Option.some.injEq, Prod.mk.injEq, and_true]
    omega
  · have := hlast _ (List.getLast?_eq_getLast _ hne)
    omega

/-- Evaluation of C11 on the sigma denominations: 0.35 coin (7 units) is minted
as 0.1, 0.1, 0.1 and 0.05. -/
theorem selectMintCoinsForAmount_spec_witness :
    SelectMintCoinsForAmount toyDenomEnv 36000000 35000000 toyDenomEnv.GetAllDenoms [] =
      some (35000000, [2, 2, 2, 1]) ∧
    ∃ appended : List Nat,
      SelectMintCoinsForAmount toyDenomEnv 36000000 35000000 toyDenomEnv.GetAllDenoms [] =
        some ((appended.map toyDenomEnv.value).sum, [] ++ appended) ∧
      (appended.map toyDenomEnv.value).sum ≤ 35000000 ∧
      35000000 - (appended.map toyDenomEnv.value).sum <
        toyDenomEnv.value (toyDenomEnv.GetAllDenoms.getLast (by decide)) :=
  ⟨by decide,
    selectMintCoinsForAmount_spec toyDenomEnv 36000000 35000000 toyDenomEnv.GetAllDenoms []
      (by decide) (by decide) (by decide) (by decide)⟩

end MintSelection

section Fees

open CWallet

variable {P : Type}

/-- C12: `GetMinimumFee` is `min(max(base, GetRequiredFee), maxTxFee)`, where
`base` is `targetFee` if non-zero, otherwise the smart fee estimate if non-zero,
otherwise the fallback fee, and `GetRequiredFee` is the larger of the `minTxFee`
and `minRelayTxFee` fees; the result never exceeds `maxTxFee` and is not below
the required fee unless the required fee exceeds `maxTxFee`. -/
theorem getMinimumFee_eq (env : FeeEnv P) (nTxBytes nConfirmTarget : Nat) (pool : P)
    (targetFee : Int) :
    GetMinimumFee env nTxBytes nConfirmTarget pool targetFee =
      min (max (if targetFee ≠ 0 then targetFee
                else if env.estimateSmartFee pool nConfirmTarget nTxBytes ≠ 0 then
                  env.estimateSmartFee pool nConfirmTarget nTxBytes
                else env.fallbackFee nTxBytes)
            (GetRequiredFee env nTxBytes)) env.maxTxFee ∧
    GetRequiredFee env nTxBytes = max (env.minTxFee nTxBytes) (env.minRelayTxFee nTxBytes) ∧
    GetMinimumFee env nTxBytes nConfirmTarget pool targetFee ≤ env.maxTxFee ∧
    (GetRequiredFee env nTxBytes ≤ env.maxTxFee →
      GetRequiredFee env nTxBytes ≤ GetMinimumFee env nTxBytes nConfirmTarget pool targetFee) := by
  refine ⟨?_, rfl, ?_, ?_⟩ <;> unfold GetMinimumFee <;> simp only [] <;>
    generalize GetRequiredFee env nTxBytes = req <;>
    generalize env.estimateSmartFee pool nConfirmTarget nTxBytes = est <;>
    generalize env.fallbackFee nTxBytes = fb
  · by_cases h1 : targetFee = 0 <;> by_cases h2 : est = 0 <;>
      simp only [h1, h2, if_true, if_false, ne_eq, not_true_eq_false, not_false_eq_true] <;>
      split <;> omega
  · split <;> omega
  · intro h
    split <;> omega

end Fees

section FeesEvaluation

open CWallet

/-- Evaluation of C12: for 100 bytes without target or estimate, the fee is the
fallback fee 500, between the required fee 200 and the maximum 1000. -/
theorem getMinimumFee_eq_witness :
    GetMinimumFee toyFeeEnv 100 6 () 0 = 500 ∧
    GetRequiredFee toyFeeEnv 100 ≤ GetMinimumFee toyFeeEnv 100 6 () 0 :=
  ⟨by decide, (getMinimumFee_eq toyFeeEnv 100 6 () 0).2.2.2 (by decide)⟩

end FeesEvaluation

section CoinKeys

open lelantus lelantus.PrivateCoin

variable {S G : Type}

/-- C15: `setEcdsaSeckey(vector)` succeeds exactly when the vector has 32
bytes, and then `getEcdsaSeckey()` returns those bytes in order (the other
members keep their values); for every other length it throws
`std::invalid_argument` and leaves the stored key and all other members
unchanged. -/
theorem setEcdsaSeckey_spec (c : PrivateCoin S G) (seckey : List Nat) :
    ((∃ c1, c.setEcdsaSeckey seckey = .ok c1) ↔ seckey.length = 32) ∧
    (seckey.length = 32 →
      c.setEcdsaSeckey seckey = .ok (c.afterSetEcdsaSeckey seckey) ∧
      (c.afterSetEcdsaSeckey seckey).getEcdsaSeckey = seckey ∧
      c.afterSetEcdsaSeckey seckey = { c with ecdsaSeckey := seckey }) ∧
    (seckey.length ≠ 32 →
      c.setEcdsaSeckey seckey = .error (.invalid_argument "EcdsaSeckey size does not match.") ∧
      c.afterSetEcdsaSeckey seckey = c) := by
  refine ⟨?_, ?_, ?_⟩
  · constructor
    · rintro ⟨c1, h⟩
      unfold setEcdsaSeckey at h
      split at h
      · assumption
      · cases h
    · intro h
      exact ⟨_, by unfold setEcdsaSeckey; rw [if_pos h]⟩
  · intro h
    simp only [afterSetEcdsaSeckey, setEcdsaSeckey, if_pos h, getEcdsaSeckey, and_self]
  · intro h
    simp only [afterSetEcdsaSeckey, setEcdsaSeckey, if_neg h, and_self]

/-- Evaluation of C15: a key of 32 bytes is stored, a key of 31 bytes is
rejected and the coin stays as it was. -/
theorem setEcdsaSeckey_spec_witness :
    (toyCoin.afterSetEcdsaSeckey (List.replicate 32 7)).getEcdsaSeckey = List.replicate 32 7 ∧
    toyCoin.afterSetEcdsaSeckey (List.replicate 31 7) = toyCoin :=
  ⟨((setEcdsaSeckey_spec toyCoin (List.replicate 32 7)).2.1 (by decide)).2.1,
    ((setEcdsaSeckey_spec toyCoin (List.replicate 31 7)).2.2 (by decide)).2⟩

/-- C16: `serialNumberFromSerializedPublicKey(context, pubkey)` returns
`Scalar(SHA256(P || E))` for the domain-separation string `P` and the output `E`
of `secp256k1_ecdh(pubkey, 1)`; two calls whose ECDH evaluations agree (in
particular two calls with equal keys) give the same result; and it throws
`ZerocoinException` exactly when the ECDH evaluation fails. -/
theorem serialNumberFromSerializedPublicKey_spec {Ctx PK : Type} (env : SerialEnv Ctx PK S)
    (context : Ctx) (pubkey : PK) :
    (∀ E, env.secp256k1_ecdh context pubkey one = some E →
      serialNumberFromSerializedPublicKey env context pubkey =
        .ok (env.scalarOfBytes (env.SHA256 (env.ZEROCOIN_PUBLICKEY_TO_SERIALNUMBER ++ E)))) ∧
    (∀ (context2 : Ctx) (pubkey2 : PK),
      env.secp256k1_ecdh context2 pubkey2 one = env.secp256k1_ecdh context pubkey one →
      serialNumberFromSerializedPublicKey env context2 pubkey2 =
        serialNumberFromSerializedPublicKey env context pubkey) ∧
    (∀ pubkey2 : PK, pubkey2 = pubkey →
      serialNumberFromSerializedPublicKey env context pubkey2 =
        serialNumberFromSerializedPublicKey env context pubkey) ∧
    ((∃ e, serialNumberFromSerializedPublicKey env context pubkey = .error e) ↔
      env.secp256k1_ecdh context pubkey one = none) ∧
    (env.secp256k1_ecdh context pubkey one = none →
      serialNumberFromSerializedPublicKey env context pubkey =
        .error { what := "Unable to compute public key hash with secp256k1_ecdh." }) := by
  refine ⟨?_, ?_, ?_, ?_, ?_⟩
  · intro E hE
    simp only [serialNumberFromSerializedPublicKey, hE]
  · intro context2 pubkey2 h
    simp only [serialNumberFromSerializedPublicKey, h]
  · intro pubkey2 h
    rw [h]
  · unfold serialNumberFromSerializedPublicKey
    cases env.secp256k1_ecdh context pubkey one with
    | none => simp
    | some E => simp
  · intro h
    simp only [serialNumberFromSerializedPublicKey, h]

/-- Evaluation of C16: key 3 gives the serial 266 (the sum of 90, 80 and 32
times 3), key 0 is rejected. -/
theorem serialNumberFromSerializedPublicKey_spec_witness :
    serialNumberFromSerializedPublicKey toySerialEnv () 3 = .ok 266 ∧
    serialNumberFromSerializedPublicKey toySerialEnv () 0 =
      .error { what := "Unable to compute public key hash with secp256k1_ecdh." } :=
  ⟨(serialNumberFromSerializedPublicKey_spec toySerialEnv () 3).1 (List.replicate 32 3)
      (by decide),
    (serialNumberFromSerializedPublicKey_spec toySerialEnv () 0).2.2.2.2 (by decide)⟩

end CoinKeys

section SpentOutputs

open CWallet

variable {Sc H TxId : Type}

/-- The normal branch of `IsSpent` is true exactly when a recorded spender of
the outpoint is in the wallet and is not conflicted. -/
theorem normalOutputSpent_iff [DecidableEq TxId] (env : SpentEnv Sc H TxId) (hash : TxId)
    (n : Nat) :
    normalOutputSpent env hash n = true ↔
      ∃ (wtxid : TxId) (wtx : WalletTxView Sc),
        ((hash, n), wtxid) ∈ env.mapTxSpends ∧ env.mapWallet wtxid = some wtx ∧
        (wtx.depth > 0 ∨ (wtx.depth = 0 ∧ wtx.abandoned = false)) := by
  unfold normalOutputSpent
  simp only [List.any_eq_true, List.mem_filter, decide_eq_true_eq]
  constructor
  · rintro ⟨⟨key, wtxid⟩, ⟨hmem, hkey⟩, hspent⟩
    simp only at hkey hspent
    subst hkey
    cases hw : env.mapWallet wtxid with
    | none => simp [hw] at hspent
    | some wtx =>
      simp only [hw, Bool.or_eq_true, decide_eq_true_eq, Bool.and_eq_true,
        Bool.not_eq_true'] at hspent
      exact ⟨wtxid, wtx, hmem, hw, hspent⟩
  · rintro ⟨wtxid, wtx, hmem, hw, hspent⟩
    refine ⟨((hash, n), wtxid), ⟨hmem, rfl⟩, ?_⟩
    simp only [hw, Bool.or_eq_true, decide_eq_true_eq, Bool.and_eq_true, Bool.not_eq_true']
    exact hspent

/-- C13: for an outpoint `(hash, n)` that is not a zerocoin, sigma or lelantus
mint output, `IsSpent(hash, n)` is true if and only if some transaction id
recorded in `mapTxSpends` for the outpoint is present in `mapWallet` with depth
in the main chain above 0, or with depth 0 and not abandoned. -/
theorem isSpent_normal_output [DecidableEq TxId] (env : SpentEnv Sc H TxId) (hash : TxId)
    (n : Nat)
    (hplain : ∀ tx script, env.mapWallet hash = some tx → tx.vout[n]? = some script →
      env.IsZerocoinMint script = false ∧ env.IsSigmaMint script = false ∧
      env.IsLelantusMint script = false ∧ env.IsLelantusJMint script = false) :
    ∃ b : Bool, IsSpent env hash n = .ok b ∧
      (b = true ↔
        ∃ (wtxid : TxId) (wtx : WalletTxView Sc),
          ((hash, n), wtxid) ∈ env.mapTxSpends ∧ env.mapWallet wtxid = some wtx ∧
          (wtx.depth > 0 ∨ (wtx.depth = 0 ∧ wtx.abandoned = false))) := by
  refine ⟨normalOutputSpent env hash n, ?_, normalOutputSpent_iff env hash n⟩
  have hmint : mintBranchSpent env hash n = none := by
    unfold mintBranchSpent
    cases htx : env.mapWallet hash with
    | none => rfl
    | some tx =>
      simp only []
      split
      · cases hs : tx.vout[n]? with
        | none => rfl
        | some script =>
          obtain ⟨h1, h2, h3, h4⟩ := hplain tx script htx hs
          simp [mintOutputSpent, h1, h2, h3, h4]
      · rfl
  unfold IsSpent
  rw [hmint]

/-- Evaluation of C13: output 0 of transaction 1 is spent (by transaction 3,
four blocks deep), output 0 of transaction 5 is not (its only spender is
conflicted). -/
theorem isSpent_normal_output_witness :
    IsSpent toySpentEnv 1 0 = .ok true ∧ IsSpent toySpentEnv 5 0 = .ok false ∧
    ∃ b : Bool, IsSpent toySpentEnv 1 0 = .ok b ∧
      (b = true ↔
        ∃ (wtxid : Nat) (wtx : WalletTxView Nat),
          ((1, 0), wtxid) ∈ toySpentEnv.mapTxSpends ∧ toySpentEnv.mapWallet wtxid = some wtx ∧
          (wtx.depth > 0 ∨ (wtx.depth = 0 ∧ wtx.abandoned = false))) :=
  ⟨rfl, rfl,
    isSpent_normal_output toySpentEnv 1 0 (by
      intro tx script htx hs
      have htx1 : tx = { vout := [0], depth := 9, abandoned := false } := by
        have : toySpentEnv.mapWallet 1 = some { vout := [0], depth := 9, abandoned := false } := rfl
        rw [this] at htx
        exact (Option.some.inj htx).symm
      subst htx1
      have hs1 : script = 0 := by
        simp at hs
        exact hs.symm
      subst hs1
      decide)⟩

end SpentOutputs

section Amounts

open CWallet

variable {In Sc H TxId WTx : Type}

/-- A sum returned by `sumInRange` is its starting value when the list is
empty and lies in `MoneyRange` otherwise. -/
theorem sumInRange_ok {α : Type} (MAX_MONEY : Int) (what : String)
    (amount : α → Except Exception Int) (items : List α) (n total : Int)
    (h : sumInRange MAX_MONEY what amount n items = .ok total) :
    (items = [] ∧ total = n) ∨ MoneyRange MAX_MONEY total = true := by
  induction items generalizing n with
  | nil =>
    left
    simp only [sumInRange, Except.ok.injEq] at h
    exact ⟨rfl, h.symm⟩
  | cons x rest ih =>
    right
    unfold sumInRange at h
    split at h
    · cases h
    · rename_i v hv
      split at h
      · cases h
      · rename_i hr
        rcases ih (n + v) h with ⟨hnil, htot⟩ | hrange
        · rw [htot]
          simpa using hr
        · exact hrange

/-- `sumInRange` throws `std::runtime_error` at the first item that takes the
running sum out of `MoneyRange`. -/
theorem sumInRange_leaves {α : Type} (MAX_MONEY : Int) (what : String)
    (amount : α → Except Exception Int) (pre : List α) (x : α) (post : List α)
    (n running v : Int)
    (hpre : sumInRange MAX_MONEY what amount n pre = .ok running)
    (hx : amount x = .ok v) (hout : MoneyRange MAX_MONEY (running + v) = false) :
    sumInRange MAX_MONEY what amount n (pre ++ x :: post) = .error (.runtime_error what) := by
  induction pre generalizing n with
  | nil =>
    simp only [sumInRange, Except.ok.injEq] at hpre
    subst hpre
    simp [sumInRange, hx, hout]
  | cons y pre ih =>
    simp only [List.cons_append]
    unfold sumInRange at hpre ⊢
    split at hpre
    · cases hpre
    · rename_i w hw
      split at hpre
      · cases hpre
      · rename_i hr
        rw [if_neg hr]
        exact ih (n + w) hpre

/-- C14: whenever `GetDebit(tx, filter)`, `GetCredit(tx, filter)` or
`GetChange(tx)` returns, the total lies in `MoneyRange`; each throws
`std::runtime_error` as soon as its running sum leaves `MoneyRange`; and
`GetCredit(txout, filter)` and `GetChange(txid, txout)` throw
`std::runtime_error` when the value of the output is outside `MoneyRange`. -/
theorem amounts_in_money_range (env : AmountEnv In Sc H TxId WTx) (hmax : 0 ≤ env.MAX_MONEY)
    (tx : CTransaction In Sc TxId) (filter : Nat) :
    (∀ total, GetDebit env tx filter = .ok total → MoneyRange env.MAX_MONEY total = true) ∧
    (∀ total, GetCredit env tx filter = .ok total → MoneyRange env.MAX_MONEY total = true) ∧
    (∀ total, GetChange env tx = .ok total → MoneyRange env.MAX_MONEY total = true) ∧
    (∀ (pre : List In) (txin : In) (post : List In) (running : Int),
      tx.vin = pre ++ txin :: post →
      GetDebit env { tx with vin := pre } filter = .ok running →
      MoneyRange env.MAX_MONEY (running + env.GetDebitIn txin filter) = false →
      GetDebit env tx filter = .error (.runtime_error "GetDebit: value out of range")) ∧
    (∀ (pre : List (CTxOut Sc)) (txout : CTxOut Sc) (post : List (CTxOut Sc))
      (running v : Int),
      tx.vout = pre ++ txout :: post →
      GetCredit env { tx with vout := pre } filter = .ok running →
      GetCreditOut env txout filter = .ok v →
      MoneyRange env.MAX_MONEY (running + v) = false →
      GetCredit env tx filter = .error (.runtime_error "GetCredit: value out of range")) ∧
    (∀ (pre : List (CTxOut Sc)) (txout : CTxOut Sc) (post : List (CTxOut Sc))
      (running v : Int),
      tx.vout = pre ++ txout :: post →
      GetChange env { tx with vout := pre } = .ok running →
      GetChangeOut env tx.hash txout = .ok v →
      MoneyRange env.MAX_MONEY (running + v) = false →
      GetChange env tx = .error (.runtime_error "GetChange: value out of range")) ∧
    (∀ txout : CTxOut Sc, MoneyRange env.MAX_MONEY txout.nValue = false →
      GetCreditOut env txout filter = .error (.runtime_error "GetCredit: value out of range")) ∧
    (∀ (txid : TxId) (txout : CTxOut Sc), MoneyRange env.MAX_MONEY txout.nValue = false →
      GetChangeOut env txid txout = .error (.runtime_error "GetChange: value out of range")) := by
  have hzero : MoneyRange env.MAX_MONEY 0 = true := by simp [MoneyRange, hmax]
  have hok : ∀ {α : Type} (what : String) (amount : α → Except Exception Int) (items : List α)
      (total : Int), sumInRange env.MAX_MONEY what amount 0 items = .ok total →
      MoneyRange env.MAX_MONEY total = true := by
    intro α what amount items total h
    rcases sumInRange_ok env.MAX_MONEY what amount items 0 total h with ⟨-, ht⟩ | hr
    · rw [ht]; exact hzero
    · exact hr
  refine ⟨fun total h => hok _ _ _ total h, fun total h => hok _ _ _ total h,
    fun total h => hok _ _ _ total h, ?_, ?_, ?_, ?_, ?_⟩
  · intro pre txin post running hvin hpre hout
    unfold GetDebit at hpre ⊢
    rw [hvin]
    exact sumInRange_leaves _ _ _ pre txin post 0 running _ hpre rfl hout
  · intro pre txout post running v hvout hpre hv hout
    unfold GetCredit at hpre ⊢
    rw [hvout]
    exact sumInRange_leaves _ _ _ pre txout post 0 running v hpre hv hout
  · intro pre txout post running v hvout hpre hv hout
    unfold GetChange at hpre ⊢
    rw [hvout]
    exact sumInRange_leaves _ _ _ pre txout post 0 running v hpre hv hout
  · intro txout h
    simp [GetCreditOut, h]
  · intro txid txout h
    simp [GetChangeOut, h]

/-- Evaluation of C14 with maximum 1000: the debit of `toyTx` is 700, its
change 500, and its credit throws when the running sum reaches 1100. -/
theorem amounts_in_money_range_witness :
    GetDebit toyAmountEnv toyTx 1 = .ok 700 ∧ GetChange toyAmountEnv toyTx = .ok 500 ∧
    GetCredit toyAmountEnv toyTx 1 = .error (.runtime_error "GetCredit: value out of range") ∧
    MoneyRange toyAmountEnv.MAX_MONEY 700 = true :=
  ⟨rfl, rfl, rfl,
    (amounts_in_money_range toyAmountEnv (by decide) toyTx 1).1 700 rfl⟩

end Amounts

section JoinSplitSelection

open CWallet

variable {G O : Type}

/-- A successful reverse scan splits the list into the chosen coin and the others. -/
theorem scanFromBack_perm (need : Int) (l : List (CLelantusEntry G))
    (ch : CLelantusEntry G) (rest : List (CLelantusEntry G))
    (h : scanFromBack need l = some (ch, rest)) : List.Perm (ch :: rest) l := by
  induction l generalizing ch rest with
  | nil => simp [scanFromBack] at h
  | cons c l ih =>
    unfold scanFromBack at h
    simp only [] at h
    split at h
    · simp only [Option.some.injEq, Prod.mk.injEq] at h
      obtain ⟨rfl, rfl⟩ := h
      exact List.Perm.refl _
    · split at h
      · cases h
      · rename_i ch1 rest1 hrec
        simp only [Option.some.injEq, Prod.mk.injEq] at h
        obtain ⟨rfl, rfl⟩ := h
        exact (List.Perm.swap c ch1 rest1).trans (List.Perm.cons c (ih ch1 rest1 hrec))

/-- What the selection loop of `GetCoinsToJoinSplit` returns when it starts from
a 64-bit `spend_val`: the newly selected coins are appended to the selection,
together with the coins left over they are the coins the loop started from,
`spend_val` grew by their amounts (reduced to 64 bits), and the loop ended
because `spend_val` reached `required` or no coin was left. -/
theorem joinSplitLoop_spec (nullEntry : CLelantusEntry G) (required : Int) (fuel : Nat)
    (spend_val : Int) (coins coinsToSpend : List (CLelantusEntry G))
    (sv : Int) (out : List (CLelantusEntry G))
    (hsv : wrapInt64 spend_val = spend_val)
    (h : joinSplitLoop nullEntry required fuel spend_val coins coinsToSpend = some (sv, out)) :
    ∃ picked remaining : List (CLelantusEntry G),
      out = coinsToSpend ++ picked ∧
      List.Perm (picked ++ remaining) coins ∧
      sv = wrapInt64 (spend_val + (picked.map (fun c => c.amount)).sum) ∧
      (required ≤ sv ∨ remaining = []) := by
  induction fuel generalizing spend_val coins coinsToSpend with
  | zero => simp [joinSplitLoop] at h
  | succ fuel ih =>
    unfold joinSplitLoop at h
    split at h
    · split at h
      · simp only [Option.some.injEq, Prod.mk.injEq] at h
        obtain ⟨rfl, rfl⟩ := h
        exact ⟨[], [], by simp, List.Perm.refl _, by simp [hsv], Or.inr rfl⟩
      · rename_i first others
        simp only [] at h
        split at h
        · obtain ⟨picked, rem, hout, hperm, hsum, hend⟩ := ih _ _ _ (wrapInt64_idem _) h
          refine ⟨first :: picked, rem, ?_, ?_, ?_, hend⟩
          · rw [hout, List.append_assoc, List.singleton_append]
          · exact List.Perm.cons first hperm
          · rw [hsum, wrapInt64_add_left, List.map_cons, List.sum_cons, add_assoc]
        · rename_i hneed
          split at h
          · rename_i choosen rest hscan
            obtain ⟨picked, rem, hout, hperm, hsum, hend⟩ := ih _ _ _ (wrapInt64_idem _) h
            have hp1 : List.Perm (choosen :: rest) (first :: others) :=
              (scanFromBack_perm _ _ _ _ hscan).trans (List.reverse_perm _)
            refine ⟨choosen :: picked, rem, ?_, ?_, ?_, hend⟩
            · rw [hout, List.append_assoc, List.singleton_append]
            · exact ((List.Perm.cons choosen hperm).trans
                (List.Perm.cons choosen (List.reverse_perm rest))).trans hp1
            · rw [hsum, wrapInt64_add_left, List.map_cons, List.sum_cons, add_assoc]
          · rename_i hscan
            rw [List.reverse_cons] at hscan
            exact absurd hscan (scanFromBack_ne_none _ first (by omega) _)
    · rename_i hdone
      simp only [Option.some.injEq, Prod.mk.injEq] at h
      obtain ⟨rfl, rfl⟩ := h
      exact ⟨[], coins, by simp, List.Perm.refl _, by simp [hsv], Or.inl (by omega)⟩

/-- The selection of `GetCoinsToJoinSplit` ends when the fuel exceeds the number
of coins. -/
theorem joinSplitSelection_terminates (nullEntry : CLelantusEntry G) (required : Int)
    (fuel : Nat) (coins : List (CLelantusEntry G)) (coinControl : Option (CCoinControl O))
    (hfuel : coins.length < fuel) :
    joinSplitSelection nullEntry fuel required coins coinControl ≠ none := by
  unfold joinSplitSelection
  simp only []
  split
  · simp
  · exact joinSplitLoop_terminates nullEntry required fuel 0 coins [] hfuel

/-- What the selection of `GetCoinsToJoinSplit` returns: a part of the coins,
with `spend_val` the total of its amounts reduced to 64 bits; either
`spend_val` reached `required` or every coin was selected. -/
theorem joinSplitSelection_spec (nullEntry : CLelantusEntry G) (required : Int)
    (fuel : Nat) (coins : List (CLelantusEntry G)) (coinControl : Option (CCoinControl O))
    (sv : Int) (out : List (CLelantusEntry G))
    (h : joinSplitSelection nullEntry fuel required coins coinControl = some (sv, out)) :
    List.Subperm out coins ∧ sv = wrapInt64 ((out.map (fun c => c.amount)).sum) ∧
      (required ≤ sv ∨ List.Perm out coins) := by
  unfold joinSplitSelection at h
  simp only [] at h
  split at h
  · simp only [Option.some.injEq, Prod.mk.injEq] at h
    obtain ⟨rfl, rfl⟩ := h
    refine ⟨List.Subperm.refl _, ?_, Or.inr (List.Perm.refl _)⟩
    rw [foldl_amount_eq_wrap coins.reverse 0 (by decide), zero_add,
      ((List.reverse_perm coins).map _).sum_eq]
  · obtain ⟨picked, rem, hout, hperm, hsum, hend⟩ :=
      joinSplitLoop_spec nullEntry required fuel 0 coins [] sv out (by decide) h
    rw [List.nil_append] at hout
    subst hout
    rw [zero_add] at hsum
    refine ⟨(List.sublist_append_left out rem).subperm.trans hperm.subperm, hsum, ?_⟩
    rcases hend with hge | hnil
    · exact Or.inl hge
    · subst hnil
      rw [List.append_nil] at hperm
      exact Or.inr hperm

/-- What `GetCoinsToJoinSplit` leaves behind when it returns true: the selection
sorted by group id in front of the previous contents, where the selection is a
part of the coins, `spend_val` is the total of its amounts reduced to 64 bits
and covers `required`, and `changeToMint` is exactly `spend_val - required`. -/
theorem getCoinsToJoinSplit_change (MAX_MONEY : Int) (nullEntry : CLelantusEntry G)
    (fuel : Nat) (required : Int) (coinsToSpend_out : List (CLelantusEntry G))
    (changeToMint : Int) (coins : List (CLelantusEntry G)) (coinsToSpendLimit : Nat)
    (amountToSpendLimit : Int) (coinControl : Option (CCoinControl O))
    (h : (GetCoinsToJoinSplit MAX_MONEY nullEntry fuel required coinsToSpend_out changeToMint
      coins coinsToSpendLimit amountToSpendLimit coinControl).result = .returned true) :
    ∃ (spend_val : Int) (coinsToSpend : List (CLelantusEntry G)),
      (GetCoinsToJoinSplit MAX_MONEY nullEntry fuel required coinsToSpend_out changeToMint
        coins coinsToSpendLimit amountToSpendLimit coinControl).coinsToSpend_out =
          listSort idComparer coinsToSpend ++ coinsToSpend_out ∧
      (GetCoinsToJoinSplit MAX_MONEY nullEntry fuel required coinsToSpend_out changeToMint
        coins coinsToSpendLimit amountToSpendLimit coinControl).changeToMint =
          spend_val - required ∧
      List.Subperm coinsToSpend coins ∧
      spend_val = wrapInt64 ((coinsToSpend.map (fun c => c.amount)).sum) ∧
      required ≤ spend_val := by
  rcases getCoinsToJoinSplit_cases MAX_MONEY nullEntry fuel required coinsToSpend_out
    changeToMint coins coinsToSpendLimit amountToSpendLimit coinControl with
    ⟨e, he⟩ | ⟨h1, -, -, h4⟩
  · rw [he] at h
    cases h
  · obtain ⟨sv, cts, hsel, hout, hchange⟩ :=
      getCoinsToJoinSplit_returned MAX_MONEY nullEntry fuel required coinsToSpend_out
        changeToMint coins coinsToSpendLimit amountToSpendLimit coinControl h
    obtain ⟨hsub, hsum, hend⟩ :=
      joinSplitSelection_spec nullEntry required fuel _ coinControl sv cts hsel
    have hge : required ≤ sv := by
      rcases hend with hge | hperm
      · exact hge
      · rw [hsum, (hperm.map _).sum_eq, ((listSort_perm amountComparer coins).map _).sum_eq,
          ← calculateLelantusCoinsBalance_eq_wrap]
        exact h4
    have hreq : 0 ≤ required := by
      simp only [MoneyRange, Bool.and_eq_true, decide_eq_true_eq] at h1
      exact h1.1
    have hrange := wrapInt64_range ((cts.map (fun c => c.amount)).sum)
    rw [← hsum] at hrange
    refine ⟨sv, cts, hout, ?_, hsub.trans (listSort_perm amountComparer coins).subperm, hsum, hge⟩
    rw [hchange]
    exact (wrapInt64_eq_self_iff _).mpr ⟨by omega, by omega⟩

end JoinSplitSelection

section JoinSplitClaim

open CWallet

variable {G O : Type}

/-- C17 (amended): when `GetCoinsToJoinSplit` returns true (with
`coinsToSpend_out` empty on entry) the selected coins are a sub-multiset of the
input coins (each input coin chosen at most once), `changeToMint >= 0`, and
`required + changeToMint` is the sum of the selected amounts reduced to 64-bit
two's complement; it is the sum itself exactly when that sum lies in
`[-2^63, 2^63)`, which holds whenever the amounts of the input coins are
non-negative and total less than `2^63`.  The selection loop terminates: with
fuel above the number of coins the selection ends, and the call returns true
once the argument and balance checks pass. -/
theorem getCoinsToJoinSplit_selection (MAX_MONEY : Int) (nullEntry : CLelantusEntry G)
    (fuel : Nat) (required : Int) (changeToMint : Int) (coins : List (CLelantusEntry G))
    (coinsToSpendLimit : Nat) (amountToSpendLimit : Int) (coinControl : Option (CCoinControl O)) :
    ((GetCoinsToJoinSplit MAX_MONEY nullEntry fuel required [] changeToMint
        coins coinsToSpendLimit amountToSpendLimit coinControl).result = .returned true →
      List.Subperm (GetCoinsToJoinSplit MAX_MONEY nullEntry fuel required [] changeToMint
        coins coinsToSpendLimit amountToSpendLimit coinControl).coinsToSpend_out coins ∧
      0 ≤ (GetCoinsToJoinSplit MAX_MONEY nullEntry fuel required [] changeToMint
        coins coinsToSpendLimit amountToSpendLimit coinControl).changeToMint ∧
      required + (GetCoinsToJoinSplit MAX_MONEY nullEntry fuel required [] changeToMint
          coins coinsToSpendLimit amountToSpendLimit coinControl).changeToMint =
        wrapInt64 ((GetCoinsToJoinSplit MAX_MONEY nullEntry fuel required [] changeToMint
          coins coinsToSpendLimit amountToSpendLimit coinControl).coinsToSpend_out.map
            (fun c => c.amount)).sum ∧
      (((GetCoinsToJoinSplit MAX_MONEY nullEntry fuel required [] changeToMint
          coins coinsToSpendLimit amountToSpendLimit coinControl).coinsToSpend_out.map
            (fun c => c.amount)).sum =
          required + (GetCoinsToJoinSplit MAX_MONEY nullEntry fuel required [] changeToMint
            coins coinsToSpendLimit amountToSpendLimit coinControl).changeToMint ↔
        (-9223372036854775808 ≤
            ((GetCoinsToJoinSplit MAX_MONEY nullEntry fuel required [] changeToMint
              coins coinsToSpendLimit amountToSpendLimit coinControl).coinsToSpend_out.map
                (fun c => c.amount)).sum ∧
          ((GetCoinsToJoinSplit MAX_MONEY nullEntry fuel required [] changeToMint
            coins coinsToSpendLimit amountToSpendLimit coinControl).coinsToSpend_out.map
              (fun c => c.amount)).sum < 9223372036854775808)) ∧
      ((∀ c ∈ coins, 0 ≤ c.amount) →
        (coins.map (fun c => c.amount)).sum < 9223372036854775808 →
        ((GetCoinsToJoinSplit MAX_MONEY nullEntry fuel required [] changeToMint
          coins coinsToSpendLimit amountToSpendLimit coinControl).coinsToSpend_out.map
            (fun c => c.amount)).sum =
          required + (GetCoinsToJoinSplit MAX_MONEY nullEntry fuel required [] changeToMint
            coins coinsToSpendLimit amountToSpendLimit coinControl).changeToMint)) ∧
    (coins.length < fuel →
      joinSplitSelection nullEntry fuel required (listSort amountComparer coins) coinControl ≠
        none) ∧
    (coins.length < fuel → MoneyRange MAX_MONEY required = true →
      MoneyRange MAX_MONEY amountToSpendLimit = true → required ≤ amountToSpendLimit →
      required ≤ CalculateLelantusCoinsBalance coins →
      (GetCoinsToJoinSplit MAX_MONEY nullEntry fuel required [] changeToMint
        coins coinsToSpendLimit amountToSpendLimit coinControl).result = .returned true) ∧
    (coins.length < fuel → MoneyRange MAX_MONEY required = true →
      MoneyRange MAX_MONEY amountToSpendLimit = true → required ≤ amountToSpendLimit →
      (∀ c ∈ coins, 0 ≤ c.amount) →
      (coins.map (fun c => c.amount)).sum < 9223372036854775808 →
      required ≤ (coins.map (fun c => c.amount)).sum →
      (GetCoinsToJoinSplit MAX_MONEY nullEntry fuel required [] changeToMint
        coins coinsToSpendLimit amountToSpendLimit coinControl).result = .returned true) := by
  have hterm : coins.length < fuel →
      joinSplitSelection nullEntry fuel required (listSort amountComparer coins) coinControl ≠
        none := by
    intro hfuel
    exact joinSplitSelection_terminates nullEntry required fuel _ coinControl
      (by rw [(listSort_perm amountComparer coins).length_eq]; exact hfuel)
  have hret : coins.length < fuel → MoneyRange MAX_MONEY required = true →
      MoneyRange MAX_MONEY amountToSpendLimit = true → required ≤ amountToSpendLimit →
      required ≤ CalculateLelantusCoinsBalance coins →
      (GetCoinsToJoinSplit MAX_MONEY nullEntry fuel required [] changeToMint
        coins coinsToSpendLimit amountToSpendLimit coinControl).result = .returned true := by
    intro hfuel h1 h2 h3 h4
    rw [getCoinsToJoinSplit_pass MAX_MONEY nullEntry fuel required [] changeToMint coins
      coinsToSpendLimit amountToSpendLimit coinControl h1 h2 h3 h4]
    cases hsel : joinSplitSelection nullEntry fuel required (listSort amountComparer coins)
      coinControl with
    | none => exact absurd hsel (hterm hfuel)
    | some sel => rfl
  refine ⟨?_, hterm, hret, ?_⟩
  · intro h
    obtain ⟨sv, cts, hout, hchange, hsub, hsum, hge⟩ :=
      getCoinsToJoinSplit_change MAX_MONEY nullEntry fuel required [] changeToMint coins
        coinsToSpendLimit amountToSpendLimit coinControl h
    rw [hout, hchange, List.append_nil, ((listSort_perm idComparer cts).map _).sum_eq]
    have hiff := wrapInt64_eq_self_iff ((cts.map (fun c => c.amount)).sum)
    rw [← hsum] at hiff
    refine ⟨(listSort_perm idComparer cts).subperm.trans hsub, by omega, ?_, ?_, ?_⟩
    · rw [← hsum]
      ring
    · constructor
      · intro heq
        exact hiff.mp (by omega)
      · intro hr
        have := hiff.mpr hr
        omega
    · intro hpos htot
      have hle := subperm_amount_sum_le cts coins hsub hpos
      have := hiff.mpr ⟨by omega, by omega⟩
      omega
  · intro hfuel h1 h2 h3 hpos htot h4
    refine hret hfuel h1 h2 h3 ?_
    have hle := subperm_amount_sum_le coins coins (List.Subperm.refl _) hpos
    rw [calculateLelantusCoinsBalance_eq_wrap,
      (wrapInt64_eq_self_iff _).mpr ⟨by omega, htot⟩]
    exact h4

/-- Evaluation of C17 on `toyCoins`: a request of 60 selects the coins of 20
and 50 out of 20, 30 and 50, with a change of 10. -/
theorem getCoinsToJoinSplit_selection_witness :
    (GetCoinsToJoinSplit 1000 (toyEntry 0 0 0) 4 60 [] 0 toyCoins 10 100
      (none : Option (CCoinControl Nat))).changeToMint = 10 ∧
    List.Subperm (GetCoinsToJoinSplit 1000 (toyEntry 0 0 0) 4 60 [] 0 toyCoins 10 100
      (none : Option (CCoinControl Nat))).coinsToSpend_out toyCoins ∧
    ((GetCoinsToJoinSplit 1000 (toyEntry 0 0 0) 4 60 [] 0 toyCoins 10 100
      (none : Option (CCoinControl Nat))).coinsToSpend_out.map (fun c => c.amount)).sum =
      60 + (GetCoinsToJoinSplit 1000 (toyEntry 0 0 0) 4 60 [] 0 toyCoins 10 100
        (none : Option (CCoinControl Nat))).changeToMint :=
  ⟨by decide,
    ((getCoinsToJoinSplit_selection 1000 (toyEntry 0 0 0) 4 60 0 toyCoins 10 100
      (none : Option (CCoinControl Nat))).1 (by decide)).1,
    ((getCoinsToJoinSplit_selection 1000 (toyEntry 0 0 0) 4 60 0 toyCoins 10 100
      (none : Option (CCoinControl Nat))).1 (by decide)).2.2.2.2 (by decide) (by decide)⟩

/-- C17, counterexample to the statement about the sum of the selected amounts:
on four coins of `2^62` units and one of 100 units (non-negative amounts, exact
total `2^64 + 100`), all taken through a coin-control selection, a request of 60
under a limit of 100 passes the argument checks and returns true with
`changeToMint = 40`, while the selected amounts total `2^64 + 100`, which is not
`required + changeToMint = 100`. -/
theorem getCoinsToJoinSplit_sum_wraps :
    (∀ c ∈ toyOverflowCoins, 0 ≤ c.amount) ∧
    MoneyRange 1000 60 = true ∧ MoneyRange 1000 100 = true ∧ (60 : Int) ≤ 100 ∧
    (GetCoinsToJoinSplit 1000 (toyEntry 0 0 0) 6 60 [] 0 toyOverflowCoins 10 100
      (some ⟨true, fun (_ : Nat) => true⟩)).result = .returned true ∧
    (GetCoinsToJoinSplit 1000 (toyEntry 0 0 0) 6 60 [] 0 toyOverflowCoins 10 100
      (some ⟨true, fun (_ : Nat) => true⟩)).changeToMint = 40 ∧
    ((GetCoinsToJoinSplit 1000 (toyEntry 0 0 0) 6 60 [] 0 toyOverflowCoins 10 100
      (some ⟨true, fun (_ : Nat) => true⟩)).coinsToSpend_out.map (fun c => c.amount)).sum =
        18446744073709551716 ∧
    ((GetCoinsToJoinSplit 1000 (toyEntry 0 0 0) 6 60 [] 0 toyOverflowCoins 10 100
      (some ⟨true, fun (_ : Nat) => true⟩)).coinsToSpend_out.map (fun c => c.amount)).sum ≠
      60 + (GetCoinsToJoinSplit 1000 (toyEntry 0 0 0) 6 60 [] 0 toyOverflowCoins 10 100
        (some ⟨true, fun (_ : Nat) => true⟩)).changeToMint := by
  decide

end JoinSplitClaim

section SpendSelection

open CWallet

variable {D O : Type}

/-- Whatever the denomination, the inner loop of `SelectMintCoinsForAmount`
appends copies of it and lowers `val` by their total. -/
theorem selectMintWhile_appended (d : D) (denom : Int) (fuel : Nat) (val : Int)
    (coinsOut : List D) (rest : Int) (out : List D)
    (h : selectMintWhile d denom fuel val coinsOut = some (rest, out)) :
    ∃ k : Nat, out = coinsOut ++ List.replicate k d ∧ val - rest = k * denom := by
  induction fuel generalizing val coinsOut with
  | zero => simp [selectMintWhile] at h
  | succ fuel ih =>
    unfold selectMintWhile at h
    split at h
    · obtain ⟨k, hk, hv⟩ := ih _ _ h
      refine ⟨k + 1, ?_, ?_⟩
      · rw [hk]
        simp only [List.append_assoc, List.singleton_append, List.replicate_succ]
      · push_cast
        linarith
    · simp only [Option.some.injEq, Prod.mk.injEq] at h
      obtain ⟨rfl, rfl⟩ := h
      exact ⟨0, by simp, by simp⟩

/-- The loop of `SelectMintCoinsForAmount` appends denominations to `coinsOut`
and lowers `val` by their total. -/
theorem selectMintLoop_appended (env : DenomEnv D) (fuel : Nat) (denominations : List D)
    (val : Int) (coinsOut : List D) (rest : Int) (out : List D)
    (h : selectMintLoop env fuel val denominations coinsOut = some (rest, out)) :
    ∃ appended : List D, out = coinsOut ++ appended ∧
      val - rest = (appended.map env.value).sum := by
  induction denominations generalizing val coinsOut with
  | nil =>
    simp only [selectMintLoop, Option.some.injEq, Prod.mk.injEq] at h
    obtain ⟨rfl, rfl⟩ := h
    exact ⟨[], by simp, by simp⟩
  | cons d ds ih =>
    unfold selectMintLoop at h
    split at h
    · cases h
    · rename_i r hw
      obtain ⟨k, hk, hv⟩ := selectMintWhile_appended d (env.value d) fuel val coinsOut r.1 r.2 hw
      obtain ⟨app, happ, hsum⟩ := ih _ _ h
      refine ⟨List.replicate k d ++ app, ?_, ?_⟩
      · rw [happ, hk, List.append_assoc]
      · simp only [List.map_append, List.sum_append, List.map_replicate, List.sum_replicate,
          nsmul_eq_mul]
        linarith

/-- `SelectMintCoinsForAmount` returns the total of the denominations it appended. -/
theorem selectMintCoinsForAmount_appended (env : DenomEnv D) (fuel : Nat) (required : Int)
    (denominations : List D) (coinsOut : List D) (amount : Int) (out : List D)
    (h : SelectMintCoinsForAmount env fuel required denominations coinsOut = some (amount, out)) :
    ∃ appended : List D, out = coinsOut ++ appended ∧
      amount = (appended.map env.value).sum := by
  unfold SelectMintCoinsForAmount at h
  split at h
  · cases h
  · rename_i r hl
    simp only [Option.some.injEq, Prod.mk.injEq] at h
    obtain ⟨rfl, rfl⟩ := h
    exact selectMintLoop_appended env fuel denominations required coinsOut r.1 r.2 hl

/-- The loop of `SelectSpendCoinsForAmount` appends unused coins taken in order
from `coinsIn` and lowers `val` by their total, whatever the sign of `val`. -/
theorem selectSpendLoop_appended (coinsIn : List CSigmaEntry) (val : Int)
    (coinsOut : List CSigmaEntry) :
    ∃ appended : List CSigmaEntry,
      (selectSpendLoop val coinsIn coinsOut).2 = coinsOut ++ appended ∧
      val - (selectSpendLoop val coinsIn coinsOut).1 =
        (appended.map (fun c => c.get_denomination_value)).sum ∧
      List.Sublist appended coinsIn ∧
      ∀ c ∈ appended, c.IsUsed = false := by
  induction coinsIn generalizing val coinsOut with
  | nil => exact ⟨[], by simp [selectSpendLoop]⟩
  | cons coin rest ih =>
    unfold selectSpendLoop
    split
    · obtain ⟨app, h1, h2, h4, h5⟩ := ih val coinsOut
      exact ⟨app, h1, h2, List.Sublist.cons coin h4, h5⟩
    · rename_i hused
      simp only []
      split
      · obtain ⟨app, h1, h2, h4, h5⟩ :=
          ih (val - coin.get_denomination_value) (coinsOut ++ [coin])
        refine ⟨coin :: app, ?_, ?_, List.Sublist.cons₂ coin h4, ?_⟩
        · rw [h1]; simp
        · simp only [List.map_cons, List.sum_cons]
          omega
        · intro c hc
          rcases List.mem_cons.mp hc with rfl | hc
          · simpa using hused
          · exact h5 c hc
      · obtain ⟨app, h1, h2, h4, h5⟩ := ih val coinsOut
        exact ⟨app, h1, h2, List.Sublist.cons coin h4, h5⟩

/-- When the last stage of `GetCoinsToSpend` returns true, the coins appended
for spending total `best_spend_val` and the denominations appended for minting
total `best_spend_val - roundedRequired * zeros`. -/
theorem spendFinish_returned (env : DenomEnv D) (fuel : Nat) (best_spend_val roundedRequired : Int)
    (denominations : List D) (coins coinsToSpend_out : List CSigmaEntry)
    (coinsToMint_out : List D)
    (h : (spendFinish env fuel best_spend_val roundedRequired denominations coins
      coinsToSpend_out coinsToMint_out).result = .ok true) :
    ∃ (spent : List CSigmaEntry) (minted : List D),
      (spendFinish env fuel best_spend_val roundedRequired denominations coins
        coinsToSpend_out coinsToMint_out).coinsToSpend_out = coinsToSpend_out ++ spent ∧
      (spendFinish env fuel best_spend_val roundedRequired denominations coins
        coinsToSpend_out coinsToMint_out).coinsToMint_out = coinsToMint_out ++ minted ∧
      (spent.map (fun c => c.get_denomination_value)).sum = best_spend_val ∧
      (minted.map env.value).sum = best_spend_val - roundedRequired * zeros ∧
      List.Sublist spent coins ∧ (∀ c ∈ spent, c.IsUsed = false) := by
  unfold spendFinish at h ⊢
  split
  · rename_i hm
    rw [hm] at h
    cases h
  · rename_i minted hm
    rw [hm] at h
    simp only [] at h ⊢
    split
    · rename_i hne
      rw [if_pos hne] at h
      cases h
    · rename_i hmint
      rw [if_neg hmint] at h
      split
      · rename_i hne
        rw [if_pos hne] at h
        cases h
      · rename_i hspent
        obtain ⟨mapp, hmout, hmsum⟩ :=
          selectMintCoinsForAmount_appended env fuel _ denominations coinsToMint_out
            minted.1 minted.2 hm
        obtain ⟨sapp, hsout, hssum, hsub, hunused⟩ :=
          selectSpendLoop_appended coins best_spend_val coinsToSpend_out
        have hm1 : minted.1 = best_spend_val - roundedRequired * zeros := by
          simpa using hmint
        have hs1 : (SelectSpendCoinsForAmount best_spend_val coins coinsToSpend_out).1 =
            best_spend_val := by simpa using hspent
        refine ⟨sapp, mapp, hsout, hmout, ?_, ?_, hsub, hunused⟩
        · have : (SelectSpendCoinsForAmount best_spend_val coins coinsToSpend_out).1 =
              best_spend_val - (selectSpendLoop best_spend_val coins coinsToSpend_out).1 := rfl
          omega
        · rw [← hmsum, hm1]

/-- When `GetCoinsToSpend` returns true, its checks passed and its outputs are
those of the last stage for some `best_spend_val`. -/
theorem getCoinsToSpend_returned (MAX_MONEY : Int) (env : DenomEnv D) (fuel : Nat)
    (required : Int) (coinsToSpend_out : List CSigmaEntry) (coinsToMint_out : List D)
    (coins : List CSigmaEntry) (coinsToSpendLimit : Nat) (amountToSpendLimit : Int)
    (coinControl : Option (CCoinControl O))
    (h : (GetCoinsToSpend MAX_MONEY env fuel required coinsToSpend_out coinsToMint_out coins
      coinsToSpendLimit amountToSpendLimit coinControl).result = .ok true) :
    MoneyRange MAX_MONEY required = true ∧
    ∃ best_spend_val : Int,
      GetCoinsToSpend MAX_MONEY env fuel required coinsToSpend_out coinsToMint_out coins
        coinsToSpendLimit amountToSpendLimit coinControl =
      spendFinish env fuel best_spend_val (roundedRequiredOf required) env.GetAllDenoms
        (listSort denominationComparer coins) coinsToSpend_out coinsToMint_out := by
  unfold GetCoinsToSpend at h ⊢
  simp only [] at h ⊢
  split
  · rename_i hc; rw [if_pos hc] at h; cases h
  · rename_i hc1
    rw [if_neg hc1] at h
    split
    · rename_i hc; rw [if_pos hc] at h; cases h
    · rename_i hc2
      rw [if_neg hc2] at h
      split
      · rename_i hc; rw [if_pos hc] at h; cases h
      · rename_i hc3
        rw [if_neg hc3] at h
        split
        · rename_i hc; rw [if_pos hc] at h; cases h
        · rename_i hc4
          rw [if_neg hc4] at h
          refine ⟨by simpa using hc1, ?_⟩
          cases hden : env.GetAllDenoms with
          | nil => rw [hden] at h; cases h
          | cons d0 ds =>
            rw [hden] at h
            simp only [] at h ⊢
            cases hmax : env.DenominationToInteger d0 with
            | none => rw [hmax] at h; cases h
            | some max_coin_value =>
              rw [hmax] at h
              simp only [] at h ⊢
              split
              · rename_i s hk; rw [hk] at h; cases h
              · rename_i next_row hk
                rw [hk] at h
                simp only [] at h ⊢
                split
                · rename_i s hb; rw [hb] at h; cases h
                · rename_i best_spend_val hb
                  exact ⟨best_spend_val, rfl⟩

/-- `roundedRequired` is `required` rounded up to a whole number of `zeros`. -/
theorem roundedRequiredOf_spec (required : Int) (h : 0 ≤ required) :
    roundedRequiredOf required = (required + 4999999) / 5000000 ∧
    required ≤ roundedRequiredOf required * 5000000 ∧
    roundedRequiredOf required * 5000000 < required + 5000000 := by
  unfold roundedRequiredOf zeros
  rw [Int.tdiv_eq_ediv h (by norm_num), Int.tmod_eq_emod h (by norm_num)]
  split <;> omega

/-- C18: when `GetCoinsToSpend` returns true (with both output vectors empty on
entry), the sum of the denomination values in `coinsToSpend_out` minus the sum
of the denomination values in `coinsToMint_out` equals `R * 5,000,000`, where
`R` is `required / 5,000,000` rounded up; that difference is at least
`required` and below `required + 5,000,000`. -/
theorem getCoinsToSpend_balance (MAX_MONEY : Int) (env : DenomEnv D) (fuel : Nat)
    (required : Int) (coins : List CSigmaEntry) (coinsToSpendLimit : Nat)
    (amountToSpendLimit : Int) (coinControl : Option (CCoinControl O))
    (h : (GetCoinsToSpend MAX_MONEY env fuel required [] [] coins
      coinsToSpendLimit amountToSpendLimit coinControl).result = .ok true) :
    ((GetCoinsToSpend MAX_MONEY env fuel required [] [] coins coinsToSpendLimit
        amountToSpendLimit coinControl).coinsToSpend_out.map
          (fun c => c.get_denomination_value)).sum -
      ((GetCoinsToSpend MAX_MONEY env fuel required [] [] coins coinsToSpendLimit
        amountToSpendLimit coinControl).coinsToMint_out.map env.value).sum =
      ((required + 4999999) / 5000000) * 5000000 ∧
    required ≤ ((required + 4999999) / 5000000) * 5000000 ∧
    ((required + 4999999) / 5000000) * 5000000 < required + 5000000 := by
  obtain ⟨hrange, bsv, heq⟩ := getCoinsToSpend_returned MAX_MONEY env fuel required [] [] coins
    coinsToSpendLimit amountToSpendLimit coinControl h
  have hreq : 0 ≤ required := by
    simp only [MoneyRange, Bool.and_eq_true, decide_eq_true_eq] at hrange
    exact hrange.1
  obtain ⟨hR, hle, hlt⟩ := roundedRequiredOf_spec required hreq
  rw [heq] at h ⊢
  obtain ⟨spent, minted, hs, hm, hssum, hmsum, -, -⟩ :=
    spendFinish_returned env fuel bsv _ _ _ [] [] h
  rw [hs, hm, List.nil_append, List.nil_append, hssum, hmsum, ← hR]
  refine ⟨?_, hle, hlt⟩
  unfold zeros
  ring

end SpendSelection

section SpendEvaluation

open CWallet

/-- Evaluation of C18: from coins of 1, 0.5 and 0.1 coin, a request of 0.55 coin
under a limit of 1 coin spends 0.5 and 0.1 coin and mints 0.05 coin; the
difference is 0.55 coin, eleven times 5,000,000. -/
theorem getCoinsToSpend_balance_witness :
    (GetCoinsToSpend 2100000000000000 toyDenomEnv 20 55000000 [] [] toyPlainWallet 3 100000000
      (none : Option (CCoinControl Nat))).coinsToMint_out = [1] ∧
    ((GetCoinsToSpend 2100000000000000 toyDenomEnv 20 55000000 [] [] toyPlainWallet 3 100000000
        (none : Option (CCoinControl Nat))).coinsToSpend_out.map
          (fun c => c.get_denomination_value)).sum -
      ((GetCoinsToSpend 2100000000000000 toyDenomEnv 20 55000000 [] [] toyPlainWallet 3 100000000
        (none : Option (CCoinControl Nat))).coinsToMint_out.map toyDenomEnv.value).sum =
      ((55000000 + 4999999) / 5000000) * 5000000 :=
  ⟨by decide,
    (getCoinsToSpend_balance 2100000000000000 toyDenomEnv 20 55000000 toyPlainWallet 3 100000000
      (none : Option (CCoinControl Nat)) rfl).1⟩

/-- C20, on the failing input: with `required` and `amountToSpendLimit` both
0.05 coin the rows have two entries (`val = 1`), and for a wallet holding one
coin of 0.1 coin the write `next_row[denomination / zeros] = 1` of line 3159
goes to index 2, outside the row. -/
theorem getCoinsToSpend_row_out_of_bounds :
    MoneyRange 2100000000000000 5000000 = true ∧
    roundedRequiredOf 5000000 ≤ Int.tdiv 5000000 zeros ∧
    roundedRequiredOf 5000000 * zeros ≤ CalculateCoinsBalance toySmallWallet ∧
    (GetCoinsToSpend 2100000000000000 toyDenomEnv 20 5000000 [] [] toySmallWallet 10 5000000
      (none : Option (CCoinControl Nat))).result = .error (.outOfBounds 2 2) :=
  ⟨by decide, by decide, by decide, rfl⟩

/-- The knapsack of `GetCoinsToSpend` also counts coins marked used, which the
selection skips: for coins of 1 coin (used), 0.5 and 0.5 coin, a request of 1
coin with `coinsToSpendLimit = 1` returns true with two coins to spend. -/
theorem getCoinsToSpend_counts_used_coin :
    (GetCoinsToSpend 2100000000000000 toyDenomEnv 20 100000000 [] []
      [toySigma 20 1 true, toySigma 10 2 false, toySigma 10 3 false] 1 100000000
      (none : Option (CCoinControl Nat))).result = .ok true ∧
    (GetCoinsToSpend 2100000000000000 toyDenomEnv 20 100000000 [] []
      [toySigma 20 1 true, toySigma 10 2 false, toySigma 10 3 false] 1 100000000
      (none : Option (CCoinControl Nat))).coinsToSpend_out =
        [toySigma 10 2 false, toySigma 10 3 false] :=
  ⟨rfl, by decide⟩

end SpendEvaluation

section Knapsack

open CWallet

/-- `listSet?` on a position inside the list is `List.set`. -/
theorem listSet?_of_lt (row : List Nat) (n v : Nat) (h : n < row.length) :
    listSet? row n v = some (row.set n v) := by
  induction row generalizing n with
  | nil => simp at h
  | cons a l ih =>
    cases n with
    | zero => rfl
    | succ n =>
      simp only [List.length_cons, Nat.succ_lt_succ_iff] at h
      simp only [listSet?, ih n h, List.set_cons_succ]

/-- A read inside the row returns the entry. -/
theorem rowGet_of_lt (row : List Nat) (n : Nat) (h : n < row.length) :
    rowGet row (n : Int) = .ok (row.getD n 0) := by
  unfold rowGet
  simp only [Int.natCast_nonneg, if_true, Int.toNat_ofNat]
  rw [List.getElem?_eq_getElem h, List.getD_eq_getElem?_getD, List.getElem?_eq_getElem h]
  rfl

/-- A write inside the row replaces the entry. -/
theorem rowSet_of_lt (row : List Nat) (n v : Nat) (h : n < row.length) :
    rowSet row (n : Int) v = .ok (row.set n v) := by
  unfold rowSet
  simp only [Int.natCast_nonneg, if_true, Int.toNat_ofNat, listSet?_of_lt row n v h]

/-- The entry just written. -/
theorem getD_set_self (row : List Nat) (n v : Nat) (h : n < row.length) :
    (row.set n v).getD n 0 = v := by
  rw [List.getD_eq_getElem?_getD, List.getElem?_set_self h]
  rfl

/-- The entries not written. -/
theorem getD_set_ne (row : List Nat) (n m v : Nat) (h : n ≠ m) :
    (row.set n v).getD m 0 = row.getD m 0 := by
  rw [List.getD_eq_getElem?_getD, List.getElem?_set_ne h, List.getD_eq_getElem?_getD]

/-- The inner loop of the knapsack stays inside rows of equal length when the
denomination is not negative; it keeps the entries before `j`, and each entry
from `j` on is at most the entry of `prev_row` and, from `denom_i` on, at most
one more than the entry of `prev_row` that lies `denom_i` places before. -/
theorem knapsackRow_spec (denom_i : Int) (hd : 0 ≤ denom_i) (prev_row : List Nat) (steps : Nat)
    (n : Nat) (next_row : List Nat) (hlen : next_row.length = prev_row.length)
    (hsteps : n + steps = prev_row.length) :
    ∃ row : List Nat, knapsackRow denom_i prev_row steps (n : Int) next_row = .ok row ∧
      row.length = prev_row.length ∧
      (∀ i, i < n → row.getD i 0 = next_row.getD i 0) ∧
      (∀ i, n ≤ i → i < prev_row.length →
        row.getD i 0 ≤ prev_row.getD i 0 ∧
        (denom_i ≤ (i : Int) → row.getD i 0 ≤ prev_row.getD (i - denom_i.toNat) 0 + 1)) := by
  induction steps generalizing n next_row with
  | zero =>
    refine ⟨next_row, rfl, hlen, fun i _ => rfl, ?_⟩
    intro i h1 h2
    omega
  | succ steps ih =>
    have hn : n < prev_row.length := by omega
    have hn1 : n < next_row.length := by omega
    have hcast : ((n : Int) + 1) = ((n + 1 : Nat) : Int) := by push_cast; rfl
    unfold knapsackRow
    rw [rowGet_of_lt prev_row n hn]
    simp only []
    rw [rowSet_of_lt next_row n _ hn1]
    simp only []
    have hlen1 : (next_row.set n (prev_row.getD n 0)).length = prev_row.length := by
      rw [List.length_set]; exact hlen
    by_cases hge : (n : Int) ≥ denom_i
    · rw [if_pos hge]
      have hsub : (n : Int) - denom_i = ((n - denom_i.toNat : Nat) : Int) := by omega
      rw [rowGet_of_lt _ n (by rw [hlen1]; exact hn), hsub,
        rowGet_of_lt prev_row (n - denom_i.toNat) (by omega)]
      simp only []
      rw [getD_set_self next_row n _ hn1]
      by_cases hgt : prev_row.getD n 0 > prev_row.getD (n - denom_i.toNat) 0 + 1
      · rw [if_pos hgt, rowSet_of_lt _ n _ (by rw [hlen1]; exact hn)]
        simp only []
        rw [hcast]
        obtain ⟨row, hrow, hl, hbefore, hafter⟩ :=
          ih (n + 1) ((next_row.set n (prev_row.getD n 0)).set n
            (prev_row.getD (n - denom_i.toNat) 0 + 1))
            (by rw [List.length_set]; exact hlen1) (by omega)
        refine ⟨row, hrow, hl, ?_, ?_⟩
        · intro i hi
          rw [hbefore i (by omega), getD_set_ne _ n i _ (by omega),
            getD_set_ne _ n i _ (by omega)]
        · intro i h1 h2
          by_cases hin : i = n
          · subst hin
            rw [hbefore i (by omega), getD_set_self _ i _ (by rw [hlen1]; exact hn)]
            exact ⟨by omega, fun _ => le_refl _⟩
          · exact hafter i (by omega) h2
      · rw [if_neg hgt, hcast]
        obtain ⟨row, hrow, hl, hbefore, hafter⟩ :=
          ih (n + 1) (next_row.set n (prev_row.getD n 0)) hlen1 (by omega)
        refine ⟨row, hrow, hl, ?_, ?_⟩
        · intro i hi
          rw [hbefore i (by omega), getD_set_ne _ n i _ (by omega)]
        · intro i h1 h2
          by_cases hin : i = n
          · subst hin
            rw [hbefore i (by omega), getD_set_self _ i _ hn1]
            exact ⟨le_refl _, fun _ => by omega⟩
          · exact hafter i (by omega) h2
    · rw [if_neg hge, hcast]
      obtain ⟨row, hrow, hl, hbefore, hafter⟩ :=
        ih (n + 1) (next_row.set n (prev_row.getD n 0)) hlen1 (by omega)
      refine ⟨row, hrow, hl, ?_, ?_⟩
      · intro i hi
        rw [hbefore i (by omega), getD_set_ne _ n i _ (by omega)]
      · intro i h1 h2
        by_cases hin : i = n
        · subst hin
          rw [hbefore i (by omega), getD_set_self _ i _ hn1]
          exact ⟨le_refl _, fun h => absurd h (by omega)⟩
        · exact hafter i (by omega) h2

end Knapsack

section KnapsackTable

open CWallet

/-- The units of coins with non-negative units total a non-negative number. -/
theorem coinUnits_sum_nonneg (S : List CSigmaEntry) (h : ∀ c ∈ S, 0 ≤ coinUnits c) :
    0 ≤ (S.map coinUnits).sum := by
  apply List.sum_nonneg
  intro x hx
  obtain ⟨c, hc, rfl⟩ := List.mem_map.mp hx
  exact h c hc

/-- The loop over the coins keeps the rows at `val + 1` entries, stays inside
them, and its final `next_row` bounds the selections from all processed coins. -/
theorem knapsackRows_bound (val : Int) (hval : 0 ≤ val) (rest processed : List CSigmaEntry)
    (prev_row next_row : List Nat)
    (hp : prev_row.length = (val + 1).toNat) (hn : next_row.length = (val + 1).toNat)
    (hp0 : prev_row.getD 0 0 = 0) (hn0 : next_row.getD 0 0 = 0)
    (hrest : ∀ c ∈ rest, 0 ≤ coinUnits c) (hproc : ∀ c ∈ processed, 0 ≤ coinUnits c)
    (hb : rowBound val next_row processed) :
    ∃ rows : List Nat × List Nat, knapsackRows val rest prev_row next_row = .ok rows ∧
      rows.2.length = (val + 1).toNat ∧ rowBound val rows.2 (rest.reverse ++ processed) := by
  induction rest generalizing processed prev_row next_row with
  | nil => exact ⟨(prev_row, next_row), rfl, hn, by simpa using hb⟩
  | cons coin rest ih =>
    have hd : 0 ≤ coinUnits coin := hrest coin (List.mem_cons_self coin rest)
    obtain ⟨row, hrow, hl, hbefore, hafter⟩ :=
      knapsackRow_spec (coinUnits coin) hd next_row val.toNat 1 prev_row (by rw [hp, hn])
        (by rw [hn]; omega)
    simp only [Nat.cast_one] at hrow
    have hrow0 : row.getD 0 0 = 0 := by rw [hbefore 0 (by omega), hp0]
    have hbound : rowBound val row (coin :: processed) := by
      intro S hS hsum
      by_cases hzero : ((S.map coinUnits).sum).toNat = 0
      · rw [hzero, hrow0]
        exact Nat.zero_le _
      · have hi : ((S.map coinUnits).sum).toNat < next_row.length := by rw [hn]; omega
        rcases List.sublist_cons_iff.mp hS with h1 | ⟨r, rfl, hr⟩
        · exact le_trans (hafter _ (by omega) hi).1 (hb S h1 hsum)
        · have hr0 : 0 ≤ (r.map coinUnits).sum :=
            coinUnits_sum_nonneg r (fun c hc => hproc c (hr.subset hc))
          simp only [List.map_cons, List.sum_cons] at hsum hzero hi ⊢
          have h2 := (hafter _ (by omega) hi).2 (by omega)
          have h3 := hb r hr (by omega)
          have hidx : (coinUnits coin + (r.map coinUnits).sum).toNat - (coinUnits coin).toNat =
              ((r.map coinUnits).sum).toNat := by omega
          rw [hidx] at h2
          simp only [List.length_cons]
          omega
    obtain ⟨rows, hrows, hlen, hfinal⟩ :=
      ih (coin :: processed) next_row row hn (by rw [hl, hn]) hn0 hrow0
        (fun c hc => hrest c (List.mem_cons_of_mem coin hc))
        (fun c hc => by
          rcases List.mem_cons.mp hc with rfl | hc
          · exact hd
          · exact hproc c hc)
        hbound
    refine ⟨rows, ?_, hlen, by simpa using hfinal⟩
    unfold knapsackRows
    simp only []
    have hrow1 : knapsackRow (Int.tdiv coin.get_denomination_value zeros) next_row val.toNat 1
        prev_row = .ok row := hrow
    rw [hrow1]
    exact hrows

/-- When every coin has positive units and the last coin of the list has at
most `val` units, the knapsack stays inside its rows and returns a row of
`val + 1` entries that bounds the selections from the coins. -/
theorem knapsackTable_bound (val : Int) (hval : 0 ≤ val) (coins : List CSigmaEntry)
    (hne : coins ≠ []) (hpos : ∀ c ∈ coins, 0 < coinUnits c)
    (hlast : ∀ c, coins.reverse.head? = some c → coinUnits c ≤ val) :
    ∃ row : List Nat, knapsackTable val coins = .ok row ∧ row.length = (val + 1).toNat ∧
      rowBound val row coins := by
  unfold knapsackTable
  simp only []
  cases hrev : coins.reverse with
  | nil => exact absurd (List.reverse_eq_nil_iff.mp hrev) hne
  | cons last others =>
    simp only []
    have hcoins : coins = others.reverse ++ [last] := by
      have := congrArg List.reverse hrev
      simpa using this
    have hlastpos : 0 < coinUnits last := hpos last (by rw [hcoins]; simp)
    have hlastle : coinUnits last ≤ val := hlast last (by rw [hrev]; rfl)
    have hL : 0 < (val + 1).toNat := by omega
    have h0 : rowSet (List.replicate (val + 1).toNat rowUnreachable) 0 0 =
        .ok ((List.replicate (val + 1).toNat rowUnreachable).set 0 0) := by
      have := rowSet_of_lt (List.replicate (val + 1).toNat rowUnreachable) 0 0
        (by rw [List.length_replicate]; exact hL)
      simpa using this
    rw [h0]
    simp only []
    have hu : Int.tdiv last.get_denomination_value zeros = ((coinUnits last).toNat : Int) := by
      show coinUnits last = _
      omega
    have hlen1 : ((List.replicate (val + 1).toNat rowUnreachable).set 0 0).length =
        (val + 1).toNat := by
      rw [List.length_set, List.length_replicate]
    rw [hu, rowSet_of_lt _ (coinUnits last).toNat 1 (by rw [hlen1]; omega)]
    simp only []
    obtain ⟨rows, hrows, hlen, hfinal⟩ :=
      knapsackRows_bound val hval others [last] (List.replicate (val + 1).toNat 0)
        (((List.replicate (val + 1).toNat rowUnreachable).set 0 0).set (coinUnits last).toNat 1)
        (List.length_replicate _ _) (by rw [List.length_set, hlen1])
        (by rw [List.getD_eq_getElem?_getD, List.getElem?_replicate, if_pos hL]; rfl)
        (by rw [getD_set_ne _ _ 0 _ (by omega), getD_set_self _ 0 0
              (by rw [List.length_replicate]; exact hL)])
        (fun c hc => le_of_lt (hpos c (by rw [hcoins]; simp [hc])))
        (fun c hc => by
          rw [List.mem_singleton] at hc
          subst hc
          exact le_of_lt hlastpos)
        (by
          intro S hS hsum
          rcases List.sublist_cons_iff.mp hS with h1 | ⟨r, rfl, hr⟩
          · rw [List.sublist_nil] at h1
            subst h1
            simp only [List.map_nil, List.sum_nil, Int.toNat_zero, List.length_nil,
              Nat.le_zero_eq]
            rw [getD_set_ne _ _ 0 _ (by omega), getD_set_self _ 0 0
              (by rw [List.length_replicate]; exact hL)]
          · rw [List.sublist_nil] at hr
            subst hr
            simp only [List.map_cons, List.map_nil, List.sum_cons, List.sum_nil, add_zero,
              List.length_cons, List.length_nil]
            rw [getD_set_self _ _ 1 (by rw [hlen1]; omega)])
    rw [hrows]
    refine ⟨rows.2, rfl, hlen, ?_⟩
    rw [hcoins]
    exact hfinal

end KnapsackTable

section SpendLimit

open CWallet

variable {D O : Type}

/-- Unfolding of `GetCoinsToSpend` once its checks pass, the knapsack returns
its row and a value of `best_spend_val` is chosen. -/
theorem getCoinsToSpend_pass (MAX_MONEY : Int) (env : DenomEnv D) (fuel : Nat)
    (required : Int) (coinsToSpend_out : List CSigmaEntry) (coinsToMint_out : List D)
    (coins : List CSigmaEntry) (coinsToSpendLimit : Nat) (amountToSpendLimit : Int)
    (coinControl : Option (CCoinControl O))
    (h1 : MoneyRange MAX_MONEY required = true)
    (h2 : MoneyRange MAX_MONEY amountToSpendLimit = true)
    (h3 : roundedRequiredOf required ≤ Int.tdiv amountToSpendLimit zeros)
    (h4 : roundedRequiredOf required * zeros ≤ CalculateCoinsBalance coins)
    (d0 : D) (ds : List D) (hden : env.GetAllDenoms = d0 :: ds)
    (max_coin_value : Int) (hmax : env.DenominationToInteger d0 = some max_coin_value)
    (next_row : List Nat)
    (hk : knapsackTable (min (roundedRequiredOf required + Int.tdiv max_coin_value zeros)
      (Int.tdiv amountToSpendLimit zeros)) (listSort denominationComparer coins) = .ok next_row)
    (best_spend_val : Int)
    (hb : bestSpendValue env fuel (d0 :: ds) next_row (listSort denominationComparer coins)
      (roundedRequiredOf required)
      (min (roundedRequiredOf required + Int.tdiv max_coin_value zeros)
        (Int.tdiv amountToSpendLimit zeros))
      coinsToSpendLimit coinControl = .ok best_spend_val) :
    GetCoinsToSpend MAX_MONEY env fuel required coinsToSpend_out coinsToMint_out coins
      coinsToSpendLimit amountToSpendLimit coinControl =
    spendFinish env fuel best_spend_val (roundedRequiredOf required) (d0 :: ds)
      (listSort denominationComparer coins) coinsToSpend_out coinsToMint_out := by
  unfold GetCoinsToSpend
  simp only [h1, h2, Bool.not_true, Bool.false_eq_true, if_false]
  rw [if_neg (by omega), if_neg (by omega), hden]
  simp only []
  rw [hmax]
  simp only []
  rw [hk]
  simp only []
  rw [hb]

/-- C19, on a failing input without used coins: from one coin of 25, three of 10
and five of 1, a request of 30 coins with `coinsToSpendLimit = 3` (and an amount
limit of 30 coins) returns true with six coins to spend: the knapsack finds 30
with the three coins of 10, the selection takes the coin of 25 and the five
coins of 1. -/
theorem getCoinsToSpend_exceeds_limit :
    (GetCoinsToSpend 2100000000000000 toyDenomEnv 20 3000000000 [] [] toyMixedWallet 3
      3000000000 (none : Option (CCoinControl Nat))).result = .ok true ∧
    (GetCoinsToSpend 2100000000000000 toyDenomEnv 20 3000000000 [] [] toyMixedWallet 3
      3000000000 (none : Option (CCoinControl Nat))).coinsToSpend_out =
      [toySigma 500 1 false, toySigma 20 5 false, toySigma 20 6 false, toySigma 20 7 false,
       toySigma 20 8 false, toySigma 20 9 false] ∧
    (∀ c ∈ toyMixedWallet, c.IsUsed = false) := by
  have hsorted : listSort denominationComparer toyMixedWallet = toyMixedWallet := by decide
  have hval : min (roundedRequiredOf 3000000000 + Int.tdiv 10000000000 zeros)
      (Int.tdiv 3000000000 zeros) = 600 := by decide
  have hR : roundedRequiredOf 3000000000 = 600 := by decide
  obtain ⟨row, hrow, hlen, hbound⟩ := knapsackTable_bound 600 (by decide) toyMixedWallet
    (by decide) (by decide) (by decide)
  have h600 : row.getD 600 0 ≤ 3 :=
    hbound [toySigma 200 2 false, toySigma 200 3 false, toySigma 200 4 false]
      (by decide) (by decide)
  have hget : rowGet row 600 = .ok (row.getD 600 0) := by
    have := rowGet_of_lt row 600 (by rw [hlen]; decide)
    simpa using this
  have hcount : GetRequiredCoinCountForAmount toyDenomEnv 20 ((600 - 600) * zeros)
      [2000, 500, 200, 20, 10, 2, 1] = some 0 := by decide
  have hbest : bestSpendValue toyDenomEnv 20 [2000, 500, 200, 20, 10, 2, 1] row toyMixedWallet
      600 600 3 (none : Option (CCoinControl Nat)) = .ok (600 * zeros) := by
    unfold bestSpendValue
    have hsteps : ((600 : Int) - 600 + 1).toNat = 1 := by decide
    simp only [hsteps, Bool.false_eq_true, if_false]
    unfold bestSpendLoop
    simp only [ge_iff_le, le_refl, if_true, hget, hcount]
    have hc1 : (INT_MAX - 1 > ((row.getD 600 0 : Nat) : Int) + 0 &&
        row.getD 600 0 != rowUnreachable && decide (row.getD 600 0 ≤ 3)) = true := by
      have hu : rowUnreachable = 1073741823 := by decide
      have hi : INT_MAX = 2147483647 := rfl
      simp only [Bool.and_eq_true, decide_eq_true_eq, bne_iff_ne, ne_eq, hu, hi]
      omega
    rw [if_pos hc1]
    unfold bestSpendLoop
    have hi : INT_MAX = 2147483647 := rfl
    rw [if_neg (by decide)]
    simp only []
    rw [if_neg (by rw [hi]; omega)]
  have heq := getCoinsToSpend_pass 2100000000000000 toyDenomEnv 20 3000000000 [] []
    toyMixedWallet 3 3000000000 (none : Option (CCoinControl Nat)) (by decide) (by decide)
    (by decide) (by decide) 2000 [500, 200, 20, 10, 2, 1] rfl 10000000000 rfl row
    (by rw [hval, hsorted]; exact hrow) (600 * zeros)
    (by rw [hval, hsorted, hR]; exact hbest)
  rw [heq, hsorted, hR]
  exact ⟨rfl, by decide, by decide⟩

end SpendLimit
